import Mathlib

/-!
# Caching decorator of the repository service (package `repository`)

A shallow embedding of `src/src/repository/repository.go` and
`src/src/repository/cache.go`.

Conventions of the embedding

* A Go `string` that names a repository or a reference (the fields of `Slug`,
  `ID` and `Reference`) or is the message of an error is a `GoString`, a
  sequence of bytes that need not be valid UTF-8: these strings are hashed
  byte by byte and go through `encoding/json`.  A text is read as its UTF-8
  bytes.  The other Go `string` and `[]byte` values (keys, JSON texts, commit
  and user ids) are only copied and concatenated, and are a Lean `String`; the
  conversions `[]byte(s)` and `string(b)` are the identity.
* A Go pointer `*T` is an `Option T`, `nil` being `none`.  Dereferencing `nil`
  is a run-time panic, which the embedding records as the outcome `Res.panic`.
* A Go slice `[]T` is a `Slice T`: the `nil` slice is kept apart from the empty
  non-nil slice.
* A Go `error` is an `Option Error`, `nil` being `none`; a result pair
  `(v, err)` is a Lean pair.
* The wrapped adapter (interface `Service`) is a record of answers.  Every call
  made to it, and every `Get`/`Set` made on the cache store, is appended to the
  trace of the `World`, so that "invokes no adapter operation" and "performs no
  store access" are statements about the trace.
* Package `encoding/json` and package `cache` are not part of the sources; the
  former is a parameter (`JSON`), the latter is modelled from its contract.
-/

set_option linter.dupNamespace false
set_option maxRecDepth 100000

namespace Metabase

/-! ## Go values -/

/-- A Go slice: the nil slice, or a (possibly empty) sequence of elements. -/
inductive Slice (α : Type) where
  | nil : Slice α
  | mk (elems : List α) : Slice α
  deriving DecidableEq, Repr

namespace Slice

/-- The elements of a slice; the nil slice has none. -/
def elems {α : Type} : Slice α → List α
  | nil => []
  | mk xs => xs

/-- Go `len(s)`. -/
def len {α : Type} (s : Slice α) : Nat := s.elems.length

/-- Go `append(s, x)`: the result is never nil. -/
def push {α : Type} (s : Slice α) (x : α) : Slice α := mk (s.elems ++ [x])

/-- Go `append(a, b...)`: appending no element gives back `a` itself (a nil
slice stays nil), otherwise the result holds the elements of both. -/
def append {α : Type} (a b : Slice α) : Slice α :=
  match b.elems with
  | [] => a
  | _ :: _ => mk (a.elems ++ b.elems)

/-- A slice of non-nil pointers to the given values. -/
def ptrs {α : Type} : Slice α → Slice (Option α)
  | nil => nil
  | mk xs => mk (xs.map some)

end Slice

/-- A Go `string` as a sequence of bytes, which need not be valid UTF-8. -/
abbrev GoString : Type := List UInt8

/-- The Go string of a text: its UTF-8 bytes, as for a Go string literal. -/
def GoString.ofString (s : String) : GoString := s.data.flatMap String.utf8EncodeChar

instance : Coe String GoString := ⟨GoString.ofString⟩

/-- Go `error` values that the package tells apart: the sentinel
`repository.ErrNotFound`, the sentinel `cache.ErrCacheMiss`, and any other
error, identified by its message. -/
inductive Error where
  | ErrNotFound : Error
  | ErrCacheMiss : Error
  | other (msg : GoString) : Error
  deriving DecidableEq, Repr

/-! ## repository.go -/

/-- Go `type Slug struct { Saas, Owner, Name string }`. -/
structure Slug where
  Saas : GoString
  Owner : GoString
  Name : GoString
  deriving DecidableEq, Repr

/-- Go `type ID struct { Saas, OwnerID, ID string }`. -/
structure ID where
  Saas : GoString
  OwnerID : GoString
  ID : GoString
  deriving DecidableEq, Repr

/-- Go `type Permissions struct { Admin bool }`. -/
structure Permissions where
  Admin : Bool
  deriving DecidableEq, Repr

/-- Go `type Repository struct { Slug; ID ID; Permissions Permissions }`. -/
structure Repository where
  Slug : Slug
  ID : ID
  Permissions : Permissions
  deriving DecidableEq, Repr

/-- Go constant `ReferenceTypeBranch`. -/
def ReferenceTypeBranch : GoString := "branch"

/-- Go constant `ReferenceTypeTag`. -/
def ReferenceTypeTag : GoString := "tag"

/-- Go `type Reference struct { Type, Name string }`; the field `Type` is
named `Type_`, `Type` being reserved. -/
structure Reference where
  Type_ : GoString
  Name : GoString
  deriving DecidableEq, Repr

/-- Go `(*Reference).IsBranch`, on a non-nil receiver. -/
def Reference.IsBranch (ref : Reference) : Bool := ref.Type_ == ReferenceTypeBranch

/-- Go `(*Reference).IsTag`, on a non-nil receiver. -/
def Reference.IsTag (ref : Reference) : Bool := ref.Type_ == ReferenceTypeTag

/-- Go `type DeployKey struct { ID string }`. -/
structure DeployKey where
  ID : String
  deriving DecidableEq, Repr

/-- Go `type Webhook struct { ID string }`. -/
structure Webhook where
  ID : String
  deriving DecidableEq, Repr

/-- The bytes of a Go string, Go `[]byte(s)`. -/
def strBytes (s : GoString) : List UInt8 := s

/-- The 64-bit FNV offset basis (`hash/fnv`, `offset64`). -/
def fnvOffset64 : Nat := 14695981039346656037

/-- The 64-bit FNV prime (`hash/fnv`, `prime64`). -/
def fnvPrime64 : Nat := 1099511628211

/-- Go `(*sum64a).Write`: for each byte, xor then multiply, modulo `2^64`. -/
def fnvWrite (h : Nat) (bytes : List UInt8) : Nat :=
  bytes.foldl (fun acc b => ((acc ^^^ b.toNat) * fnvPrime64) % 2 ^ 64) h

/-- Go `(*Slug).Hash`, on a non-nil receiver. -/
def Slug.Hash (slug : Slug) : Nat :=
  fnvWrite (fnvWrite (fnvWrite fnvOffset64 (strBytes slug.Saas)) (strBytes slug.Owner))
    (strBytes slug.Name)

/-- Go `(*ID).Hash`, on a non-nil receiver. -/
def ID.Hash (id : Metabase.ID) : Nat :=
  fnvWrite (fnvWrite (fnvWrite fnvOffset64 (strBytes id.Saas)) (strBytes id.OwnerID))
    (strBytes id.ID)

/-- Go `(*Reference).Hash`, on a non-nil receiver. -/
def Reference.Hash (ref : Reference) : Nat :=
  fnvWrite (fnvWrite fnvOffset64 (strBytes ref.Type_)) (strBytes ref.Name)

/-- Go `interface Service`: the answers of the wrapped adapter. -/
structure Service where
  GetServiceName : String
  GetUserID : String × Option Error
  GetRepositoryBySlug : Option Slug → Option Repository × Option Error
  GetRepositoryByID : Option ID → Option Repository × Option Error
  ListRepositories : Slice (Option Repository) × Option Error
  ListReferences : Option Slug → Slice (Option Reference) × Option Error
  ListBranches : Option Slug → Slice (Option Reference) × Option Error
  ListTags : Option Slug → Slice (Option Reference) × Option Error
  GetCommitID : Option Slug → Option Reference → String × Option Error
  RegisterDeployKey : Option Slug → String → String → Option DeployKey × Option Error
  UnregisterDeployKey : Option Slug → Option DeployKey → Option Error
  ExistsDeployKey : Option Slug → Option DeployKey → Bool × Option Error
  RegisterWebhook : Option Slug → String → Option Webhook × Option Error
  UnregisterWebhook : Option Slug → Option Webhook → Option Error
  ExistsWebhook : Option Slug → Option Webhook → Bool × Option Error

/-! ## The cache store (package `cache`) and `encoding/json` -/

/-- Go `cache.Item`: key, raw value and time to live (in nanoseconds). -/
structure Item where
  Key : String
  Value : String
  Expiration : Nat
  deriving DecidableEq, Repr

/-- The content of a cache store: its entries, at most one being read per key. -/
abbrev Storage := List Item

/-- The entry stored under a key, if any. -/
def Storage.lookup (mem : Storage) (key : String) : Option Item :=
  mem.find? (fun it => it.Key == key)

/-- The content after an entry was written: it replaces the entry of its key. -/
def Storage.insert (mem : Storage) (item : Item) : Storage :=
  item :: mem.filter (fun it => !(it.Key == item.Key))

/-- Modelled from the spec: the cache store of package `cache` (interface
`cache.Store`), which is not among the sources.  It is a key/value store whose
`Get` answers the entry or the miss sentinel and whose `Set` writes an entry;
either may instead fail with an error of the store (`getErr`, `setErr`), in
which case nothing is read or written. -/
structure Store where
  getErr : Option Error
  setErr : Option Error
  deriving DecidableEq, Repr

/-- A store whose `Get` and `Set` both work. -/
def Store.working : Store := { getErr := none, setErr := none }

/-- Modelled from the spec: `cache.Store.Get`, a miss being the sentinel
`cache.ErrCacheMiss`. -/
def Store.Get (s : Store) (mem : Storage) (key : String) : Except Error Item :=
  match s.getErr with
  | some e => .error e
  | none =>
    match mem.lookup key with
    | some item => .ok item
    | none => .error Error.ErrCacheMiss

/-- Modelled from the spec: `cache.Store.Set`. -/
def Store.Set (s : Store) (mem : Storage) (item : Item) : Storage × Option Error :=
  match s.setErr with
  | some e => (mem, some e)
  | none => (mem.insert item, none)

/-- Go `const cacheExpiration = 24 * time.Hour`, in nanoseconds. -/
def cacheExpiration : Nat := 24 * 3600 * 1000000000

/-- Go `type references struct { Slug Slug; Refs []*Reference }`. -/
structure references where
  Slug : Slug
  Refs : Slice (Option Reference)
  deriving DecidableEq, Repr

/-- Go `type commit struct { Slug Slug; Ref Reference; ID string }`. -/
structure commit where
  Slug : Slug
  Ref : Reference
  ID : String
  deriving DecidableEq, Repr

/-- Package `encoding/json` at the types the cache layer serialises.
`Marshal*` is `json.Marshal` (`none` when it returns an error); `Unmarshal*` is
`json.Unmarshal` into a fresh value of the type (`none` when it returns an
error). -/
structure JSON where
  MarshalRepository : Option Repository → Option String
  UnmarshalRepository : String → Option Repository
  MarshalRepositories : Slice (Option Repository) → Option String
  UnmarshalRepositories : String → Option (Slice (Option Repository))
  MarshalReferences : references → Option String
  UnmarshalReferences : String → Option references
  MarshalCommit : commit → Option String
  UnmarshalCommit : String → Option commit

/-- Modelled from the spec: `(*cache.JSONItem).Item`, the JSON-envelope
convenience of package `cache`: it marshals the typed value and builds the raw
entry with the same key and expiration, or fails when marshalling fails. -/
def JSONItem.Item (encoded : Option String) (key : String) (expiration : Nat) : Option Item :=
  match encoded with
  | some bytes => some { Key := key, Value := bytes, Expiration := expiration }
  | none => none

/-! ## Execution: store content, trace, panics -/

/-- One observable step of an operation: an access to the cache store or a
call of the wrapped adapter, with its arguments. -/
inductive Event where
  | storeGet (key : String) : Event
  | storeSet (item : Item) : Event
  | GetUserID : Event
  | GetRepositoryBySlug (slug : Option Slug) : Event
  | GetRepositoryByID (id : Option ID) : Event
  | ListRepositories : Event
  | ListReferences (slug : Option Slug) : Event
  | ListBranches (slug : Option Slug) : Event
  | ListTags (slug : Option Slug) : Event
  | GetCommitID (slug : Option Slug) (ref : Option Reference) : Event
  | RegisterDeployKey (slug : Option Slug) (publicKey title : String) : Event
  | UnregisterDeployKey (slug : Option Slug) (deployKey : Option DeployKey) : Event
  | ExistsDeployKey (slug : Option Slug) (deployKey : Option DeployKey) : Event
  | RegisterWebhook (slug : Option Slug) (hookURL : String) : Event
  | UnregisterWebhook (slug : Option Slug) (webhook : Option Webhook) : Event
  | ExistsWebhook (slug : Option Slug) (webhook : Option Webhook) : Event
  deriving DecidableEq, Repr

/-- Whether the step is an access to the cache store. -/
def Event.isStore : Event → Bool
  | .storeGet _ => true
  | .storeSet _ => true
  | _ => false

/-- Whether the step is a call of the wrapped adapter. -/
def Event.isAdapter (e : Event) : Bool := !e.isStore

/-- The mutable world of an operation: the content of the cache store and the
steps performed so far, oldest first. -/
structure World where
  storage : Storage
  trace : List Event
  deriving DecidableEq, Repr

/-- The outcome of running an operation: a returned value, or a panic. -/
inductive Res (α : Type) where
  | ok (val : α) (w : World) : Res α
  | panic (w : World) : Res α

/-- An operation: a function from the world before to the outcome. -/
def Op (α : Type) : Type := World → Res α

namespace Op

/-- Return a value without touching the world. -/
def ret {α : Type} (a : α) : Op α := fun w => Res.ok a w

/-- Sequence two operations; a panic stops the execution. -/
def andThen {α β : Type} (m : Op α) (f : α → Op β) : Op β := fun w =>
  match m w with
  | Res.ok a w1 => f a w1
  | Res.panic w1 => Res.panic w1

/-- A nil-pointer dereference. -/
def nilDeref {α : Type} : Op α := fun w => Res.panic w

/-- Go `*p`: the pointed value, or a panic when `p` is nil. -/
def deref {α : Type} : Option α → Op α
  | some a => ret a
  | none => nilDeref

/-- Record a step on the trace. -/
def emit (e : Event) : Op Unit := fun w =>
  Res.ok () { w with trace := w.trace ++ [e] }

/-- Call the adapter: the call is recorded and its answer returned. -/
def call {α : Type} (e : Event) (answer : α) : Op α := fun w =>
  Res.ok answer { w with trace := w.trace ++ [e] }

/-- Go `cacheStore.Get(key)`. -/
def storeGet (s : Store) (key : String) : Op (Except Error Item) := fun w =>
  Res.ok (s.Get w.storage key) { w with trace := w.trace ++ [Event.storeGet key] }

/-- Go `cacheStore.Set(item)`. -/
def storeSet (s : Store) (item : Item) : Op (Option Error) := fun w =>
  Res.ok (s.Set w.storage item).2
    { storage := (s.Set w.storage item).1, trace := w.trace ++ [Event.storeSet item] }

/-- Run an operation on a store content, with an empty trace. -/
def run {α : Type} (m : Op α) (mem : Storage) : Res α := m { storage := mem, trace := [] }

end Op

instance : Monad Op where
  pure := Op.ret
  bind := Op.andThen

/-! ## cache.go: the shared plumbing -/

/-- Go `type serviceWithCacheBase struct { raw Service; cacheStore cache.Store;
cacheKey string }`. -/
structure serviceWithCacheBase where
  raw : Service
  cacheStore : Store
  cacheKey : String

/-- Go `newServiceWithCacheBase`; `fmt.Sprintf("repository-service/%s/%s", ...)`
is string concatenation. -/
def newServiceWithCacheBase (service : Option Service) (cacheStore : Option Store)
    (cacheKey : String) : Except Error serviceWithCacheBase :=
  match service with
  | none => .error (Error.other "no repository service specified")
  | some raw =>
    match cacheStore with
    | none => .error (Error.other "no cache store specified")
    | some store =>
      .ok { raw := raw
            cacheStore := store
            cacheKey := "repository-service/" ++ raw.GetServiceName ++ "/" ++ cacheKey }

section Codec

variable (js : JSON)

/-- Go `repositoryFromCacheItem`. -/
def repositoryFromCacheItem (item : Option Item) : Option Repository :=
  match item with
  | none => none
  | some it => js.UnmarshalRepository it.Value

/-- Go `repositoriesFromCacheItem`; the nil slice is returned for a nil item
and for a value that does not unmarshal. -/
def repositoriesFromCacheItem (item : Option Item) : Slice (Option Repository) :=
  match item with
  | none => Slice.nil
  | some it =>
    match js.UnmarshalRepositories it.Value with
    | some repos => repos
    | none => Slice.nil

/-- Go `referencesFromCacheItem`. -/
def referencesFromCacheItem (item : Option Item) : Option references :=
  match item with
  | none => none
  | some it => js.UnmarshalReferences it.Value

/-- Go `commitFromCacheItem`. -/
def commitFromCacheItem (item : Option Item) : Option commit :=
  match item with
  | none => none
  | some it => js.UnmarshalCommit it.Value

end Codec

/-- One turn of the loop of `separateReferences`: `ref.IsBranch()` dereferences
`ref`, so a nil element panics (`none`). -/
def separateStep (acc : Option (Slice (Option Reference) × Slice (Option Reference)))
    (ref : Option Reference) : Option (Slice (Option Reference) × Slice (Option Reference)) :=
  match acc with
  | none => none
  | some (branches, tags) =>
    match ref with
    | none => none
    | some r =>
      if r.IsBranch then some (branches.push ref, tags)
      else if r.IsTag then some (branches, tags.push ref)
      else some (branches, tags)

/-- Go `separateReferences`: `none` is a panic. -/
def separateReferences (refs : Slice (Option Reference)) :
    Option (Slice (Option Reference) × Slice (Option Reference)) :=
  refs.elems.foldl separateStep (some (Slice.nil, Slice.nil))

namespace serviceWithCacheBase

/-- Go `branchesCacheKey`; `slug.Hash()` dereferences `slug`. -/
def branchesCacheKey (service : serviceWithCacheBase) (slug : Slug) : String :=
  service.cacheKey ++ "/ListBranches/" ++ toString slug.Hash

/-- Go `tagsCacheKey`; `slug.Hash()` dereferences `slug`. -/
def tagsCacheKey (service : serviceWithCacheBase) (slug : Slug) : String :=
  service.cacheKey ++ "/ListTags/" ++ toString slug.Hash

section Codec

variable (js : JSON)

/-- Go `retrieveReferencesCache`. -/
def retrieveReferencesCache (service : serviceWithCacheBase) (slug : Option Slug)
    (key : String) : Op (Slice (Option Reference) × Option Error) := do
  let got ← Op.storeGet service.cacheStore key
  match got with
  | .error err => return (Slice.nil, some err)
  | .ok item =>
    match referencesFromCacheItem js (some item) with
    | none => return (Slice.nil, some Error.ErrCacheMiss)
    | some refs =>
      let s ← Op.deref slug
      if refs.Slug ≠ s then return (Slice.nil, some Error.ErrCacheMiss)
      else return (refs.Refs, none)

/-- Go `storeReferencesCache`: the entry is written with a best effort, the
error of `Set` being dropped. -/
def storeReferencesCache (service : serviceWithCacheBase) (slug : Option Slug)
    (key : String) (refs : Slice (Option Reference)) : Op Unit := do
  let s ← Op.deref slug
  let refsCache : references := { Slug := s, Refs := refs }
  match JSONItem.Item (js.MarshalReferences refsCache) key cacheExpiration with
  | some item =>
    let _ ← Op.storeSet service.cacheStore item
    return ()
  | none => return ()

/-- Go `retrieveBranchesCache`. -/
def retrieveBranchesCache (service : serviceWithCacheBase) (slug : Option Slug) :
    Op (Slice (Option Reference) × Option Error) := do
  let s ← Op.deref slug
  service.retrieveReferencesCache js slug (service.branchesCacheKey s)

/-- Go `storeBranchesCache`. -/
def storeBranchesCache (service : serviceWithCacheBase) (slug : Option Slug)
    (branches : Slice (Option Reference)) : Op Unit := do
  let s ← Op.deref slug
  service.storeReferencesCache js slug (service.branchesCacheKey s) branches

/-- Go `retrieveTagsCache`. -/
def retrieveTagsCache (service : serviceWithCacheBase) (slug : Option Slug) :
    Op (Slice (Option Reference) × Option Error) := do
  let s ← Op.deref slug
  service.retrieveReferencesCache js slug (service.tagsCacheKey s)

/-- Go `storeTagsCache`. -/
def storeTagsCache (service : serviceWithCacheBase) (slug : Option Slug)
    (tags : Slice (Option Reference)) : Op Unit := do
  let s ← Op.deref slug
  service.storeReferencesCache js slug (service.tagsCacheKey s) tags

end Codec

/-- Go `(*serviceWithCacheBase).GetServiceName`. -/
def GetServiceName (service : serviceWithCacheBase) : String :=
  service.raw.GetServiceName

/-- Go `(*serviceWithCacheBase).RegisterDeployKey`. -/
def RegisterDeployKey (service : serviceWithCacheBase) (slug : Option Slug)
    (publicKey title : String) : Op (Option DeployKey × Option Error) :=
  Op.call (Event.RegisterDeployKey slug publicKey title)
    (service.raw.RegisterDeployKey slug publicKey title)

/-- Go `(*serviceWithCacheBase).UnregisterDeployKey`. -/
def UnregisterDeployKey (service : serviceWithCacheBase) (slug : Option Slug)
    (deployKey : Option DeployKey) : Op (Option Error) :=
  Op.call (Event.UnregisterDeployKey slug deployKey)
    (service.raw.UnregisterDeployKey slug deployKey)

/-- Go `(*serviceWithCacheBase).ExistsDeployKey`. -/
def ExistsDeployKey (service : serviceWithCacheBase) (slug : Option Slug)
    (deployKey : Option DeployKey) : Op (Bool × Option Error) :=
  Op.call (Event.ExistsDeployKey slug deployKey)
    (service.raw.ExistsDeployKey slug deployKey)

/-- Go `(*serviceWithCacheBase).RegisterWebhook`. -/
def RegisterWebhook (service : serviceWithCacheBase) (slug : Option Slug)
    (hookURL : String) : Op (Option Webhook × Option Error) :=
  Op.call (Event.RegisterWebhook slug hookURL) (service.raw.RegisterWebhook slug hookURL)

/-- Go `(*serviceWithCacheBase).UnregisterWebhook`. -/
def UnregisterWebhook (service : serviceWithCacheBase) (slug : Option Slug)
    (webhook : Option Webhook) : Op (Option Error) :=
  Op.call (Event.UnregisterWebhook slug webhook) (service.raw.UnregisterWebhook slug webhook)

/-- Go `(*serviceWithCacheBase).ExistsWebhook`. -/
def ExistsWebhook (service : serviceWithCacheBase) (slug : Option Slug)
    (webhook : Option Webhook) : Op (Bool × Option Error) :=
  Op.call (Event.ExistsWebhook slug webhook) (service.raw.ExistsWebhook slug webhook)

end serviceWithCacheBase

/-! ## cache.go: the always-fresh variant -/

/-- Go `type ServiceWithLatest struct { *serviceWithCacheBase }`. -/
structure ServiceWithLatest where
  base : serviceWithCacheBase

/-- Go `NewServiceWithLatest`. -/
def NewServiceWithLatest (service : Option Service) (cacheStore : Option Store)
    (cacheKey : String) : Except Error ServiceWithLatest :=
  match newServiceWithCacheBase service cacheStore cacheKey with
  | .error err => .error err
  | .ok base => .ok { base := base }

namespace ServiceWithLatest

/-- Go `(*ServiceWithLatest).GetUserID`. -/
def GetUserID (service : ServiceWithLatest) : Op (String × Option Error) := do
  let (userID, err) ← Op.call Event.GetUserID service.base.raw.GetUserID
  if err ≠ none then return ("", err)
  else
    let _ ← Op.storeSet service.base.cacheStore
      { Key := service.base.cacheKey ++ "/GetUserID"
        Value := userID
        Expiration := cacheExpiration }
    return (userID, none)

section Codec

variable (js : JSON)

/-- Go `(*ServiceWithLatest).GetRepositoryBySlug`. -/
def GetRepositoryBySlug (service : ServiceWithLatest) (slug : Option Slug) :
    Op (Option Repository × Option Error) := do
  let (repo, err) ← Op.call (Event.GetRepositoryBySlug slug)
    (service.base.raw.GetRepositoryBySlug slug)
  if err ≠ none then return (none, err)
  else
    let s ← Op.deref slug
    let key := service.base.cacheKey ++ "/GetRepositoryBySlug/" ++ toString s.Hash
    match JSONItem.Item (js.MarshalRepository repo) key cacheExpiration with
    | some item =>
      let _ ← Op.storeSet service.base.cacheStore item
      return (repo, none)
    | none => return (repo, none)

/-- Go `(*ServiceWithLatest).GetRepositoryByID`. -/
def GetRepositoryByID (service : ServiceWithLatest) (id : Option ID) :
    Op (Option Repository × Option Error) := do
  let (repo, err) ← Op.call (Event.GetRepositoryByID id)
    (service.base.raw.GetRepositoryByID id)
  if err ≠ none then return (none, err)
  else
    let i ← Op.deref id
    let key := service.base.cacheKey ++ "/GetRepositoryByID/" ++ toString i.Hash
    match JSONItem.Item (js.MarshalRepository repo) key cacheExpiration with
    | some item =>
      let _ ← Op.storeSet service.base.cacheStore item
      return (repo, none)
    | none => return (repo, none)

/-- Go `(*ServiceWithLatest).ListRepositories`. -/
def ListRepositories (service : ServiceWithLatest) :
    Op (Slice (Option Repository) × Option Error) := do
  let (repos, err) ← Op.call Event.ListRepositories service.base.raw.ListRepositories
  if err ≠ none then return (Slice.nil, err)
  else
    let key := service.base.cacheKey ++ "/ListRepositories"
    match JSONItem.Item (js.MarshalRepositories repos) key cacheExpiration with
    | some item =>
      let _ ← Op.storeSet service.base.cacheStore item
      return (repos, none)
    | none => return (repos, none)

/-- Go `(*ServiceWithLatest).ListReferences`: `ErrNotFound` does not stop the
write of the two sub-caches and is returned with the list. -/
def ListReferences (service : ServiceWithLatest) (slug : Option Slug) :
    Op (Slice (Option Reference) × Option Error) := do
  let (refs, err) ← Op.call (Event.ListReferences slug) (service.base.raw.ListReferences slug)
  if err ≠ none ∧ err ≠ some Error.ErrNotFound then return (Slice.nil, err)
  else
    match separateReferences refs with
    | none => Op.nilDeref
    | some (branches, tags) =>
      service.base.storeBranchesCache js slug branches
      service.base.storeTagsCache js slug tags
      return (refs, err)

/-- Go `(*ServiceWithLatest).ListBranches`. -/
def ListBranches (service : ServiceWithLatest) (slug : Option Slug) :
    Op (Slice (Option Reference) × Option Error) := do
  let (branches, err) ← Op.call (Event.ListBranches slug) (service.base.raw.ListBranches slug)
  if err ≠ none ∧ err ≠ some Error.ErrNotFound then return (Slice.nil, err)
  else
    service.base.storeBranchesCache js slug branches
    return (branches, err)

/-- Go `(*ServiceWithLatest).ListTags`. -/
def ListTags (service : ServiceWithLatest) (slug : Option Slug) :
    Op (Slice (Option Reference) × Option Error) := do
  let (tags, err) ← Op.call (Event.ListTags slug) (service.base.raw.ListTags slug)
  if err ≠ none ∧ err ≠ some Error.ErrNotFound then return (Slice.nil, err)
  else
    service.base.storeTagsCache js slug tags
    return (tags, err)

/-- Go `(*ServiceWithLatest).GetCommitID`. -/
def GetCommitID (service : ServiceWithLatest) (slug : Option Slug) (ref : Option Reference) :
    Op (String × Option Error) := do
  let (commitID, err) ← Op.call (Event.GetCommitID slug ref)
    (service.base.raw.GetCommitID slug ref)
  if err ≠ none then return ("", err)
  else
    let s ← Op.deref slug
    let r ← Op.deref ref
    let c : commit := { Slug := s, Ref := r, ID := commitID }
    let key := service.base.cacheKey ++ "/GetCommitID/" ++ toString s.Hash ++ "/"
      ++ toString r.Hash
    match JSONItem.Item (js.MarshalCommit c) key cacheExpiration with
    | some item =>
      let _ ← Op.storeSet service.base.cacheStore item
      return (commitID, none)
    | none => return (commitID, none)

end Codec

end ServiceWithLatest

/-! ## cache.go: the cache-first variant -/

/-- Go `type ServiceWithCache struct { *serviceWithCacheBase; latest
*ServiceWithLatest }`. -/
structure ServiceWithCache where
  base : serviceWithCacheBase
  latest : ServiceWithLatest

/-- Go `NewServiceWithCache`: both fields share the base of `latest`. -/
def NewServiceWithCache (service : Option Service) (cacheStore : Option Store)
    (cacheKey : String) : Except Error ServiceWithCache :=
  match NewServiceWithLatest service cacheStore cacheKey with
  | .error err => .error err
  | .ok latest => .ok { base := latest.base, latest := latest }

namespace ServiceWithCache

/-- Go `(*ServiceWithCache).Latest`. -/
def Latest (service : ServiceWithCache) : ServiceWithLatest := service.latest

/-- Go `(*ServiceWithCache).GetUserID`. -/
def GetUserID (service : ServiceWithCache) : Op (String × Option Error) := do
  let key := service.base.cacheKey ++ "/GetUserID"
  let got ← Op.storeGet service.base.cacheStore key
  match got with
  | .ok item => return (item.Value, none)
  | .error _ => service.latest.GetUserID

section Codec

variable (js : JSON)

/-- Go `(*ServiceWithCache).GetRepositoryBySlug`. -/
def GetRepositoryBySlug (service : ServiceWithCache) (slug : Option Slug) :
    Op (Option Repository × Option Error) :=
  match slug with
  | none => service.latest.GetRepositoryBySlug js slug
  | some s => do
    let key := service.base.cacheKey ++ "/GetRepositoryBySlug/" ++ toString s.Hash
    let got ← Op.storeGet service.base.cacheStore key
    match got with
    | .ok item =>
      match repositoryFromCacheItem js (some item) with
      | some repo =>
        if repo.Slug = s then return (some repo, none)
        else service.latest.GetRepositoryBySlug js slug
      | none => service.latest.GetRepositoryBySlug js slug
    | .error _ => service.latest.GetRepositoryBySlug js slug

/-- Go `(*ServiceWithCache).GetRepositoryByID`. -/
def GetRepositoryByID (service : ServiceWithCache) (id : Option ID) :
    Op (Option Repository × Option Error) :=
  match id with
  | none => service.latest.GetRepositoryByID js id
  | some i => do
    let key := service.base.cacheKey ++ "/GetRepositoryByID/" ++ toString i.Hash
    let got ← Op.storeGet service.base.cacheStore key
    match got with
    | .ok item =>
      match repositoryFromCacheItem js (some item) with
      | some repo =>
        if repo.ID = i then return (some repo, none)
        else service.latest.GetRepositoryByID js id
      | none => service.latest.GetRepositoryByID js id
    | .error _ => service.latest.GetRepositoryByID js id

/-- Go `(*ServiceWithCache).ListRepositories`. -/
def ListRepositories (service : ServiceWithCache) :
    Op (Slice (Option Repository) × Option Error) := do
  let key := service.base.cacheKey ++ "/ListRepositories"
  let got ← Op.storeGet service.base.cacheStore key
  match got with
  | .ok item =>
    match repositoriesFromCacheItem js (some item) with
    | Slice.mk repos => return (Slice.mk repos, none)
    | Slice.nil => service.latest.ListRepositories js
  | .error _ => service.latest.ListRepositories js

/-- Go `(*ServiceWithCache).listReferences`: the four cases of the two
sub-caches. -/
def listReferences (service : ServiceWithCache) (slug : Option Slug) :
    Op (Slice (Option Reference) × Option Error) := do
  let (branches, branchesCacheErr) ← service.base.retrieveBranchesCache js slug
  let (tags, tagsCacheErr) ← service.base.retrieveTagsCache js slug
  if branchesCacheErr = none then
    if tagsCacheErr = none then
      return (branches.append tags, none)
    else
      let (tags, err) ← service.latest.ListTags js slug
      if err ≠ none ∧ err ≠ some Error.ErrNotFound then return (Slice.nil, err)
      else return (branches.append tags, none)
  else if tagsCacheErr = none then
    let (branches, err) ← service.latest.ListBranches js slug
    if err ≠ none ∧ err ≠ some Error.ErrNotFound then return (Slice.nil, err)
    else return (branches.append tags, none)
  else
    service.latest.ListReferences js slug

/-- Go `(*ServiceWithCache).ListReferences`. -/
def ListReferences (service : ServiceWithCache) (slug : Option Slug) :
    Op (Slice (Option Reference) × Option Error) :=
  match slug with
  | none => service.latest.ListReferences js slug
  | some _ => do
    let (refs, err) ← service.listReferences js slug
    if err ≠ none then return (Slice.nil, err)
    else if refs.len = 0 then return (Slice.nil, some Error.ErrNotFound)
    else return (refs, none)

/-- Go `(*ServiceWithCache).ListBranches`. -/
def ListBranches (service : ServiceWithCache) (slug : Option Slug) :
    Op (Slice (Option Reference) × Option Error) :=
  match slug with
  | none => service.latest.ListBranches js slug
  | some _ => do
    let (branches, err) ← service.base.retrieveBranchesCache js slug
    if err = none then return (branches, none)
    else service.latest.ListBranches js slug

/-- Go `(*ServiceWithCache).ListTags`. -/
def ListTags (service : ServiceWithCache) (slug : Option Slug) :
    Op (Slice (Option Reference) × Option Error) :=
  match slug with
  | none => service.latest.ListTags js slug
  | some _ => do
    let (tags, err) ← service.base.retrieveTagsCache js slug
    if err = none then return (tags, none)
    else service.latest.ListTags js slug

/-- Go `(*ServiceWithCache).GetCommitID`. -/
def GetCommitID (service : ServiceWithCache) (slug : Option Slug) (ref : Option Reference) :
    Op (String × Option Error) :=
  match slug, ref with
  | some s, some r => do
    let key := service.base.cacheKey ++ "/GetCommitID/" ++ toString s.Hash ++ "/"
      ++ toString r.Hash
    let got ← Op.storeGet service.base.cacheStore key
    match got with
    | .ok item =>
      match commitFromCacheItem js (some item) with
      | some c =>
        if c.Slug = s ∧ c.Ref = r then return (c.ID, none)
        else service.latest.GetCommitID js slug ref
      | none => service.latest.GetCommitID js slug ref
    | .error _ => service.latest.GetCommitID js slug ref
  | _, _ => service.latest.GetCommitID js slug ref

end Codec

end ServiceWithCache

end Metabase

/-! ## Reading an outcome -/

namespace Metabase

/-- The world in which an operation ended. -/
def Res.world {α : Type} : Res α → World
  | Res.ok _ w => w
  | Res.panic w => w

/-- The returned value, if the operation returned. -/
def Res.value? {α : Type} : Res α → Option α
  | Res.ok a _ => some a
  | Res.panic _ => none

/-- The calls of the wrapped adapter made by an operation, in order. -/
def Res.adapterCalls {α : Type} (r : Res α) : List Event :=
  r.world.trace.filter Event.isAdapter

/-- The accesses to the cache store made by an operation, in order. -/
def Res.storeAccesses {α : Type} (r : Res α) : List Event :=
  r.world.trace.filter Event.isStore

/-- The cache-first service that `NewServiceWithCache` builds on a base: the
embedded base and the base of `latest` are the same object. -/
def ServiceWithCache.ofBase (base : serviceWithCacheBase) : ServiceWithCache :=
  { base := base, latest := { base := base } }

/-- The slice built by appending the elements of a list, one by one, to the nil
slice: nil for the empty list. -/
def Slice.ofList {α : Type} : List α → Slice α
  | [] => Slice.nil
  | x :: xs => Slice.mk (x :: xs)

/-- The answer of `retrieveReferencesCache(slug, key)` on a store content,
without the trace: the cached list and no error on a hit, an error otherwise. -/
def serviceWithCacheBase.cachedReferences (js : JSON) (service : serviceWithCacheBase)
    (mem : Storage) (slug : Slug) (key : String) : Slice (Option Reference) × Option Error :=
  match service.cacheStore.Get mem key with
  | .error err => (Slice.nil, some err)
  | .ok item =>
    match js.UnmarshalReferences item.Value with
    | none => (Slice.nil, some Error.ErrCacheMiss)
    | some refs =>
      if refs.Slug ≠ slug then (Slice.nil, some Error.ErrCacheMiss) else (refs.Refs, none)

/-- The answer of `retrieveBranchesCache(slug)` on a store content. -/
def serviceWithCacheBase.cachedBranches (js : JSON) (service : serviceWithCacheBase)
    (mem : Storage) (slug : Slug) : Slice (Option Reference) × Option Error :=
  service.cachedReferences js mem slug (service.branchesCacheKey slug)

/-- The answer of `retrieveTagsCache(slug)` on a store content. -/
def serviceWithCacheBase.cachedTags (js : JSON) (service : serviceWithCacheBase)
    (mem : Storage) (slug : Slug) : Slice (Option Reference) × Option Error :=
  service.cachedReferences js mem slug (service.tagsCacheKey slug)

/-- The entry that `storeReferencesCache` writes for an envelope whose JSON
text is `bytes`. -/
def referencesItem (key bytes : String) : Item :=
  { Key := key, Value := bytes, Expiration := cacheExpiration }

/-! ## A concrete scenario: the fixtures of `cache_test.go` -/

/-- Whether a byte continues a UTF-8 sequence (`10xxxxxx`). -/
def utf8Cont (b : UInt8) : Bool := 128 ≤ b.toNat && b.toNat ≤ 191

/-- Go `utf8.DecodeRune`: the character that the valid UTF-8 sequence at the
head of a byte string encodes, with the bytes after it; `none` when the head
is not a valid UTF-8 sequence (`RuneError` of width 1). -/
def utf8DecodeRune : List UInt8 → Option (Char × List UInt8)
  | [] => none
  | b0 :: rest =>
    if b0.toNat < 128 then some (Char.ofNat b0.toNat, rest)
    else if 194 ≤ b0.toNat ∧ b0.toNat ≤ 223 then
      match rest with
      | b1 :: rest1 =>
        if utf8Cont b1 then
          some (Char.ofNat ((b0.toNat - 192) * 64 + (b1.toNat - 128)), rest1)
        else none
      | _ => none
    else if 224 ≤ b0.toNat ∧ b0.toNat ≤ 239 then
      match rest with
      | b1 :: b2 :: rest2 =>
        if (if b0.toNat = 224 then 160 else 128) ≤ b1.toNat
            ∧ b1.toNat ≤ (if b0.toNat = 237 then 159 else 191) ∧ utf8Cont b2 then
          some (Char.ofNat ((b0.toNat - 224) * 4096 + (b1.toNat - 128) * 64
            + (b2.toNat - 128)), rest2)
        else none
      | _ => none
    else if 240 ≤ b0.toNat ∧ b0.toNat ≤ 244 then
      match rest with
      | b1 :: b2 :: b3 :: rest3 =>
        if (if b0.toNat = 240 then 144 else 128) ≤ b1.toNat
            ∧ b1.toNat ≤ (if b0.toNat = 244 then 143 else 191) ∧ utf8Cont b2
            ∧ utf8Cont b3 then
          some (Char.ofNat ((b0.toNat - 240) * 262144 + (b1.toNat - 128) * 4096
            + (b2.toNat - 128) * 64 + (b3.toNat - 128)), rest3)
        else none
      | _ => none
    else none

/-- The characters of the JSON text of a Go string without characters to
escape, as `encoding/json` writes them: the characters that the string encodes,
a byte that is not part of a valid UTF-8 sequence being written as the escape
`\ufffd` (a backslash, character 92, and `ufffd`).  The first argument bounds
the number of steps. -/
def jsonStringChars : Nat → List UInt8 → List Char
  | 0, _ => []
  | _ + 1, [] => []
  | fuel + 1, b :: rest =>
    match utf8DecodeRune (b :: rest) with
    | some (c, rest2) => c :: jsonStringChars fuel rest2
    | none => Char.ofNat 92 :: 'u' :: 'f' :: 'f' :: 'f' :: 'd' :: jsonStringChars fuel rest

/-- JSON text of a string without characters to escape. -/
def jsonString (s : GoString) : String :=
  "\"" ++ String.mk (jsonStringChars s.length s) ++ "\""

/-- JSON text of a `Slug`. -/
def jsonSlug (s : Slug) : String :=
  "\x7b\"Saas\":" ++ jsonString s.Saas ++ ",\"Owner\":" ++ jsonString s.Owner
    ++ ",\"Name\":" ++ jsonString s.Name ++ "\x7d"

/-- JSON text of a `*Reference`. -/
def jsonReference : Option Reference → String
  | none => "null"
  | some r => "\x7b\"Type\":" ++ jsonString r.Type_ ++ ",\"Name\":" ++ jsonString r.Name ++ "\x7d"

/-- JSON text of a `[]*Reference`. -/
def jsonRefs : Slice (Option Reference) → String
  | Slice.nil => "null"
  | Slice.mk xs => "[" ++ ",".intercalate (xs.map jsonReference) ++ "]"

/-- JSON text of a `references` envelope. -/
def jsonReferences (v : references) : String :=
  "\x7b\"Slug\":" ++ jsonSlug v.Slug ++ ",\"Refs\":" ++ jsonRefs v.Refs ++ "\x7d"

/-- The slug of the tests, `newTestSlug("common-go")`. -/
def testSlug : Slug := { Saas := "github.com", Owner := "tractrix", Name := "common-go" }

/-- The branch of the tests, `newTestBranch("master")`. -/
def testBranch : Reference := { Type_ := ReferenceTypeBranch, Name := "master" }

/-- The tag of the tests, `newTestTag("v1.0")`. -/
def testTag : Reference := { Type_ := ReferenceTypeTag, Name := "v1.0" }

/-- The envelopes that the scenario reads back. -/
def testEnvelopes : List references :=
  [ { Slug := testSlug, Refs := Slice.nil },
    { Slug := testSlug, Refs := Slice.mk [some testBranch] },
    { Slug := testSlug, Refs := Slice.mk [some testTag] } ]

/-- A fragment of `encoding/json`, enough for the scenario: envelopes are
marshalled to their JSON text, and a text is unmarshalled to the envelope of
the scenario that it is the text of. -/
def testJSON : JSON :=
  { MarshalRepository := fun _ => none
    UnmarshalRepository := fun _ => none
    MarshalRepositories := fun _ => none
    UnmarshalRepositories := fun _ => none
    MarshalReferences := fun v => some (jsonReferences v)
    UnmarshalReferences := fun s => testEnvelopes.find? (fun v => jsonReferences v == s)
    MarshalCommit := fun _ => none
    UnmarshalCommit := fun _ => none }

/-- An adapter answering the three listings as given and failing elsewhere. -/
def testService (refs branches tags : Slice (Option Reference) × Option Error) : Service :=
  { GetServiceName := "RepositoryServiceMock"
    GetUserID := ("", some (Error.other "test: unexpected error"))
    GetRepositoryBySlug := fun _ => (none, some (Error.other "test: unexpected error"))
    GetRepositoryByID := fun _ => (none, some (Error.other "test: unexpected error"))
    ListRepositories := (Slice.nil, some (Error.other "test: unexpected error"))
    ListReferences := fun _ => refs
    ListBranches := fun _ => branches
    ListTags := fun _ => tags
    GetCommitID := fun _ _ => ("", some (Error.other "test: unexpected error"))
    RegisterDeployKey := fun _ _ _ => (none, some (Error.other "test: unexpected error"))
    UnregisterDeployKey := fun _ _ => some (Error.other "test: unexpected error")
    ExistsDeployKey := fun _ _ => (false, some (Error.other "test: unexpected error"))
    RegisterWebhook := fun _ _ => (none, some (Error.other "test: unexpected error"))
    UnregisterWebhook := fun _ _ => some (Error.other "test: unexpected error")
    ExistsWebhook := fun _ _ => (false, some (Error.other "test: unexpected error")) }

/-- The base of the tests: a working store and the cache key of the suite. -/
def testBase (raw : Service) : serviceWithCacheBase :=
  { raw := raw
    cacheStore := Store.working
    cacheKey := "repository-service/RepositoryServiceMock/18446744073709551615" }

/-- The failing answer of the scenario. -/
def testFailure : Slice (Option Reference) × Option Error :=
  (Slice.nil, some (Error.other "test: unexpected error"))

/-- The store entry of the branches sub-cache holding `[master]`. -/
def testBranchesItem : Item :=
  referencesItem ((testBase (testService testFailure testFailure testFailure)).branchesCacheKey
    testSlug) (jsonReferences { Slug := testSlug, Refs := Slice.mk [some testBranch] })

/-- The store entry of the tags sub-cache holding `[v1.0]`. -/
def testTagsItem : Item :=
  referencesItem ((testBase (testService testFailure testFailure testFailure)).tagsCacheKey
    testSlug) (jsonReferences { Slug := testSlug, Refs := Slice.mk [some testTag] })

end Metabase

namespace Metabase

/-- The world after `storeReferencesCache(slug, key, refs)`: the entry is
written when the envelope marshals, whatever `Set` answers. -/
def serviceWithCacheBase.afterStore (js : JSON) (service : serviceWithCacheBase) (w : World)
    (slug : Slug) (key : String) (refs : Slice (Option Reference)) : World :=
  match js.MarshalReferences { Slug := slug, Refs := refs } with
  | some bytes =>
    { storage := (service.cacheStore.Set w.storage (referencesItem key bytes)).1
      trace := w.trace ++ [Event.storeSet (referencesItem key bytes)] }
  | none => w

/-- Whether an error of the adapter stops a listing of `ServiceWithLatest`:
any error but `ErrNotFound`. -/
def stops (err : Option Error) : Prop := err ≠ none ∧ err ≠ some Error.ErrNotFound

instance (err : Option Error) : Decidable (stops err) := by
  unfold stops
  exact inferInstance

end Metabase

namespace Metabase

/-- The store entry of the branches sub-cache holding the nil list. -/
def testEmptyBranchesItem : Item :=
  referencesItem testBranchesItem.Key (jsonReferences { Slug := testSlug, Refs := Slice.nil })

/-- The store entry of the tags sub-cache holding the nil list. -/
def testEmptyTagsItem : Item :=
  referencesItem testTagsItem.Key (jsonReferences { Slug := testSlug, Refs := Slice.nil })

/-- The envelope marshals, and its JSON text unmarshals to it. -/
def JSON.RoundTrips (js : JSON) (v : references) : Prop :=
  ∃ bytes, js.MarshalReferences v = some bytes ∧ js.UnmarshalReferences bytes = some v

end Metabase

/-! ## repository.go: validation -/

namespace Metabase

/-- Go `(*Slug).Validate`, on a non-nil receiver; `nil` is `none`. -/
def Slug.Validate (slug : Slug) (expectedSaas : GoString) : Option Error :=
  if slug.Saas = "" then some (Error.other "no repository saas specified")
  else if slug.Saas ≠ expectedSaas then
    some (Error.other ("unexpected repository saas: " ++ slug.Saas))
  else if slug.Owner = "" then some (Error.other "no repository owner name specified")
  else if slug.Name = "" then some (Error.other "no repository name specified")
  else none

/-- Go `ValidateSlug`. -/
def ValidateSlug (slug : Option Slug) (expectedSaas : GoString) : Option Error :=
  match slug with
  | none => some (Error.other "no repository slug specified")
  | some s => s.Validate expectedSaas

/-- Go `(*ID).Validate`, on a non-nil receiver. -/
def ID.Validate (id : Metabase.ID) (expectedSaas : GoString) : Option Error :=
  if id.Saas = "" then some (Error.other "no repository saas specified")
  else if id.Saas ≠ expectedSaas then
    some (Error.other ("unexpected repository saas: " ++ id.Saas))
  else if id.OwnerID = "" then some (Error.other "no repository owner id specified")
  else if id.ID = "" then some (Error.other "no repository id specified")
  else none

/-- Go `ValidateID`. -/
def ValidateID (id : Option Metabase.ID) (expectedSaas : GoString) : Option Error :=
  match id with
  | none => some (Error.other "no repository id specified")
  | some i => i.Validate expectedSaas

/-- Go `(*Reference).Validate`, on a non-nil receiver. -/
def Reference.Validate (ref : Reference) : Option Error :=
  if ref.Type_ = "" then some (Error.other "no reference type specified")
  else if !ref.IsBranch && !ref.IsTag then
    some (Error.other ("unknown reference type: " ++ ref.Type_))
  else if ref.Name = "" then some (Error.other "no reference name specified")
  else none

/-- Go `ValidateReference`. -/
def ValidateReference (ref : Option Reference) : Option Error :=
  match ref with
  | none => some (Error.other "no reference specified")
  | some r => r.Validate

/-! ## Reading an outcome, continued -/

/-- Whether the step is a `Get` on the cache store. -/
def Event.isGet : Event → Bool
  | .storeGet _ => true
  | _ => false

/-- The `Get`s made on the cache store by an operation, in order. -/
def Res.storeGets {α : Type} (r : Res α) : List Event :=
  r.world.trace.filter Event.isGet

/-- The world after a best-effort write of a JSON item: the entry is written
when the value marshalled (`encoded`), whatever `Set` answers. -/
def afterWrite (store : Store) (w : World) (encoded : Option String) (key : String) : World :=
  match JSONItem.Item encoded key cacheExpiration with
  | some item =>
    { storage := (store.Set w.storage item).1, trace := w.trace ++ [Event.storeSet item] }
  | none => w

/-- The world after a call of the adapter was recorded. -/
def afterCall (w : World) (e : Event) : World :=
  { storage := w.storage, trace := w.trace ++ [e] }

/-- The store key of `GetRepositoryBySlug` for a slug. -/
def serviceWithCacheBase.repositoryBySlugKey (service : serviceWithCacheBase) (slug : Slug) :
    String :=
  service.cacheKey ++ "/GetRepositoryBySlug/" ++ toString slug.Hash

/-- The store key of `GetRepositoryByID` for an id. -/
def serviceWithCacheBase.repositoryByIDKey (service : serviceWithCacheBase)
    (id : Metabase.ID) : String :=
  service.cacheKey ++ "/GetRepositoryByID/" ++ toString id.Hash

/-- The store key of `GetCommitID` for a slug and a reference. -/
def serviceWithCacheBase.commitIDKey (service : serviceWithCacheBase) (slug : Slug)
    (ref : Reference) : String :=
  service.cacheKey ++ "/GetCommitID/" ++ toString slug.Hash ++ "/" ++ toString ref.Hash

/-- Two runs of an operation of `ServiceWithLatest`, on two stores: the same
outcome, exactly the one adapter call `e` in each, and no store `Get`. -/
def NeverReads {α : Type} (e : Event) (r1 r2 : Res α) : Prop :=
  r1.value? = r2.value? ∧ r1.adapterCalls = [e] ∧ r2.adapterCalls = [e]
    ∧ r1.storeGets = [] ∧ r2.storeGets = []

end Metabase

/-! ## Reading the single-key caches -/

namespace Metabase

/-- The repository that `ServiceWithCache.GetRepositoryBySlug(slug)` finds in
the store content: the entry of the key is there, unmarshals, and carries the
requested slug. -/
def serviceWithCacheBase.cachedRepositoryBySlug (js : JSON) (service : serviceWithCacheBase)
    (mem : Storage) (slug : Slug) : Option Repository :=
  match service.cacheStore.Get mem (service.repositoryBySlugKey slug) with
  | .error _ => none
  | .ok item =>
    match js.UnmarshalRepository item.Value with
    | none => none
    | some repo => if repo.Slug = slug then some repo else none

/-- The repository that `ServiceWithCache.GetRepositoryByID(id)` finds in the
store content. -/
def serviceWithCacheBase.cachedRepositoryByID (js : JSON) (service : serviceWithCacheBase)
    (mem : Storage) (id : Metabase.ID) : Option Repository :=
  match service.cacheStore.Get mem (service.repositoryByIDKey id) with
  | .error _ => none
  | .ok item =>
    match js.UnmarshalRepository item.Value with
    | none => none
    | some repo => if repo.ID = id then some repo else none

/-- The commit envelope that `ServiceWithCache.GetCommitID(slug, ref)` finds in
the store content. -/
def serviceWithCacheBase.cachedCommit (js : JSON) (service : serviceWithCacheBase)
    (mem : Storage) (slug : Slug) (ref : Reference) : Option commit :=
  match service.cacheStore.Get mem (service.commitIDKey slug ref) with
  | .error _ => none
  | .ok item =>
    match js.UnmarshalCommit item.Value with
    | none => none
    | some c => if c.Slug = slug ∧ c.Ref = ref then some c else none

/-- The non-nil list that `ServiceWithCache.ListRepositories` finds in the
store content. -/
def serviceWithCacheBase.cachedRepositories (js : JSON) (service : serviceWithCacheBase)
    (mem : Storage) : Option (List (Option Repository)) :=
  match service.cacheStore.Get mem (service.cacheKey ++ "/ListRepositories") with
  | .error _ => none
  | .ok item =>
    match repositoriesFromCacheItem js (some item) with
    | Slice.mk repos => some repos
    | Slice.nil => none

/-- The entry that the always-fresh variant writes under a key for a JSON text. -/
def cacheItem (key bytes : String) : Item :=
  { Key := key, Value := bytes, Expiration := cacheExpiration }

/-! ## The concrete scenario, continued -/

/-- JSON text of an `ID`. -/
def jsonID (i : Metabase.ID) : String :=
  "\x7b\"Saas\":" ++ jsonString i.Saas ++ ",\"OwnerID\":" ++ jsonString i.OwnerID
    ++ ",\"ID\":" ++ jsonString i.ID ++ "\x7d"

/-- JSON text of a `*Repository`: the fields of the embedded slug come first. -/
def jsonRepository : Option Repository → String
  | none => "null"
  | some r =>
    "\x7b\"Saas\":" ++ jsonString r.Slug.Saas ++ ",\"Owner\":" ++ jsonString r.Slug.Owner
      ++ ",\"Name\":" ++ jsonString r.Slug.Name ++ ",\"ID\":" ++ jsonID r.ID
      ++ ",\"Permissions\":\x7b\"Admin\":" ++ toString r.Permissions.Admin ++ "\x7d\x7d"

/-- JSON text of a `commit` envelope. -/
def jsonCommit (c : commit) : String :=
  "\x7b\"Slug\":" ++ jsonSlug c.Slug ++ ",\"Ref\":" ++ jsonReference (some c.Ref)
    ++ ",\"ID\":" ++ jsonString c.ID ++ "\x7d"

/-- The repository of the tests, `newTestRepository("common-go", "200", true)`. -/
def testRepository : Repository :=
  { Slug := testSlug
    ID := { Saas := "github.com", OwnerID := "100", ID := "200" }
    Permissions := { Admin := true } }

/-- The conflicting repository of the tests: the same, named `conflict-repo`. -/
def testConflictRepository : Repository :=
  { Slug := { Saas := "github.com", Owner := "tractrix", Name := "conflict-repo" }
    ID := { Saas := "github.com", OwnerID := "100", ID := "200" }
    Permissions := { Admin := true } }

/-- The commit id of the tests. -/
def testCommitID : String := "0000000000000000000000000000000000000000"

/-- The commit envelope of the tests, `newTestCommit("common-go", "master", ...)`. -/
def testCommit : commit := { Slug := testSlug, Ref := testBranch, ID := testCommitID }

/-- The conflicting commit envelope of the tests: another commit, of the
repository `conflict-repo`. -/
def testConflictCommit : commit :=
  { Slug := { Saas := "github.com", Owner := "tractrix", Name := "conflict-repo" }
    Ref := testBranch
    ID := "1111111111111111111111111111111111111111" }

/-- The fragment of `encoding/json` of the scenario, with repositories and
commit envelopes: values are marshalled to their JSON text, and a text is
unmarshalled to the value of the scenario that it is the text of. -/
def testFullJSON : JSON :=
  { MarshalRepository := fun r => some (jsonRepository r)
    UnmarshalRepository := fun s =>
      [testRepository, testConflictRepository].find? (fun r => jsonRepository (some r) == s)
    MarshalRepositories := fun _ => none
    UnmarshalRepositories := fun _ => none
    MarshalReferences := testJSON.MarshalReferences
    UnmarshalReferences := testJSON.UnmarshalReferences
    MarshalCommit := fun c => some (jsonCommit c)
    UnmarshalCommit := fun s =>
      [testCommit, testConflictCommit].find? (fun c => jsonCommit c == s) }

/-- An adapter answering `GetRepositoryBySlug` and `GetCommitID` as given, and
failing elsewhere. -/
def testRepositoryService (bySlug : Option Repository × Option Error)
    (commitID : String × Option Error) : Service :=
  { GetServiceName := "RepositoryServiceMock"
    GetUserID := ("", some (Error.other "test: unexpected error"))
    GetRepositoryBySlug := fun _ => bySlug
    GetRepositoryByID := fun _ => (none, some (Error.other "test: unexpected error"))
    ListRepositories := (Slice.nil, some (Error.other "test: unexpected error"))
    ListReferences := fun _ => testFailure
    ListBranches := fun _ => testFailure
    ListTags := fun _ => testFailure
    GetCommitID := fun _ _ => commitID
    RegisterDeployKey := fun _ _ _ => (none, some (Error.other "test: unexpected error"))
    UnregisterDeployKey := fun _ _ => some (Error.other "test: unexpected error")
    ExistsDeployKey := fun _ _ => (false, some (Error.other "test: unexpected error"))
    RegisterWebhook := fun _ _ => (none, some (Error.other "test: unexpected error"))
    UnregisterWebhook := fun _ _ => some (Error.other "test: unexpected error")
    ExistsWebhook := fun _ _ => (false, some (Error.other "test: unexpected error")) }

/-- The store key of `GetRepositoryBySlug` for the slug of the tests. -/
def testRepositoryKey : String :=
  (testBase (testService testFailure testFailure testFailure)).repositoryBySlugKey testSlug

/-- The store key of `GetCommitID` for the slug and the branch of the tests. -/
def testCommitKey : String :=
  (testBase (testService testFailure testFailure testFailure)).commitIDKey testSlug testBranch

end Metabase

/-! ## The FNV-1a hash, as specified -/

namespace Metabase

/-- The 64-bit FNV-1a hash of a byte string, in the words of the specification:
starting from the offset basis 14695981039346656037, each byte in turn is
xor-ed into the hash, which is then multiplied by the prime 1099511628211, the
arithmetic being modulo `2^64`. -/
def specFNV1a64 (bytes : List UInt8) : Nat :=
  bytes.foldl (fun hash byte => ((hash ^^^ byte.toNat) * 1099511628211) % 2 ^ 64)
    14695981039346656037

/-- Two slugs that differ field by field and have the same concatenation:
owner `ab` and name `c`. -/
def testSplitSlug1 : Slug := { Saas := "github.com", Owner := "ab", Name := "c" }

/-- Two slugs that differ field by field and have the same concatenation:
owner `a` and name `bc`. -/
def testSplitSlug2 : Slug := { Saas := "github.com", Owner := "a", Name := "bc" }

end Metabase

/-! ## tree.go -/

namespace Metabase

/-- A Go map with string keys (byte strings): the nil map, or a table of entries, in which the
first entry of a key is the entry of that key.  Inner maps are held by value:
a tree in which one inner map is reachable under two keys is not represented. -/
inductive GoMap (V : Type) where
  | nil : GoMap V
  | mk (entries : List (GoString × V)) : GoMap V
  deriving DecidableEq, Repr

namespace GoMap

/-- The entries of a map; the nil map has none. -/
def entries {V : Type} : GoMap V → List (GoString × V)
  | nil => []
  | mk es => es

/-- Go `make(map[string]V)`: the empty, non-nil map. -/
def make {V : Type} : GoMap V := mk []

/-- Go `v, ok := m[k]`: `none` when `ok` is false. -/
def get? {V : Type} (m : GoMap V) (k : GoString) : Option V :=
  (m.entries.find? (fun e => e.1 == k)).map Prod.snd

/-- Go `m[k] = v`: the entry replaces the one of the key; assigning to an entry
of the nil map panics (`none`). -/
def assign {V : Type} : GoMap V → GoString → V → Option (GoMap V)
  | nil, _, _ => none
  | mk es, k, v => some (mk ((k, v) :: es.filter (fun e => !(e.1 == k))))

/-- The map found by a lookup when it is there and not nil, and a made one
otherwise: Go `if !ok || m == nil { m = make(...) }`. -/
def foundOrMake {V : Type} : Option (GoMap V) → GoMap V
  | some (mk es) => mk es
  | _ => make

/-- Go `len(m)`: the number of keys. -/
def len {V : Type} (m : GoMap V) : Nat := (m.entries.map Prod.fst).dedup.length

end GoMap

/-- Go `type SlugTree map[string]map[string]map[string]interface{}`; a datum of
type `interface{}` is nil (`none`) or a value. -/
abbrev SlugTree (δ : Type) : Type := GoMap (GoMap (GoMap (Option δ)))

/-- Go `(SlugTree).GetData`. -/
def SlugTree.GetData {δ : Type} (tree : SlugTree δ) (slug : Option Slug) : Option δ :=
  match slug with
  | none => none
  | some s =>
    match tree.get? s.Saas with
    | none => none
    | some GoMap.nil => none
    | some (GoMap.mk owners) =>
      match (GoMap.mk owners).get? s.Owner with
      | none => none
      | some GoMap.nil => none
      | some (GoMap.mk repos) =>
        match (GoMap.mk repos).get? s.Name with
        | none => none
        | some data => data

/-- Go `(SlugTree).PutData`; `none` is a panic.  The inner maps found under the
keys of the slug are kept when they are there and not nil, and made otherwise;
the assignment `repos[slug.Name] = data` is seen through `owners[slug.Owner]`
and `tree[slug.Saas]`, which hold these maps.  On the nil tree the first
assignment, `tree[slug.Saas] = owners`, panics. -/
def SlugTree.PutData {δ : Type} (tree : SlugTree δ) (slug : Option Slug) (data : Option δ) :
    Option (SlugTree δ) :=
  match slug with
  | none => some tree
  | some s =>
    let owners : GoMap (GoMap (Option δ)) := GoMap.foundOrMake (tree.get? s.Saas)
    let repos : GoMap (Option δ) := GoMap.foundOrMake (owners.get? s.Owner)
    match tree with
    | GoMap.nil => none
    | GoMap.mk _ =>
      (repos.assign s.Name data).bind fun repos1 =>
        (owners.assign s.Owner repos1).bind fun owners1 =>
          tree.assign s.Saas owners1

/-- Go `(SlugTree).PutDataMulti`; `none` is a panic. -/
def SlugTree.PutDataMulti {δ : Type} (tree : SlugTree δ) (slugs : Slice (Option Slug))
    (data : Option δ) : Option (SlugTree δ) :=
  slugs.elems.foldl (fun acc slug => acc.bind fun t => SlugTree.PutData t slug data) (some tree)

/-- Go `(SlugTree).Empty`. -/
def SlugTree.Empty {δ : Type} (tree : SlugTree δ) : Bool := tree.len == 0

/-- Go `type ReferenceTree map[string]map[string]interface{}`. -/
abbrev ReferenceTree (δ : Type) : Type := GoMap (GoMap (Option δ))

/-- Go `(ReferenceTree).GetData`. -/
def ReferenceTree.GetData {δ : Type} (tree : ReferenceTree δ) (ref : Option Reference) :
    Option δ :=
  match ref with
  | none => none
  | some r =>
    match tree.get? r.Type_ with
    | none => none
    | some GoMap.nil => none
    | some (GoMap.mk refs) =>
      match (GoMap.mk refs).get? r.Name with
      | none => none
      | some data => data

/-- Go `(ReferenceTree).PutData`; `none` is a panic. -/
def ReferenceTree.PutData {δ : Type} (tree : ReferenceTree δ) (ref : Option Reference)
    (data : Option δ) : Option (ReferenceTree δ) :=
  match ref with
  | none => some tree
  | some r =>
    let refs : GoMap (Option δ) := GoMap.foundOrMake (tree.get? r.Type_)
    match tree with
    | GoMap.nil => none
    | GoMap.mk _ =>
      (refs.assign r.Name data).bind fun refs1 => tree.assign r.Type_ refs1

/-- Go `(ReferenceTree).PutDataMulti`; `none` is a panic. -/
def ReferenceTree.PutDataMulti {δ : Type} (tree : ReferenceTree δ)
    (refs : Slice (Option Reference)) (data : Option δ) : Option (ReferenceTree δ) :=
  refs.elems.foldl (fun acc ref => acc.bind fun t => ReferenceTree.PutData t ref data)
    (some tree)

/-- Go `(ReferenceTree).Empty`. -/
def ReferenceTree.Empty {δ : Type} (tree : ReferenceTree δ) : Bool := tree.len == 0

/-- Whether a slug has an entry in a tree: the three maps on its path are there
and the innermost one has the name of the slug among its keys. -/
def SlugTree.hasEntry {δ : Type} (tree : SlugTree δ) (s : Slug) : Bool :=
  match tree.get? s.Saas with
  | none => false
  | some owners =>
    match owners.get? s.Owner with
    | none => false
    | some repos => (repos.get? s.Name).isSome

/-- Whether a reference has an entry in a tree. -/
def ReferenceTree.hasEntry {δ : Type} (tree : ReferenceTree δ) (r : Reference) : Bool :=
  match tree.get? r.Type_ with
  | none => false
  | some refs => (refs.get? r.Name).isSome

/-- The tree `SlugTree{"github.com": {}}`: one saas, with no owner. -/
def testHollowSlugTree : SlugTree String := GoMap.mk [("github.com", GoMap.mk [])]

/-- The tree `ReferenceTree{"branch": {}}`: one type, with no name. -/
def testHollowReferenceTree : ReferenceTree String := GoMap.mk [("branch", GoMap.mk [])]

/-- The tree `SlugTree{"github.com": nil}`: the saas of the tests, mapped to a
nil inner map. -/
def testNilOwnersTree : SlugTree String := GoMap.mk [("github.com", GoMap.nil)]

end Metabase

/-! ## The store keys of the cached operations -/

namespace Metabase

/-- A cached operation of `ServiceWithCache`, with the identity that addresses
it. -/
inductive CachedOp where
  | GetUserID : CachedOp
  | GetRepositoryBySlug (slug : Slug) : CachedOp
  | GetRepositoryByID (id : Metabase.ID) : CachedOp
  | ListRepositories : CachedOp
  | ListBranches (slug : Slug) : CachedOp
  | ListTags (slug : Slug) : CachedOp
  | GetCommitID (slug : Slug) (ref : Reference) : CachedOp
  deriving DecidableEq, Repr

namespace CachedOp

/-- The operation, without the identity. -/
def name : CachedOp → String
  | GetUserID => "GetUserID"
  | GetRepositoryBySlug _ => "GetRepositoryBySlug"
  | GetRepositoryByID _ => "GetRepositoryByID"
  | ListRepositories => "ListRepositories"
  | ListBranches _ => "ListBranches"
  | ListTags _ => "ListTags"
  | GetCommitID _ _ => "GetCommitID"

/-- The decimal hash components of the store key of the operation (`%d` of the
hashes of the identity), in the order of the key. -/
def hashes : CachedOp → List String
  | GetUserID => []
  | GetRepositoryBySlug slug => [toString slug.Hash]
  | GetRepositoryByID id => [toString id.Hash]
  | ListRepositories => []
  | ListBranches slug => [toString slug.Hash]
  | ListTags slug => [toString slug.Hash]
  | GetCommitID slug ref => [toString slug.Hash, toString ref.Hash]

/-- The store key that cache.go builds for the operation, in a service of the
given base: the one written by `ServiceWithLatest` and read by
`ServiceWithCache`. -/
def key (service : serviceWithCacheBase) : CachedOp → String
  | GetUserID => service.cacheKey ++ "/GetUserID"
  | GetRepositoryBySlug slug => service.repositoryBySlugKey slug
  | GetRepositoryByID id => service.repositoryByIDKey id
  | ListRepositories => service.cacheKey ++ "/ListRepositories"
  | ListBranches slug => service.branchesCacheKey slug
  | ListTags slug => service.tagsCacheKey slug
  | GetCommitID slug ref => service.commitIDKey slug ref

end CachedOp

end Metabase

namespace Metabase

/-- The world in which the operation, run by `ServiceWithCache` on a store
content, ends. -/
def CachedOp.world (js : JSON) (service : serviceWithCacheBase) (mem : Storage) :
    CachedOp → World
  | CachedOp.GetUserID => ((ServiceWithCache.ofBase service).GetUserID.run mem).world
  | CachedOp.GetRepositoryBySlug slug =>
    (((ServiceWithCache.ofBase service).GetRepositoryBySlug js (some slug)).run mem).world
  | CachedOp.GetRepositoryByID id =>
    (((ServiceWithCache.ofBase service).GetRepositoryByID js (some id)).run mem).world
  | CachedOp.ListRepositories =>
    (((ServiceWithCache.ofBase service).ListRepositories js).run mem).world
  | CachedOp.ListBranches slug =>
    (((ServiceWithCache.ofBase service).ListBranches js (some slug)).run mem).world
  | CachedOp.ListTags slug =>
    (((ServiceWithCache.ofBase service).ListTags js (some slug)).run mem).world
  | CachedOp.GetCommitID slug ref =>
    (((ServiceWithCache.ofBase service).GetCommitID js (some slug) (some ref)).run mem).world

/-- Whether a step leaves the entries of other keys alone: a call of the
adapter, or an access to the cache store under the given key. -/
def Event.onKey (key : String) : Event → Bool
  | Event.storeGet k => k == key
  | Event.storeSet item => item.Key == key
  | _ => true

end Metabase

/-! ## Repeated calls, and the scenario of the repository lists -/

namespace Metabase

/-- The store content after `n` successive runs of an operation, each one on
the content that the previous one left. -/
def storageAfter {α : Type} (op : Op α) : Nat → Storage → Storage
  | 0, mem => mem
  | n + 1, mem => storageAfter op n (op.run mem).world.storage

/-- JSON text of a `[]*Repository`: `null` for the nil list. -/
def jsonRepositories : Slice (Option Repository) → String
  | Slice.nil => "null"
  | Slice.mk xs => "[" ++ ",".intercalate (xs.map jsonRepository) ++ "]"

/-- The lists of repositories that the scenario reads back. -/
def testRepositoryLists : List (Slice (Option Repository)) :=
  [Slice.nil, Slice.mk [], Slice.mk [some testRepository]]

/-- The fragment of `encoding/json` of the scenario, with lists of
repositories. -/
def testListJSON : JSON :=
  { testFullJSON with
    MarshalRepositories := fun l => some (jsonRepositories l)
    UnmarshalRepositories := fun s =>
      testRepositoryLists.find? (fun l => jsonRepositories l == s) }

/-- An adapter answering `ListRepositories` and `GetRepositoryByID` as given,
and failing elsewhere. -/
def testListService (repos : Slice (Option Repository) × Option Error)
    (byID : Option Repository × Option Error) : Service :=
  { testService testFailure testFailure testFailure with
    ListRepositories := repos
    GetRepositoryByID := fun _ => byID }

/-- An id of the repository of the tests under which the adapter answers the
repository of another id. -/
def testStaleID : Metabase.ID := { Saas := "github.com", OwnerID := "100", ID := "300" }

end Metabase

/-! ## The scenario of a name that is not valid UTF-8 -/

namespace Metabase

/-- The slug `github.com/tractrix/repo\xff`: its name ends with the byte
`0xFF`, which occurs in no UTF-8 sequence. -/
def testInvalidSlug : Slug :=
  { Saas := "github.com", Owner := "tractrix", Name := GoString.ofString "repo" ++ [255] }

/-- The slug `github.com/tractrix/repo` followed by U+FFFD: the previous one as
`encoding/json` reads its text back, with U+FFFD in place of the invalid
byte. -/
def testCoercedSlug : Slug :=
  { Saas := "github.com", Owner := "tractrix", Name := "repo\uFFFD" }

/-- The repository of the tests, named `repo\xff`. -/
def testInvalidRepository : Repository :=
  { Slug := testInvalidSlug
    ID := { Saas := "github.com", OwnerID := "100", ID := "200" }
    Permissions := { Admin := true } }

/-- The repository of the tests, named `repo` followed by U+FFFD. -/
def testCoercedRepository : Repository :=
  { Slug := testCoercedSlug
    ID := { Saas := "github.com", OwnerID := "100", ID := "200" }
    Permissions := { Admin := true } }

/-- The fragment of `encoding/json` of the scenario of a name that is not valid
UTF-8.  Values are marshalled to their JSON text, in which the invalid byte is
written as the escape `\ufffd`; the text of a value named `repo\xff` is
unmarshalled to the same value named `repo` followed by U+FFFD, and the text of a value of
the scenario with valid names to that value. -/
def testCoercingJSON : JSON :=
  { MarshalRepository := fun r => some (jsonRepository r)
    UnmarshalRepository := fun s =>
      if s == jsonRepository (some testInvalidRepository) then some testCoercedRepository
      else [testCoercedRepository, testRepository].find?
        (fun r => jsonRepository (some r) == s)
    MarshalRepositories := fun l => some (jsonRepositories l)
    UnmarshalRepositories := fun s =>
      if s == jsonRepositories (Slice.mk [some testInvalidRepository]) then
        some (Slice.mk [some testCoercedRepository])
      else
        [Slice.nil, Slice.mk [], Slice.mk [some testCoercedRepository]].find?
          (fun l => jsonRepositories l == s)
    MarshalReferences := fun v => some (jsonReferences v)
    UnmarshalReferences := fun s =>
      if s == jsonReferences { Slug := testInvalidSlug, Refs := Slice.nil } then
        some { Slug := testCoercedSlug, Refs := Slice.nil }
      else
        [({ Slug := testCoercedSlug, Refs := Slice.nil } : references)].find?
          (fun v => jsonReferences v == s)
    MarshalCommit := fun c => some (jsonCommit c)
    UnmarshalCommit := fun _ => none }

end Metabase

/-! ## Lemmas on Go values, keys and the store content -/

namespace Metabase

theorem Slice.elems_append {α : Type} (a b : Slice α) :
    (a.append b).elems = a.elems ++ b.elems := by
  unfold Slice.append
  cases h : b.elems with
  | nil => simp
  | cons x xs => simp [Slice.elems]

theorem Slice.elems_ofList {α : Type} (l : List α) : (Slice.ofList l).elems = l := by
  cases l <;> rfl

theorem Slice.len_eq_zero {α : Type} (s : Slice α) : s.len = 0 ↔ s.elems = [] := by
  simp [Slice.len]

theorem Reference.not_IsTag_of_IsBranch (r : Reference) (h : r.IsBranch = true) :
    r.IsTag = false := by
  simp only [Reference.IsBranch, beq_iff_eq] at h
  simp only [Reference.IsTag, h]
  decide

theorem branchesCacheKey_ne_tagsCacheKey (b : serviceWithCacheBase) (s t : Slug) :
    b.branchesCacheKey s ≠ b.tagsCacheKey t := by
  intro h
  have h2 := congrArg String.data h
  simp only [serviceWithCacheBase.branchesCacheKey, serviceWithCacheBase.tagsCacheKey,
    String.data_append, List.append_assoc, List.append_cancel_left_eq] at h2
  simp at h2

theorem Storage.lookup_insert_self (mem : Storage) (item : Item) :
    (mem.insert item).lookup item.Key = some item := by
  simp [Storage.insert, Storage.lookup]

theorem Storage.lookup_insert_of_ne (mem : Storage) (item : Item) (k : String)
    (h : item.Key ≠ k) : (mem.insert item).lookup k = mem.lookup k := by
  simp only [Storage.insert, Storage.lookup]
  rw [List.find?_cons_of_neg _ (by simpa using h)]
  induction mem with
  | nil => rfl
  | cons x xs ih =>
    simp only [List.filter_cons]
    by_cases hx : x.Key = item.Key
    · have hb : (x.Key == item.Key) = true := by simpa using hx
      have hk : (x.Key == k) = false := by
        simp only [beq_eq_false_iff_ne, ne_eq]; rw [hx]; exact h
      simp only [hb, Bool.not_true, Bool.false_eq_true, if_false, List.find?_cons, hk]
      exact ih
    · have hb : (x.Key == item.Key) = false := by simpa using hx
      simp only [hb, Bool.not_false, if_true, List.find?_cons]
      cases hk : (x.Key == k)
      · simpa using ih
      · rfl

/-- The partition computed by `separateReferences` on non-nil references. -/
theorem separateReferences_ptrs_aux (R : List Reference)
    (bs ts : Slice (Option Reference)) :
    (R.map some).foldl separateStep (some (bs, ts))
      = some (if R.filter Reference.IsBranch = [] then bs
              else Slice.mk (bs.elems ++ (R.filter Reference.IsBranch).map some),
              if R.filter Reference.IsTag = [] then ts
              else Slice.mk (ts.elems ++ (R.filter Reference.IsTag).map some)) := by
  induction R generalizing bs ts with
  | nil => simp
  | cons r rs ih =>
    simp only [List.map_cons, List.foldl_cons, separateStep]
    by_cases hb : r.IsBranch = true
    · have ht := Reference.not_IsTag_of_IsBranch r hb
      simp [hb, ht, ih, List.filter_cons, Slice.push, Slice.elems]
    · by_cases ht : r.IsTag = true
      · simp [hb, ht, ih, List.filter_cons, Slice.push, Slice.elems]
      · simp [hb, ht, ih, List.filter_cons]

theorem separateReferences_ptrs (R : Slice Reference) :
    separateReferences R.ptrs
      = some (Slice.ofList ((R.elems.filter Reference.IsBranch).map some),
              Slice.ofList ((R.elems.filter Reference.IsTag).map some)) := by
  have h := separateReferences_ptrs_aux R.elems Slice.nil Slice.nil
  have e : R.ptrs.elems = R.elems.map some := by cases R <;> rfl
  unfold separateReferences
  rw [e, h]
  congr 2
  · cases hl : R.elems.filter Reference.IsBranch <;> simp [Slice.ofList, Slice.elems]
  · cases hl : R.elems.filter Reference.IsTag <;> simp [Slice.ofList, Slice.elems]

end Metabase

/-! ## Lemmas on the operations -/

namespace Metabase

theorem Op.bind_apply {α β : Type} (m : Op α) (f : α → Op β) (w : World) :
    (m >>= f) w = match m w with
      | Res.ok a w1 => f a w1
      | Res.panic w1 => Res.panic w1 := rfl

theorem Op.pure_apply {α : Type} (a : α) (w : World) : (pure a : Op α) w = Res.ok a w := rfl

theorem Op.deref_some {α : Type} (a : α) (w : World) : Op.deref (some a) w = Res.ok a w := rfl

theorem Op.deref_none {α : Type} (w : World) : (Op.deref none : Op α) w = Res.panic w := rfl

theorem Op.call_apply {α : Type} (e : Event) (a : α) (w : World) :
    Op.call e a w = Res.ok a { storage := w.storage, trace := w.trace ++ [e] } := rfl

theorem Op.storeGet_apply (s : Store) (key : String) (w : World) :
    Op.storeGet s key w
      = Res.ok (s.Get w.storage key)
          { storage := w.storage, trace := w.trace ++ [Event.storeGet key] } := rfl

theorem Op.storeSet_apply (s : Store) (item : Item) (w : World) :
    Op.storeSet s item w
      = Res.ok (s.Set w.storage item).2
          { storage := (s.Set w.storage item).1, trace := w.trace ++ [Event.storeSet item] } := rfl

section OpLemmas

variable (js : JSON) (b : serviceWithCacheBase)

theorem retrieveReferencesCache_eq (S : Slug) (key : String) (w : World) :
    b.retrieveReferencesCache js (some S) key w
      = Res.ok (b.cachedReferences js w.storage S key)
          { storage := w.storage, trace := w.trace ++ [Event.storeGet key] } := by
  simp only [serviceWithCacheBase.retrieveReferencesCache, serviceWithCacheBase.cachedReferences,
    Op.bind_apply, Op.storeGet_apply, referencesFromCacheItem]
  cases b.cacheStore.Get w.storage key with
  | error e => rfl
  | ok item =>
    simp only []
    cases js.UnmarshalReferences item.Value with
    | none => rfl
    | some refs =>
      simp only [Op.bind_apply, Op.deref_some]
      by_cases h : refs.Slug = S <;> simp [h, Op.pure_apply]

theorem retrieveBranchesCache_eq (S : Slug) (w : World) :
    b.retrieveBranchesCache js (some S) w
      = Res.ok (b.cachedBranches js w.storage S)
          { storage := w.storage
            trace := w.trace ++ [Event.storeGet (b.branchesCacheKey S)] } := by
  simp only [serviceWithCacheBase.retrieveBranchesCache, Op.bind_apply, Op.deref_some,
    retrieveReferencesCache_eq, serviceWithCacheBase.cachedBranches]

theorem retrieveTagsCache_eq (S : Slug) (w : World) :
    b.retrieveTagsCache js (some S) w
      = Res.ok (b.cachedTags js w.storage S)
          { storage := w.storage
            trace := w.trace ++ [Event.storeGet (b.tagsCacheKey S)] } := by
  simp only [serviceWithCacheBase.retrieveTagsCache, Op.bind_apply, Op.deref_some,
    retrieveReferencesCache_eq, serviceWithCacheBase.cachedTags]

theorem storeReferencesCache_eq (S : Slug) (key : String) (refs : Slice (Option Reference))
    (w : World) :
    b.storeReferencesCache js (some S) key refs w = Res.ok () (b.afterStore js w S key refs) := by
  simp only [serviceWithCacheBase.storeReferencesCache, serviceWithCacheBase.afterStore,
    Op.bind_apply, Op.deref_some, JSONItem.Item, referencesItem]
  cases js.MarshalReferences { Slug := S, Refs := refs } with
  | none => rfl
  | some bytes => rfl

theorem storeBranchesCache_eq (S : Slug) (refs : Slice (Option Reference)) (w : World) :
    b.storeBranchesCache js (some S) refs w
      = Res.ok () (b.afterStore js w S (b.branchesCacheKey S) refs) := by
  simp only [serviceWithCacheBase.storeBranchesCache, Op.bind_apply, Op.deref_some,
    storeReferencesCache_eq]

theorem storeTagsCache_eq (S : Slug) (refs : Slice (Option Reference)) (w : World) :
    b.storeTagsCache js (some S) refs w
      = Res.ok () (b.afterStore js w S (b.tagsCacheKey S) refs) := by
  simp only [serviceWithCacheBase.storeTagsCache, Op.bind_apply, Op.deref_some,
    storeReferencesCache_eq]

theorem afterStore_adapterCalls (w : World) (S : Slug) (key : String)
    (refs : Slice (Option Reference)) :
    (b.afterStore js w S key refs).trace.filter Event.isAdapter
      = w.trace.filter Event.isAdapter := by
  unfold serviceWithCacheBase.afterStore
  cases js.MarshalReferences { Slug := S, Refs := refs } with
  | none => rfl
  | some bytes => simp [Event.isAdapter, Event.isStore]

theorem afterStore_storage (w : World) (S : Slug) (key bytes : String)
    (refs : Slice (Option Reference)) (hs : b.cacheStore = Store.working)
    (hm : js.MarshalReferences { Slug := S, Refs := refs } = some bytes) :
    (b.afterStore js w S key refs).storage = w.storage.insert (referencesItem key bytes) := by
  simp [serviceWithCacheBase.afterStore, hm, hs, Store.Set, Store.working]

theorem cachedReferences_of_lookup (mem : Storage) (S : Slug) (key bytes : String)
    (refs : Slice (Option Reference)) (hs : b.cacheStore = Store.working)
    (hl : mem.lookup key = some (referencesItem key bytes))
    (hu : js.UnmarshalReferences bytes = some { Slug := S, Refs := refs }) :
    b.cachedReferences js mem S key = (refs, none) := by
  simp [serviceWithCacheBase.cachedReferences, Store.Get, hs, Store.working, hl, referencesItem, hu]

theorem cachedReferences_congr (mem mem2 : Storage) (S : Slug) (key : String)
    (h : mem2.lookup key = mem.lookup key) :
    b.cachedReferences js mem2 S key = b.cachedReferences js mem S key := by
  simp [serviceWithCacheBase.cachedReferences, Store.Get, h]

theorem Latest_ListBranches_eq (S : Slug) (w : World) :
    ServiceWithLatest.ListBranches js { base := b } (some S) w
      = if stops (b.raw.ListBranches (some S)).2 then
          Res.ok (Slice.nil, (b.raw.ListBranches (some S)).2)
            { storage := w.storage, trace := w.trace ++ [Event.ListBranches (some S)] }
        else
          Res.ok (b.raw.ListBranches (some S))
            (b.afterStore js
              { storage := w.storage, trace := w.trace ++ [Event.ListBranches (some S)] }
              S (b.branchesCacheKey S) (b.raw.ListBranches (some S)).1) := by
  simp only [ServiceWithLatest.ListBranches, Op.bind_apply, Op.call_apply, stops]
  split
  · rfl
  · simp only [Op.bind_apply, storeBranchesCache_eq, Op.pure_apply]

theorem Latest_ListTags_eq (S : Slug) (w : World) :
    ServiceWithLatest.ListTags js { base := b } (some S) w
      = if stops (b.raw.ListTags (some S)).2 then
          Res.ok (Slice.nil, (b.raw.ListTags (some S)).2)
            { storage := w.storage, trace := w.trace ++ [Event.ListTags (some S)] }
        else
          Res.ok (b.raw.ListTags (some S))
            (b.afterStore js
              { storage := w.storage, trace := w.trace ++ [Event.ListTags (some S)] }
              S (b.tagsCacheKey S) (b.raw.ListTags (some S)).1) := by
  simp only [ServiceWithLatest.ListTags, Op.bind_apply, Op.call_apply, stops]
  split
  · rfl
  · simp only [Op.bind_apply, storeTagsCache_eq, Op.pure_apply]

theorem Latest_ListReferences_eq (S : Slug) (w : World) :
    ServiceWithLatest.ListReferences js { base := b } (some S) w
      = if stops (b.raw.ListReferences (some S)).2 then
          Res.ok (Slice.nil, (b.raw.ListReferences (some S)).2)
            { storage := w.storage, trace := w.trace ++ [Event.ListReferences (some S)] }
        else
          match separateReferences (b.raw.ListReferences (some S)).1 with
          | none =>
            Res.panic { storage := w.storage, trace := w.trace ++ [Event.ListReferences (some S)] }
          | some (branches, tags) =>
            Res.ok (b.raw.ListReferences (some S))
              (b.afterStore js
                (b.afterStore js
                  { storage := w.storage, trace := w.trace ++ [Event.ListReferences (some S)] }
                  S (b.branchesCacheKey S) branches)
                S (b.tagsCacheKey S) tags) := by
  simp only [ServiceWithLatest.ListReferences, Op.bind_apply, Op.call_apply, stops]
  split
  · rfl
  · cases separateReferences (b.raw.ListReferences (some S)).1 with
    | none => rfl
    | some p =>
      obtain ⟨branches, tags⟩ := p
      simp only [Op.bind_apply, storeBranchesCache_eq, storeTagsCache_eq, Op.pure_apply]

end OpLemmas

end Metabase

/-! ## The four cases of `ServiceWithCache.ListReferences` -/

namespace Metabase

section Cases

variable (js : JSON) (b : serviceWithCacheBase)

/-- The world after the two sub-cache reads that open `listReferences`. -/
theorem listReferences_reads (S : Slug) (w : World) :
    (ServiceWithCache.ofBase b).listReferences js (some S) w
      = if (b.cachedBranches js w.storage S).2 = none then
          if (b.cachedTags js w.storage S).2 = none then
            Res.ok ((b.cachedBranches js w.storage S).1.append (b.cachedTags js w.storage S).1,
              none)
              { storage := w.storage
                trace := w.trace ++ [Event.storeGet (b.branchesCacheKey S)]
                  ++ [Event.storeGet (b.tagsCacheKey S)] }
          else
            match ServiceWithLatest.ListTags js { base := b } (some S)
                { storage := w.storage
                  trace := w.trace ++ [Event.storeGet (b.branchesCacheKey S)]
                    ++ [Event.storeGet (b.tagsCacheKey S)] } with
            | Res.ok (tags, err) w3 =>
              if stops err then Res.ok (Slice.nil, err) w3
              else Res.ok ((b.cachedBranches js w.storage S).1.append tags, none) w3
            | Res.panic w3 => Res.panic w3
        else if (b.cachedTags js w.storage S).2 = none then
          match ServiceWithLatest.ListBranches js { base := b } (some S)
              { storage := w.storage
                trace := w.trace ++ [Event.storeGet (b.branchesCacheKey S)]
                  ++ [Event.storeGet (b.tagsCacheKey S)] } with
          | Res.ok (branches, err) w3 =>
            if stops err then Res.ok (Slice.nil, err) w3
            else Res.ok (branches.append (b.cachedTags js w.storage S).1, none) w3
          | Res.panic w3 => Res.panic w3
        else
          ServiceWithLatest.ListReferences js { base := b } (some S)
            { storage := w.storage
              trace := w.trace ++ [Event.storeGet (b.branchesCacheKey S)]
                ++ [Event.storeGet (b.tagsCacheKey S)] } := by
  simp only [ServiceWithCache.listReferences, ServiceWithCache.ofBase, Op.bind_apply,
    retrieveBranchesCache_eq, retrieveTagsCache_eq]
  split
  · split
    · rfl
    · simp only [Op.bind_apply]
      split
      · rename_i a w1 h
        obtain ⟨tags, err⟩ := a
        simp only [h, stops]
        split <;> rfl
      · rename_i w1 h
        simp only [h]
  · split
    · simp only [Op.bind_apply]
      split
      · rename_i a w1 h
        obtain ⟨branches, err⟩ := a
        simp only [h, stops]
        split <;> rfl
      · rename_i w1 h
        simp only [h]
    · rfl

/-- The post-processing of `ListReferences` on the answer of `listReferences`. -/
theorem ListReferences_post (S : Slug) (w : World) :
    (ServiceWithCache.ofBase b).ListReferences js (some S) w
      = match (ServiceWithCache.ofBase b).listReferences js (some S) w with
        | Res.ok (refs, err) w1 =>
          if err ≠ none then Res.ok (Slice.nil, err) w1
          else if refs.len = 0 then Res.ok (Slice.nil, some Error.ErrNotFound) w1
          else Res.ok (refs, none) w1
        | Res.panic w1 => Res.panic w1 := by
  simp only [ServiceWithCache.ListReferences, Op.bind_apply]
  cases (ServiceWithCache.ofBase b).listReferences js (some S) w with
  | panic w1 => rfl
  | ok a w1 =>
    obtain ⟨refs, err⟩ := a
    simp only []
    split
    · rfl
    · split <;> rfl

end Cases

end Metabase

namespace Metabase

section Outcomes

variable (js : JSON) (b : serviceWithCacheBase)

/-- Outcome when both sub-caches hit. -/
theorem ListReferences_both_hit (S : Slug) (mem : Storage) (B T : Slice (Option Reference))
    (hB : b.cachedBranches js mem S = (B, none)) (hT : b.cachedTags js mem S = (T, none)) :
    ((ServiceWithCache.ofBase b).ListReferences js (some S)).run mem
      = if (B.append T).len = 0 then
          Res.ok (Slice.nil, some Error.ErrNotFound)
            { storage := mem
              trace := [Event.storeGet (b.branchesCacheKey S),
                Event.storeGet (b.tagsCacheKey S)] }
        else
          Res.ok (B.append T, none)
            { storage := mem
              trace := [Event.storeGet (b.branchesCacheKey S),
                Event.storeGet (b.tagsCacheKey S)] } := by
  simp [Op.run, ListReferences_post, listReferences_reads, hB, hT]

/-- Outcome when the branches hit, the tags miss and the adapter does not stop
the listing of the tags. -/
theorem ListReferences_tags_miss (S : Slug) (mem : Storage) (B : Slice (Option Reference))
    (hB : b.cachedBranches js mem S = (B, none)) (hT : (b.cachedTags js mem S).2 ≠ none)
    (hns : ¬ stops (b.raw.ListTags (some S)).2) :
    ((ServiceWithCache.ofBase b).ListReferences js (some S)).run mem
      = if (B.append (b.raw.ListTags (some S)).1).len = 0 then
          Res.ok (Slice.nil, some Error.ErrNotFound)
            (b.afterStore js
              { storage := mem
                trace := [Event.storeGet (b.branchesCacheKey S),
                  Event.storeGet (b.tagsCacheKey S), Event.ListTags (some S)] }
              S (b.tagsCacheKey S) (b.raw.ListTags (some S)).1)
        else
          Res.ok (B.append (b.raw.ListTags (some S)).1, none)
            (b.afterStore js
              { storage := mem
                trace := [Event.storeGet (b.branchesCacheKey S),
                  Event.storeGet (b.tagsCacheKey S), Event.ListTags (some S)] }
              S (b.tagsCacheKey S) (b.raw.ListTags (some S)).1) := by
  simp [Op.run, ListReferences_post, listReferences_reads, hB, hT, Latest_ListTags_eq, hns]

/-- Outcome when the branches hit, the tags miss and the adapter stops the
listing of the tags. -/
theorem ListReferences_tags_miss_stop (S : Slug) (mem : Storage)
    (hB : (b.cachedBranches js mem S).2 = none) (hT : (b.cachedTags js mem S).2 ≠ none)
    (hst : stops (b.raw.ListTags (some S)).2) :
    ((ServiceWithCache.ofBase b).ListReferences js (some S)).run mem
      = Res.ok (Slice.nil, (b.raw.ListTags (some S)).2)
          { storage := mem
            trace := [Event.storeGet (b.branchesCacheKey S),
              Event.storeGet (b.tagsCacheKey S), Event.ListTags (some S)] } := by
  have hne : (b.raw.ListTags (some S)).2 ≠ none := hst.1
  simp [Op.run, ListReferences_post, listReferences_reads, hB, hT, Latest_ListTags_eq, hst, hne]

/-- Outcome when the tags hit, the branches miss and the adapter does not stop
the listing of the branches. -/
theorem ListReferences_branches_miss (S : Slug) (mem : Storage)
    (T : Slice (Option Reference))
    (hT : b.cachedTags js mem S = (T, none)) (hB : (b.cachedBranches js mem S).2 ≠ none)
    (hns : ¬ stops (b.raw.ListBranches (some S)).2) :
    ((ServiceWithCache.ofBase b).ListReferences js (some S)).run mem
      = if ((b.raw.ListBranches (some S)).1.append T).len = 0 then
          Res.ok (Slice.nil, some Error.ErrNotFound)
            (b.afterStore js
              { storage := mem
                trace := [Event.storeGet (b.branchesCacheKey S),
                  Event.storeGet (b.tagsCacheKey S), Event.ListBranches (some S)] }
              S (b.branchesCacheKey S) (b.raw.ListBranches (some S)).1)
        else
          Res.ok ((b.raw.ListBranches (some S)).1.append T, none)
            (b.afterStore js
              { storage := mem
                trace := [Event.storeGet (b.branchesCacheKey S),
                  Event.storeGet (b.tagsCacheKey S), Event.ListBranches (some S)] }
              S (b.branchesCacheKey S) (b.raw.ListBranches (some S)).1) := by
  simp [Op.run, ListReferences_post, listReferences_reads, hB, hT, Latest_ListBranches_eq, hns]

/-- Outcome when the tags hit, the branches miss and the adapter stops the
listing of the branches. -/
theorem ListReferences_branches_miss_stop (S : Slug) (mem : Storage)
    (hT : (b.cachedTags js mem S).2 = none) (hB : (b.cachedBranches js mem S).2 ≠ none)
    (hst : stops (b.raw.ListBranches (some S)).2) :
    ((ServiceWithCache.ofBase b).ListReferences js (some S)).run mem
      = Res.ok (Slice.nil, (b.raw.ListBranches (some S)).2)
          { storage := mem
            trace := [Event.storeGet (b.branchesCacheKey S),
              Event.storeGet (b.tagsCacheKey S), Event.ListBranches (some S)] } := by
  have hne : (b.raw.ListBranches (some S)).2 ≠ none := hst.1
  simp [Op.run, ListReferences_post, listReferences_reads, hB, hT, Latest_ListBranches_eq, hst,
    hne]

/-- Outcome when both sub-caches miss and the adapter answers a list of non-nil
references without stopping the listing. -/
theorem ListReferences_both_miss (S : Slug) (mem : Storage) (R : Slice Reference)
    (err : Option Error)
    (hB : (b.cachedBranches js mem S).2 ≠ none) (hT : (b.cachedTags js mem S).2 ≠ none)
    (hR : b.raw.ListReferences (some S) = (R.ptrs, err)) (hns : ¬ stops err) :
    ((ServiceWithCache.ofBase b).ListReferences js (some S)).run mem
      = if err ≠ none then
          Res.ok (Slice.nil, err)
            (b.afterStore js
              (b.afterStore js
                { storage := mem
                  trace := [Event.storeGet (b.branchesCacheKey S),
                    Event.storeGet (b.tagsCacheKey S), Event.ListReferences (some S)] }
                S (b.branchesCacheKey S)
                (Slice.ofList ((R.elems.filter Reference.IsBranch).map some)))
              S (b.tagsCacheKey S)
              (Slice.ofList ((R.elems.filter Reference.IsTag).map some)))
        else if R.ptrs.len = 0 then
          Res.ok (Slice.nil, some Error.ErrNotFound)
            (b.afterStore js
              (b.afterStore js
                { storage := mem
                  trace := [Event.storeGet (b.branchesCacheKey S),
                    Event.storeGet (b.tagsCacheKey S), Event.ListReferences (some S)] }
                S (b.branchesCacheKey S)
                (Slice.ofList ((R.elems.filter Reference.IsBranch).map some)))
              S (b.tagsCacheKey S)
              (Slice.ofList ((R.elems.filter Reference.IsTag).map some)))
        else
          Res.ok (R.ptrs, none)
            (b.afterStore js
              (b.afterStore js
                { storage := mem
                  trace := [Event.storeGet (b.branchesCacheKey S),
                    Event.storeGet (b.tagsCacheKey S), Event.ListReferences (some S)] }
                S (b.branchesCacheKey S)
                (Slice.ofList ((R.elems.filter Reference.IsBranch).map some)))
              S (b.tagsCacheKey S)
              (Slice.ofList ((R.elems.filter Reference.IsTag).map some))) := by
  simp only [Op.run, ListReferences_post, listReferences_reads, hB, hT, if_false,
    Latest_ListReferences_eq, hR, hns, separateReferences_ptrs]
  by_cases he : err = none
  · subst he
    simp
  · simp [he]

/-- Outcome when both sub-caches miss and the adapter stops the listing. -/
theorem ListReferences_both_miss_stop (S : Slug) (mem : Storage)
    (hB : (b.cachedBranches js mem S).2 ≠ none) (hT : (b.cachedTags js mem S).2 ≠ none)
    (hst : stops (b.raw.ListReferences (some S)).2) :
    ((ServiceWithCache.ofBase b).ListReferences js (some S)).run mem
      = Res.ok (Slice.nil, (b.raw.ListReferences (some S)).2)
          { storage := mem
            trace := [Event.storeGet (b.branchesCacheKey S),
              Event.storeGet (b.tagsCacheKey S), Event.ListReferences (some S)] } := by
  have hne : (b.raw.ListReferences (some S)).2 ≠ none := hst.1
  simp [Op.run, ListReferences_post, listReferences_reads, hB, hT, Latest_ListReferences_eq,
    hst, hne]

theorem Slice.elems_ptrs {α : Type} (R : Slice α) : R.ptrs.elems = R.elems.map some := by
  cases R <;> rfl

end Outcomes

end Metabase

namespace Metabase

theorem cachedReferences_nil (js : JSON) (b : serviceWithCacheBase) (S : Slug) (key : String) :
    (b.cachedReferences js [] S key).2 ≠ none := by
  simp only [serviceWithCacheBase.cachedReferences, Store.Get, Storage.lookup, List.find?_nil]
  cases b.cacheStore.getErr <;> simp

/-- The state of the two sub-caches after a one-sided refresh on a working
store: the refreshed side holds the written entry, the other side is as before. -/
theorem afterStore_sub_caches (js : JSON) (b : serviceWithCacheBase) (S : Slug) (w : World)
    (key other bytes : String) (L : Slice (Option Reference)) (hne : key ≠ other)
    (hs : b.cacheStore = Store.working)
    (hm : js.MarshalReferences { Slug := S, Refs := L } = some bytes) :
    (b.afterStore js w S key L).storage.lookup key = some (referencesItem key bytes)
      ∧ (b.afterStore js w S key L).storage.lookup other = w.storage.lookup other
      ∧ b.cachedReferences js (b.afterStore js w S key L).storage S other
          = b.cachedReferences js w.storage S other
      ∧ (js.UnmarshalReferences bytes = some { Slug := S, Refs := L } →
          b.cachedReferences js (b.afterStore js w S key L).storage S key = (L, none)) := by
  have hst := afterStore_storage js b w S key bytes L hs hm
  have h1 : (b.afterStore js w S key L).storage.lookup key = some (referencesItem key bytes) := by
    rw [hst]
    exact Storage.lookup_insert_self w.storage (referencesItem key bytes)
  have h2 : (b.afterStore js w S key L).storage.lookup other = w.storage.lookup other := by
    rw [hst]
    exact Storage.lookup_insert_of_ne w.storage (referencesItem key bytes) other hne
  exact ⟨h1, h2, cachedReferences_congr js b _ _ S other h2,
    fun hu => cachedReferences_of_lookup js b _ S key bytes L hs h1 hu⟩

/-- The state of the two sub-caches after both were written on a working store. -/
theorem afterStore_both (js : JSON) (b : serviceWithCacheBase) (S : Slug) (w : World)
    (bb bt : String) (B T : Slice (Option Reference)) (hs : b.cacheStore = Store.working)
    (hmb : js.MarshalReferences { Slug := S, Refs := B } = some bb)
    (hmt : js.MarshalReferences { Slug := S, Refs := T } = some bt) :
    (b.afterStore js (b.afterStore js w S (b.branchesCacheKey S) B) S
        (b.tagsCacheKey S) T).storage.lookup (b.branchesCacheKey S)
        = some (referencesItem (b.branchesCacheKey S) bb)
      ∧ (b.afterStore js (b.afterStore js w S (b.branchesCacheKey S) B) S
          (b.tagsCacheKey S) T).storage.lookup (b.tagsCacheKey S)
          = some (referencesItem (b.tagsCacheKey S) bt)
      ∧ (js.UnmarshalReferences bb = some { Slug := S, Refs := B } →
          b.cachedBranches js (b.afterStore js (b.afterStore js w S (b.branchesCacheKey S) B) S
            (b.tagsCacheKey S) T).storage S = (B, none))
      ∧ (js.UnmarshalReferences bt = some { Slug := S, Refs := T } →
          b.cachedTags js (b.afterStore js (b.afterStore js w S (b.branchesCacheKey S) B) S
            (b.tagsCacheKey S) T).storage S = (T, none)) := by
  have h1 := afterStore_sub_caches js b S w (b.branchesCacheKey S) (b.tagsCacheKey S) bb B
    (branchesCacheKey_ne_tagsCacheKey b S S) hs hmb
  have h2 := afterStore_sub_caches js b S (b.afterStore js w S (b.branchesCacheKey S) B)
    (b.tagsCacheKey S) (b.branchesCacheKey S) bt T
    (fun e => branchesCacheKey_ne_tagsCacheKey b S S e.symm) hs hmt
  have hl : (b.afterStore js (b.afterStore js w S (b.branchesCacheKey S) B) S
      (b.tagsCacheKey S) T).storage.lookup (b.branchesCacheKey S)
      = some (referencesItem (b.branchesCacheKey S) bb) := by
    rw [h2.2.1]
    exact h1.1
  exact ⟨hl, h2.1,
    fun hu => cachedReferences_of_lookup js b _ S (b.branchesCacheKey S) bb B hs hl hu,
    h2.2.2.2⟩

/-- The sub-caches read after a refresh of one side, for a round-tripping
envelope on a working store. -/
theorem afterStore_read (js : JSON) (b : serviceWithCacheBase) (S : Slug) (w : World)
    (key other : String) (L : Slice (Option Reference)) (hne : key ≠ other)
    (hs : b.cacheStore = Store.working) (hrt : js.RoundTrips { Slug := S, Refs := L }) :
    b.cachedReferences js (b.afterStore js w S key L).storage S key = (L, none)
      ∧ b.cachedReferences js (b.afterStore js w S key L).storage S other
          = b.cachedReferences js w.storage S other := by
  obtain ⟨bytes, hm, hu⟩ := hrt
  have h := afterStore_sub_caches js b S w key other bytes L hne hs hm
  exact ⟨h.2.2.2 hu, h.2.2.1⟩

/-- The sub-caches read after both sides were written, for round-tripping
envelopes on a working store. -/
theorem afterStore_both_read (js : JSON) (b : serviceWithCacheBase) (S : Slug) (w : World)
    (B T : Slice (Option Reference)) (hs : b.cacheStore = Store.working)
    (hb : js.RoundTrips { Slug := S, Refs := B }) (ht : js.RoundTrips { Slug := S, Refs := T }) :
    b.cachedBranches js (b.afterStore js (b.afterStore js w S (b.branchesCacheKey S) B) S
        (b.tagsCacheKey S) T).storage S = (B, none)
      ∧ b.cachedTags js (b.afterStore js (b.afterStore js w S (b.branchesCacheKey S) B) S
          (b.tagsCacheKey S) T).storage S = (T, none) := by
  obtain ⟨bb, hmb, hub⟩ := hb
  obtain ⟨bt, hmt, hut⟩ := ht
  have h := afterStore_both js b S w bb bt B T hs hmb hmt
  exact ⟨h.2.2.1 hub, h.2.2.2 hut⟩

end Metabase

/-! ## Claims on the composite reference listing -/

namespace Metabase

/-- C1: for a non-nil slug `S`, when the store holds under the ListBranches key
and under the ListTags key of `S` decodable `references` envelopes whose
embedded slug is `S`, with lists `B` and `T`, and `B ++ T` is not empty, then
`ServiceWithCache.ListReferences(S)` returns `(append(B, T...), nil)`, whose
elements are those of `B` followed by those of `T`; it only reads the two
sub-caches, calls no adapter operation and leaves the store content unchanged. -/
theorem C1_both_sub_caches_hit (js : JSON) (b : serviceWithCacheBase) (S : Slug)
    (mem : Storage) (ib it : Item) (B T : Slice (Option Reference))
    (hb : b.cacheStore.Get mem (b.branchesCacheKey S) = .ok ib)
    (hB : js.UnmarshalReferences ib.Value = some { Slug := S, Refs := B })
    (ht : b.cacheStore.Get mem (b.tagsCacheKey S) = .ok it)
    (hT : js.UnmarshalReferences it.Value = some { Slug := S, Refs := T })
    (hne : B.elems ++ T.elems ≠ []) :
    ((ServiceWithCache.ofBase b).ListReferences js (some S)).run mem
        = Res.ok (B.append T, none)
            { storage := mem
              trace := [Event.storeGet (b.branchesCacheKey S),
                Event.storeGet (b.tagsCacheKey S)] }
      ∧ (B.append T).elems = B.elems ++ T.elems
      ∧ (((ServiceWithCache.ofBase b).ListReferences js (some S)).run mem).adapterCalls = []
      ∧ (((ServiceWithCache.ofBase b).ListReferences js (some S)).run mem).world.storage
          = mem := by
  have hcb : b.cachedBranches js mem S = (B, none) := by
    simp [serviceWithCacheBase.cachedBranches, serviceWithCacheBase.cachedReferences, hb, hB]
  have hct : b.cachedTags js mem S = (T, none) := by
    simp [serviceWithCacheBase.cachedTags, serviceWithCacheBase.cachedReferences, ht, hT]
  have hlen : ¬ (B.append T).len = 0 := by
    rw [Slice.len_eq_zero, Slice.elems_append]
    exact hne
  have hrun : ((ServiceWithCache.ofBase b).ListReferences js (some S)).run mem
      = Res.ok (B.append T, none)
          { storage := mem
            trace := [Event.storeGet (b.branchesCacheKey S),
              Event.storeGet (b.tagsCacheKey S)] } := by
    simp [Op.run, ListReferences_post, listReferences_reads, hcb, hct, hlen]
  refine ⟨hrun, Slice.elems_append B T, ?_, ?_⟩
  · rw [hrun]
    simp [Res.adapterCalls, Res.world, Event.isAdapter, Event.isStore]
  · rw [hrun]
    rfl

/-- Witness of C1: the scenario of `Test_ListReferences_WhenBothCacheHit`, with
`[master]` and `[v1.0]` cached. -/
theorem C1_both_sub_caches_hit_witness :
    ((ServiceWithCache.ofBase (testBase (testService testFailure testFailure testFailure))).ListReferences
        testJSON (some testSlug)).run [testBranchesItem, testTagsItem]
      = Res.ok (Slice.mk [some testBranch, some testTag], none)
          { storage := [testBranchesItem, testTagsItem]
            trace := [Event.storeGet testBranchesItem.Key, Event.storeGet testTagsItem.Key] } :=
  (C1_both_sub_caches_hit testJSON (testBase (testService testFailure testFailure testFailure))
    testSlug [testBranchesItem, testTagsItem] testBranchesItem testTagsItem
    (Slice.mk [some testBranch]) (Slice.mk [some testTag])
    (by rfl) (by rfl) (by rfl) (by rfl) (by decide)).1

end Metabase

namespace Metabase

/-- C2: for a non-nil slug `S`, when exactly one of the two sub-caches holds a
valid identity-matching envelope for `S` (list `C`) and the other one misses,
`ServiceWithCache.ListReferences(S)` calls exactly one adapter operation:
`ListTags(S)` when the tags miss, `ListBranches(S)` when the branches miss.
When that call answers `(L, nil)` and the merge is not empty, the result is the
cached branches followed by `L` (respectively `L` followed by the cached tags);
afterwards, on a working store and `{Slug: S, Refs: L}` marshalling to `bytes`,
the sub-cache that missed holds the entry of that envelope (which reads back as
`L` when `bytes` unmarshals to the envelope) and the other sub-cache is unchanged. -/
theorem C2_one_sub_cache_miss (js : JSON) (b : serviceWithCacheBase) (S : Slug)
    (mem : Storage) (C : Slice (Option Reference)) :
    (b.cachedBranches js mem S = (C, none) → (b.cachedTags js mem S).2 ≠ none →
      (((ServiceWithCache.ofBase b).ListReferences js (some S)).run mem).adapterCalls
          = [Event.ListTags (some S)]
        ∧ ∀ L, b.raw.ListTags (some S) = (L, none) → C.elems ++ L.elems ≠ [] →
          (((ServiceWithCache.ofBase b).ListReferences js (some S)).run mem).value?
              = some (C.append L, none)
            ∧ (C.append L).elems = C.elems ++ L.elems
            ∧ ∀ bytes, b.cacheStore = Store.working →
                js.MarshalReferences { Slug := S, Refs := L } = some bytes →
              (((ServiceWithCache.ofBase b).ListReferences js (some S)).run
                  mem).world.storage.lookup (b.tagsCacheKey S)
                  = some (referencesItem (b.tagsCacheKey S) bytes)
                ∧ (((ServiceWithCache.ofBase b).ListReferences js (some S)).run
                    mem).world.storage.lookup (b.branchesCacheKey S)
                    = mem.lookup (b.branchesCacheKey S)
                ∧ b.cachedBranches js (((ServiceWithCache.ofBase b).ListReferences js
                    (some S)).run mem).world.storage S = (C, none)
                ∧ (js.UnmarshalReferences bytes = some { Slug := S, Refs := L } →
                    b.cachedTags js (((ServiceWithCache.ofBase b).ListReferences js
                      (some S)).run mem).world.storage S = (L, none)))
    ∧ (b.cachedTags js mem S = (C, none) → (b.cachedBranches js mem S).2 ≠ none →
      (((ServiceWithCache.ofBase b).ListReferences js (some S)).run mem).adapterCalls
          = [Event.ListBranches (some S)]
        ∧ ∀ L, b.raw.ListBranches (some S) = (L, none) → L.elems ++ C.elems ≠ [] →
          (((ServiceWithCache.ofBase b).ListReferences js (some S)).run mem).value?
              = some (L.append C, none)
            ∧ (L.append C).elems = L.elems ++ C.elems
            ∧ ∀ bytes, b.cacheStore = Store.working →
                js.MarshalReferences { Slug := S, Refs := L } = some bytes →
              (((ServiceWithCache.ofBase b).ListReferences js (some S)).run
                  mem).world.storage.lookup (b.branchesCacheKey S)
                  = some (referencesItem (b.branchesCacheKey S) bytes)
                ∧ (((ServiceWithCache.ofBase b).ListReferences js (some S)).run
                    mem).world.storage.lookup (b.tagsCacheKey S)
                    = mem.lookup (b.tagsCacheKey S)
                ∧ b.cachedTags js (((ServiceWithCache.ofBase b).ListReferences js
                    (some S)).run mem).world.storage S = (C, none)
                ∧ (js.UnmarshalReferences bytes = some { Slug := S, Refs := L } →
                    b.cachedBranches js (((ServiceWithCache.ofBase b).ListReferences js
                      (some S)).run mem).world.storage S = (L, none))) := by
  constructor
  · intro hC hmiss
    have hb : (b.cachedBranches js mem S).2 = none := by rw [hC]
    constructor
    · simp only [Op.run, ListReferences_post, listReferences_reads, hb, hmiss, if_true, if_false,
        Latest_ListTags_eq]
      by_cases hstop : stops (b.raw.ListTags (some S)).2
      · have hne : (b.raw.ListTags (some S)).2 ≠ none := hstop.1
        simp [hstop, hne, Res.adapterCalls, Res.world, Event.isAdapter, Event.isStore]
      · simp only [hstop, if_false]
        split <;> [skip; split] <;>
          simp [Res.adapterCalls, Res.world, afterStore_adapterCalls, Event.isAdapter,
            Event.isStore]
    · intro L hL hne
      have hlen : ¬ (C.append L).len = 0 := by
        rw [Slice.len_eq_zero, Slice.elems_append]
        exact hne
      have hns : ¬ stops (none : Option Error) := fun h => h.1 rfl
      have hrun : ((ServiceWithCache.ofBase b).ListReferences js (some S)).run mem
          = Res.ok (C.append L, none)
              (b.afterStore js
                { storage := mem
                  trace := [Event.storeGet (b.branchesCacheKey S),
                    Event.storeGet (b.tagsCacheKey S), Event.ListTags (some S)] }
                S (b.tagsCacheKey S) L) := by
        simp [Op.run, ListReferences_post, listReferences_reads, hb, hmiss,
          Latest_ListTags_eq, hL, hns, hlen, hC]
      refine ⟨by rw [hrun]; rfl, Slice.elems_append C L, ?_⟩
      intro bytes hs hm
      rw [hrun]
      have h := afterStore_sub_caches js b S
        { storage := mem
          trace := [Event.storeGet (b.branchesCacheKey S),
            Event.storeGet (b.tagsCacheKey S), Event.ListTags (some S)] }
        (b.tagsCacheKey S) (b.branchesCacheKey S) bytes L
        (fun e => branchesCacheKey_ne_tagsCacheKey b S S e.symm) hs hm
      refine ⟨h.1, h.2.1, ?_, h.2.2.2⟩
      simp only [serviceWithCacheBase.cachedBranches, Res.world]
      rw [h.2.2.1]
      exact hC
  · intro hC hmiss
    have ht : (b.cachedTags js mem S).2 = none := by rw [hC]
    constructor
    · simp only [Op.run, ListReferences_post, listReferences_reads, ht, hmiss, if_true, if_false,
        Latest_ListBranches_eq]
      by_cases hstop : stops (b.raw.ListBranches (some S)).2
      · have hne : (b.raw.ListBranches (some S)).2 ≠ none := hstop.1
        simp [hstop, hne, Res.adapterCalls, Res.world, Event.isAdapter, Event.isStore]
      · simp only [hstop, if_false]
        split <;> [skip; split] <;>
          simp [Res.adapterCalls, Res.world, afterStore_adapterCalls, Event.isAdapter,
            Event.isStore]
    · intro L hL hne
      have hlen : ¬ (L.append C).len = 0 := by
        rw [Slice.len_eq_zero, Slice.elems_append]
        exact hne
      have hns : ¬ stops (none : Option Error) := fun h => h.1 rfl
      have hrun : ((ServiceWithCache.ofBase b).ListReferences js (some S)).run mem
          = Res.ok (L.append C, none)
              (b.afterStore js
                { storage := mem
                  trace := [Event.storeGet (b.branchesCacheKey S),
                    Event.storeGet (b.tagsCacheKey S), Event.ListBranches (some S)] }
                S (b.branchesCacheKey S) L) := by
        simp [Op.run, ListReferences_post, listReferences_reads, ht, hmiss,
          Latest_ListBranches_eq, hL, hns, hlen, hC]
      refine ⟨by rw [hrun]; rfl, Slice.elems_append L C, ?_⟩
      intro bytes hs hm
      rw [hrun]
      have h := afterStore_sub_caches js b S
        { storage := mem
          trace := [Event.storeGet (b.branchesCacheKey S),
            Event.storeGet (b.tagsCacheKey S), Event.ListBranches (some S)] }
        (b.branchesCacheKey S) (b.tagsCacheKey S) bytes L
        (branchesCacheKey_ne_tagsCacheKey b S S) hs hm
      refine ⟨h.1, h.2.1, ?_, h.2.2.2⟩
      simp only [serviceWithCacheBase.cachedTags, Res.world]
      rw [h.2.2.1]
      exact hC

end Metabase

namespace Metabase

/-- Witness of C2: the scenario of `Test_ListReferences_WhenTagsCacheMiss`, with
`[master]` cached and the adapter answering `[v1.0]` to `ListTags`. -/
theorem C2_one_sub_cache_miss_witness :
    (((ServiceWithCache.ofBase (testBase (testService testFailure testFailure
        (Slice.mk [some testTag], none)))).ListReferences testJSON (some testSlug)).run
        [testBranchesItem]).adapterCalls = [Event.ListTags (some testSlug)]
      ∧ (((ServiceWithCache.ofBase (testBase (testService testFailure testFailure
          (Slice.mk [some testTag], none)))).ListReferences testJSON (some testSlug)).run
          [testBranchesItem]).value? = some (Slice.mk [some testBranch, some testTag], none)
      ∧ (((ServiceWithCache.ofBase (testBase (testService testFailure testFailure
          (Slice.mk [some testTag], none)))).ListReferences testJSON (some testSlug)).run
          [testBranchesItem]).world.storage.lookup testTagsItem.Key = some testTagsItem :=
  ⟨((C2_one_sub_cache_miss testJSON
      (testBase (testService testFailure testFailure (Slice.mk [some testTag], none)))
      testSlug [testBranchesItem] (Slice.mk [some testBranch])).1 (by rfl) (by decide)).1,
   (((C2_one_sub_cache_miss testJSON
      (testBase (testService testFailure testFailure (Slice.mk [some testTag], none)))
      testSlug [testBranchesItem] (Slice.mk [some testBranch])).1 (by rfl) (by decide)).2
      (Slice.mk [some testTag]) rfl (by decide)).1,
   ((((C2_one_sub_cache_miss testJSON
      (testBase (testService testFailure testFailure (Slice.mk [some testTag], none)))
      testSlug [testBranchesItem] (Slice.mk [some testBranch])).1 (by rfl) (by decide)).2
      (Slice.mk [some testTag]) rfl (by decide)).2.2
      (jsonReferences { Slug := testSlug, Refs := Slice.mk [some testTag] }) rfl rfl).1⟩

/-- C3: for a non-nil slug `S` for which both sub-caches miss,
`ServiceWithCache.ListReferences(S)` calls exactly one adapter operation,
`ListReferences(S)`.  When the adapter answers a non-empty list `R` of
references with no error, the call returns `(R, nil)`; afterwards, on a working
store and the two envelopes marshalling to `bb` and `bt`, the branches
sub-cache of `S` holds exactly the branch-typed elements of `R` and the tags
sub-cache exactly the tag-typed elements of `R`, each in the order of `R` (and
they read back as such when `bb` and `bt` unmarshal to their envelopes). -/
theorem C3_both_sub_caches_miss (js : JSON) (b : serviceWithCacheBase) (S : Slug)
    (mem : Storage) (hB : (b.cachedBranches js mem S).2 ≠ none)
    (hT : (b.cachedTags js mem S).2 ≠ none) :
    (((ServiceWithCache.ofBase b).ListReferences js (some S)).run mem).adapterCalls
        = [Event.ListReferences (some S)]
      ∧ ∀ R : Slice Reference, b.raw.ListReferences (some S) = (R.ptrs, none) →
        R.elems ≠ [] →
        (((ServiceWithCache.ofBase b).ListReferences js (some S)).run mem).value?
            = some (R.ptrs, none)
          ∧ ∀ bb bt, b.cacheStore = Store.working →
            js.MarshalReferences
              { Slug := S
                Refs := Slice.ofList ((R.elems.filter Reference.IsBranch).map some) }
                = some bb →
            js.MarshalReferences
              { Slug := S
                Refs := Slice.ofList ((R.elems.filter Reference.IsTag).map some) }
                = some bt →
            (((ServiceWithCache.ofBase b).ListReferences js (some S)).run
                mem).world.storage.lookup (b.branchesCacheKey S)
                = some (referencesItem (b.branchesCacheKey S) bb)
              ∧ (((ServiceWithCache.ofBase b).ListReferences js (some S)).run
                  mem).world.storage.lookup (b.tagsCacheKey S)
                  = some (referencesItem (b.tagsCacheKey S) bt)
              ∧ (js.UnmarshalReferences bb
                    = some { Slug := S
                             Refs := Slice.ofList
                               ((R.elems.filter Reference.IsBranch).map some) } →
                  b.cachedBranches js (((ServiceWithCache.ofBase b).ListReferences js
                    (some S)).run mem).world.storage S
                    = (Slice.ofList ((R.elems.filter Reference.IsBranch).map some), none))
              ∧ (js.UnmarshalReferences bt
                    = some { Slug := S
                             Refs := Slice.ofList
                               ((R.elems.filter Reference.IsTag).map some) } →
                  b.cachedTags js (((ServiceWithCache.ofBase b).ListReferences js
                    (some S)).run mem).world.storage S
                    = (Slice.ofList ((R.elems.filter Reference.IsTag).map some), none)) := by
  constructor
  · simp only [Op.run, ListReferences_post, listReferences_reads, hB, hT, if_false,
      Latest_ListReferences_eq]
    by_cases hstop : stops (b.raw.ListReferences (some S)).2
    · have hne : (b.raw.ListReferences (some S)).2 ≠ none := hstop.1
      simp [hstop, hne, Res.adapterCalls, Res.world, Event.isAdapter, Event.isStore]
    · simp only [hstop, if_false]
      cases separateReferences (b.raw.ListReferences (some S)).1 with
      | none => simp [Res.adapterCalls, Res.world, Event.isAdapter, Event.isStore]
      | some p =>
        obtain ⟨bs, ts⟩ := p
        simp only []
        split <;> [skip; split] <;>
          simp [Res.adapterCalls, Res.world, afterStore_adapterCalls, Event.isAdapter,
            Event.isStore]
  · intro R hR hne
    have hlen : ¬ R.ptrs.len = 0 := by
      rw [Slice.len_eq_zero]
      cases R with
      | nil => exact absurd rfl hne
      | mk xs => simpa [Slice.ptrs, Slice.elems] using hne
    have hns : ¬ stops (none : Option Error) := fun h => h.1 rfl
    have hrun : ((ServiceWithCache.ofBase b).ListReferences js (some S)).run mem
        = Res.ok (R.ptrs, none)
            (b.afterStore js
              (b.afterStore js
                { storage := mem
                  trace := [Event.storeGet (b.branchesCacheKey S),
                    Event.storeGet (b.tagsCacheKey S), Event.ListReferences (some S)] }
                S (b.branchesCacheKey S)
                (Slice.ofList ((R.elems.filter Reference.IsBranch).map some)))
              S (b.tagsCacheKey S)
              (Slice.ofList ((R.elems.filter Reference.IsTag).map some))) := by
      simp [Op.run, ListReferences_post, listReferences_reads, hB, hT,
        Latest_ListReferences_eq, hR, hns, hlen, separateReferences_ptrs]
    refine ⟨by rw [hrun]; rfl, ?_⟩
    intro bb bt hs hmb hmt
    rw [hrun]
    exact afterStore_both js b S _ bb bt _ _ hs hmb hmt

end Metabase

namespace Metabase

/-- Witness of C3: the scenario of `Test_ListReferences_WhenBothCacheMiss`, with
an empty store and the adapter answering `[master, v1.0]`. -/
theorem C3_both_sub_caches_miss_witness :
    (((ServiceWithCache.ofBase (testBase (testService
        (Slice.mk [some testBranch, some testTag], none) testFailure
        testFailure))).ListReferences testJSON (some testSlug)).run []).adapterCalls
        = [Event.ListReferences (some testSlug)]
      ∧ (((ServiceWithCache.ofBase (testBase (testService
          (Slice.mk [some testBranch, some testTag], none) testFailure
          testFailure))).ListReferences testJSON (some testSlug)).run []).value?
          = some (Slice.mk [some testBranch, some testTag], none)
      ∧ (((ServiceWithCache.ofBase (testBase (testService
          (Slice.mk [some testBranch, some testTag], none) testFailure
          testFailure))).ListReferences testJSON (some testSlug)).run []).world.storage
          = [testTagsItem, testBranchesItem] :=
  ⟨(C3_both_sub_caches_miss testJSON
      (testBase (testService (Slice.mk [some testBranch, some testTag], none) testFailure
        testFailure)) testSlug [] (by decide) (by decide)).1,
   ((C3_both_sub_caches_miss testJSON
      (testBase (testService (Slice.mk [some testBranch, some testTag], none) testFailure
        testFailure)) testSlug [] (by decide) (by decide)).2
      (Slice.mk [testBranch, testTag]) rfl (by decide)).1,
   by rfl⟩

/-- C4: for a non-nil slug `S`, every store and every adapter,
`ServiceWithCache.ListReferences(S)` never returns an empty list together with
a nil error; whenever the merged sequence computed by `listReferences` is empty
it returns `(nil, ErrNotFound)`.  In particular, when both sub-caches hit with
empty lists the result is `(nil, ErrNotFound)` and no adapter operation is
called. -/
theorem C4_empty_list_is_not_found (js : JSON) (b : serviceWithCacheBase) (S : Slug)
    (mem : Storage) :
    (∀ refs w, ((ServiceWithCache.ofBase b).ListReferences js (some S)).run mem
        = Res.ok (refs, none) w → refs.elems ≠ [])
      ∧ (∀ refs w, ((ServiceWithCache.ofBase b).listReferences js (some S)).run mem
          = Res.ok (refs, none) w → refs.elems = [] →
          ((ServiceWithCache.ofBase b).ListReferences js (some S)).run mem
            = Res.ok (Slice.nil, some Error.ErrNotFound) w)
      ∧ (∀ B T, b.cachedBranches js mem S = (B, none) → b.cachedTags js mem S = (T, none) →
          B.elems = [] → T.elems = [] →
          ((ServiceWithCache.ofBase b).ListReferences js (some S)).run mem
              = Res.ok (Slice.nil, some Error.ErrNotFound)
                  { storage := mem
                    trace := [Event.storeGet (b.branchesCacheKey S),
                      Event.storeGet (b.tagsCacheKey S)] }
            ∧ (((ServiceWithCache.ofBase b).ListReferences js (some S)).run
                mem).adapterCalls = []) := by
  refine ⟨?_, ?_, ?_⟩
  · intro refs w h
    simp only [Op.run, ListReferences_post] at h
    cases hl : (ServiceWithCache.ofBase b).listReferences js (some S)
        { storage := mem, trace := [] } with
    | panic w1 => rw [hl] at h; cases h
    | ok a w1 =>
      obtain ⟨refs1, err1⟩ := a
      rw [hl] at h
      simp only [] at h
      by_cases he : err1 = none
      · subst he
        by_cases hz : refs1.len = 0
        · simp [hz] at h
        · simp only [ne_eq, not_true_eq_false, if_false, hz] at h
          cases h
          rwa [Slice.len_eq_zero] at hz
      · simp only [ne_eq, he, not_false_eq_true, if_true] at h
        cases h
        exact absurd rfl he
  · intro refs w h hz
    simp only [Op.run] at h
    have hlen : refs.len = 0 := (Slice.len_eq_zero refs).2 hz
    simp [Op.run, ListReferences_post, h, hlen]
  · intro B T hB hT hBe hTe
    have hlen : (B.append T).len = 0 := by
      rw [Slice.len_eq_zero, Slice.elems_append, hBe, hTe]
      rfl
    have hrun := ListReferences_both_hit js b S mem B T hB hT
    rw [if_pos hlen] at hrun
    refine ⟨hrun, ?_⟩
    rw [hrun]
    simp [Res.adapterCalls, Res.world, Event.isAdapter, Event.isStore]

/-- Witness of C4: the scenario of `Test_ListReferences_WhenBothEmptyCacheHit`. -/
theorem C4_empty_list_is_not_found_witness :
    ((ServiceWithCache.ofBase (testBase (testService testFailure testFailure
        testFailure))).ListReferences testJSON (some testSlug)).run
        [testEmptyBranchesItem, testEmptyTagsItem]
        = Res.ok (Slice.nil, some Error.ErrNotFound)
            { storage := [testEmptyBranchesItem, testEmptyTagsItem]
              trace := [Event.storeGet testBranchesItem.Key,
                Event.storeGet testTagsItem.Key] }
      ∧ (((ServiceWithCache.ofBase (testBase (testService testFailure testFailure
          testFailure))).ListReferences testJSON (some testSlug)).run
          [testEmptyBranchesItem, testEmptyTagsItem]).adapterCalls = [] :=
  (C4_empty_list_is_not_found testJSON
    (testBase (testService testFailure testFailure testFailure)) testSlug
    [testEmptyBranchesItem, testEmptyTagsItem]).2.2 Slice.nil Slice.nil (by rfl) (by rfl)
    rfl rfl

end Metabase

namespace Metabase

/-- C5, refuted as stated: both sub-caches miss and the adapter answers
`[v1.0, master]`, a tag before a branch.  The call returns that list unchanged,
while the sub-caches hold `[master]` and `[v1.0]` afterwards: the result is not
`branches ++ tags`, and a tag precedes a branch in it. -/
theorem C5_counterexample :
    (((ServiceWithCache.ofBase (testBase (testService
        (Slice.mk [some testTag, some testBranch], none) testFailure
        testFailure))).ListReferences testJSON (some testSlug)).run []).value?
        = some (Slice.mk [some testTag, some testBranch], none)
      ∧ (testBase (testService (Slice.mk [some testTag, some testBranch], none) testFailure
          testFailure)).cachedBranches testJSON
          (((ServiceWithCache.ofBase (testBase (testService
            (Slice.mk [some testTag, some testBranch], none) testFailure
            testFailure))).ListReferences testJSON (some testSlug)).run []).world.storage
          testSlug = (Slice.mk [some testBranch], none)
      ∧ (testBase (testService (Slice.mk [some testTag, some testBranch], none) testFailure
          testFailure)).cachedTags testJSON
          (((ServiceWithCache.ofBase (testBase (testService
            (Slice.mk [some testTag, some testBranch], none) testFailure
            testFailure))).ListReferences testJSON (some testSlug)).run []).world.storage
          testSlug = (Slice.mk [some testTag], none)
      ∧ (Slice.mk [some testTag, some testBranch]).elems
          ≠ (Slice.mk [some testBranch]).elems ++ (Slice.mk [some testTag]).elems :=
  ⟨by rfl, by rfl, by rfl, by decide⟩

/-- C5, amended: on a working store, a successful
`ServiceWithCache.ListReferences(S)` (non-nil `S`) returns `branches ++ tags`,
the lists held in the two sub-caches of `S` after the call, in the three cases
where at least one sub-cache hits (the refreshed envelope reading back from its
JSON text).  When both sub-caches miss it returns the list `R` of the adapter
unchanged, in the order of the adapter, and the two sub-caches afterwards hold
the branch-typed and the tag-typed elements of `R`. -/
theorem C5_merged_sequence (js : JSON) (b : serviceWithCacheBase) (S : Slug) (mem : Storage)
    (hs : b.cacheStore = Store.working) :
    (∀ B T, b.cachedBranches js mem S = (B, none) → b.cachedTags js mem S = (T, none) →
        ∀ refs w, ((ServiceWithCache.ofBase b).ListReferences js (some S)).run mem
            = Res.ok (refs, none) w →
          refs.elems = (b.cachedBranches js w.storage S).1.elems
            ++ (b.cachedTags js w.storage S).1.elems)
      ∧ (∀ B, b.cachedBranches js mem S = (B, none) → (b.cachedTags js mem S).2 ≠ none →
          js.RoundTrips { Slug := S, Refs := (b.raw.ListTags (some S)).1 } →
          ∀ refs w, ((ServiceWithCache.ofBase b).ListReferences js (some S)).run mem
              = Res.ok (refs, none) w →
            refs.elems = (b.cachedBranches js w.storage S).1.elems
              ++ (b.cachedTags js w.storage S).1.elems)
      ∧ (∀ T, b.cachedTags js mem S = (T, none) → (b.cachedBranches js mem S).2 ≠ none →
          js.RoundTrips { Slug := S, Refs := (b.raw.ListBranches (some S)).1 } →
          ∀ refs w, ((ServiceWithCache.ofBase b).ListReferences js (some S)).run mem
              = Res.ok (refs, none) w →
            refs.elems = (b.cachedBranches js w.storage S).1.elems
              ++ (b.cachedTags js w.storage S).1.elems)
      ∧ ((b.cachedBranches js mem S).2 ≠ none → (b.cachedTags js mem S).2 ≠ none →
          ∀ (R : Slice Reference) (err : Option Error),
            b.raw.ListReferences (some S) = (R.ptrs, err) →
            js.RoundTrips
              { Slug := S
                Refs := Slice.ofList ((R.elems.filter Reference.IsBranch).map some) } →
            js.RoundTrips
              { Slug := S
                Refs := Slice.ofList ((R.elems.filter Reference.IsTag).map some) } →
            ∀ refs w, ((ServiceWithCache.ofBase b).ListReferences js (some S)).run mem
                = Res.ok (refs, none) w →
              refs = R.ptrs
                ∧ (b.cachedBranches js w.storage S).1.elems
                    = (R.elems.filter Reference.IsBranch).map some
                ∧ (b.cachedTags js w.storage S).1.elems
                    = (R.elems.filter Reference.IsTag).map some) := by
  refine ⟨?_, ?_, ?_, ?_⟩
  · intro B T hB hT refs w h
    rw [ListReferences_both_hit js b S mem B T hB hT] at h
    split at h
    · cases h
    · cases h
      simp only [hB, hT, Slice.elems_append]
  · intro B hB hT hrt refs w h
    by_cases hst : stops (b.raw.ListTags (some S)).2
    · rw [ListReferences_tags_miss_stop js b S mem (by rw [hB]) hT hst] at h
      injection h with h1 _
      exact absurd (congrArg Prod.snd h1) hst.1
    · rw [ListReferences_tags_miss js b S mem B hB hT hst] at h
      split at h
      · cases h
      · cases h
        have hr := afterStore_read js b S
          { storage := mem
            trace := [Event.storeGet (b.branchesCacheKey S),
              Event.storeGet (b.tagsCacheKey S), Event.ListTags (some S)] }
          (b.tagsCacheKey S) (b.branchesCacheKey S) (b.raw.ListTags (some S)).1
          (fun e => branchesCacheKey_ne_tagsCacheKey b S S e.symm) hs hrt
        simp only [serviceWithCacheBase.cachedBranches, serviceWithCacheBase.cachedTags] at hB ⊢
        rw [hr.1, hr.2, hB, Slice.elems_append]
  · intro T hT hB hrt refs w h
    by_cases hst : stops (b.raw.ListBranches (some S)).2
    · rw [ListReferences_branches_miss_stop js b S mem (by rw [hT]) hB hst] at h
      injection h with h1 _
      exact absurd (congrArg Prod.snd h1) hst.1
    · rw [ListReferences_branches_miss js b S mem T hT hB hst] at h
      split at h
      · cases h
      · cases h
        have hr := afterStore_read js b S
          { storage := mem
            trace := [Event.storeGet (b.branchesCacheKey S),
              Event.storeGet (b.tagsCacheKey S), Event.ListBranches (some S)] }
          (b.branchesCacheKey S) (b.tagsCacheKey S) (b.raw.ListBranches (some S)).1
          (branchesCacheKey_ne_tagsCacheKey b S S) hs hrt
        simp only [serviceWithCacheBase.cachedBranches, serviceWithCacheBase.cachedTags] at hT ⊢
        rw [hr.1, hr.2, hT, Slice.elems_append]
  · intro hB hT R err hR hrb hrt refs w h
    by_cases hst : stops err
    · have hst2 : stops (b.raw.ListReferences (some S)).2 := by rw [hR]; exact hst
      rw [ListReferences_both_miss_stop js b S mem hB hT hst2, hR] at h
      cases h
      exact absurd rfl hst.1
    · rw [ListReferences_both_miss js b S mem R err hB hT hR hst] at h
      split at h
      · cases h
        rename_i he
        exact absurd rfl he
      · split at h
        · cases h
        · cases h
          have hr := afterStore_both_read js b S
            { storage := mem
              trace := [Event.storeGet (b.branchesCacheKey S),
                Event.storeGet (b.tagsCacheKey S), Event.ListReferences (some S)] }
            _ _ hs hrb hrt
          rw [hr.1, hr.2]
          simp [Slice.elems_ofList]

end Metabase

namespace Metabase

/-- Witness of C5 (amended): the scenario of
`Test_ListReferences_WhenTagsCacheMiss`; the result `[master, v1.0]` is the
content of the branches sub-cache followed by that of the refreshed tags
sub-cache. -/
theorem C5_merged_sequence_witness :
    (Slice.mk [some testBranch, some testTag]).elems
      = ((testBase (testService testFailure testFailure
            (Slice.mk [some testTag], none))).cachedBranches testJSON
            [testTagsItem, testBranchesItem] testSlug).1.elems
        ++ ((testBase (testService testFailure testFailure
            (Slice.mk [some testTag], none))).cachedTags testJSON
            [testTagsItem, testBranchesItem] testSlug).1.elems :=
  (C5_merged_sequence testJSON
    (testBase (testService testFailure testFailure (Slice.mk [some testTag], none)))
    testSlug [testBranchesItem] rfl).2.1 (Slice.mk [some testBranch]) (by rfl) (by decide)
    ⟨jsonReferences { Slug := testSlug, Refs := Slice.mk [some testTag] }, rfl, by rfl⟩
    (Slice.mk [some testBranch, some testTag])
    { storage := [testTagsItem, testBranchesItem]
      trace := [Event.storeGet testBranchesItem.Key, Event.storeGet testTagsItem.Key,
        Event.ListTags (some testSlug), Event.storeSet testTagsItem] }
    (by rfl)

/-- C6, refuted as stated: from an empty store, when the adapter answers
`ListReferences(S)` with an empty list and no error, the cache-first variant
returns `(nil, ErrNotFound)`: the error is not the one of the live call. -/
theorem C6_counterexample :
    (testService (Slice.mk [], none) testFailure testFailure).ListReferences (some testSlug)
        = (Slice.mk [], none)
      ∧ (((ServiceWithCache.ofBase (testBase (testService (Slice.mk [], none) testFailure
          testFailure))).ListReferences testJSON (some testSlug)).run []).value?
          = some (Slice.nil, some Error.ErrNotFound) :=
  ⟨rfl, by rfl⟩

/-- C6, amended: from an empty store and for a non-nil slug `S`, when the
adapter answers `ListReferences(S)` with a list `R` of references and an error
`err`, `ServiceWithCache.ListReferences(S)` returns `(nil, err)` when `err` is
not nil (the error of the live call, without its list), `(nil, ErrNotFound)`
when `err` is nil and `R` is empty, and `(R, nil)`, the answer of the live
call, when `err` is nil and `R` is not empty. -/
theorem C6_from_empty_store (js : JSON) (b : serviceWithCacheBase) (S : Slug)
    (R : Slice Reference) (err : Option Error)
    (hR : b.raw.ListReferences (some S) = (R.ptrs, err)) :
    (((ServiceWithCache.ofBase b).ListReferences js (some S)).run []).value?
      = some (if err ≠ none then (Slice.nil, err)
              else if R.elems = [] then (Slice.nil, some Error.ErrNotFound)
              else (R.ptrs, none)) := by
  have hB : (b.cachedBranches js [] S).2 ≠ none := cachedReferences_nil js b S _
  have hT : (b.cachedTags js [] S).2 ≠ none := cachedReferences_nil js b S _
  by_cases hst : stops err
  · have hst2 : stops (b.raw.ListReferences (some S)).2 := by rw [hR]; exact hst
    rw [ListReferences_both_miss_stop js b S [] hB hT hst2, hR]
    simp [Res.value?, hst.1]
  · rw [ListReferences_both_miss js b S [] R err hB hT hR hst]
    have hl : R.ptrs.len = 0 ↔ R.elems = [] := by
      rw [Slice.len_eq_zero, Slice.elems_ptrs]
      simp
    by_cases he : err = none
    · subst he
      by_cases hz : R.elems = []
      · simp [Res.value?, hz, hl]
      · simp [Res.value?, hz, hl]
    · simp [Res.value?, he]

/-- Witness of C6 (amended): from an empty store, the adapter answering
`(nil, ErrNotFound)`, as in `Test_ListReferences_WhenRawServiceNotFoundError`. -/
theorem C6_from_empty_store_witness :
    (((ServiceWithCache.ofBase (testBase (testService (Slice.nil, some Error.ErrNotFound)
        testFailure testFailure))).ListReferences testJSON (some testSlug)).run []).value?
      = some (Slice.nil, some Error.ErrNotFound) :=
  C6_from_empty_store testJSON
    (testBase (testService (Slice.nil, some Error.ErrNotFound) testFailure testFailure))
    testSlug Slice.nil (some Error.ErrNotFound) rfl

end Metabase

/-! ## Claims on the shared plumbing and the always-fresh variant -/

namespace Metabase

/-- C7: each of `RegisterDeployKey`, `UnregisterDeployKey`, `ExistsDeployKey`,
`RegisterWebhook`, `UnregisterWebhook` and `ExistsWebhook` of
`serviceWithCacheBase` (the methods that `ServiceWithLatest` and
`ServiceWithCache` inherit from the embedded base), for all arguments and every
store content, calls the adapter operation of the same name exactly once with
the same arguments, returns exactly the result and error of the adapter, and
performs no store `Get` or `Set`: the store content is unchanged, whether the
adapter succeeds or fails. -/
theorem C7_mutations_pass_through (b : serviceWithCacheBase) (mem : Storage)
    (slug : Option Slug) (publicKey title hookURL : String) (deployKey : Option DeployKey)
    (webhook : Option Webhook) :
    ((b.RegisterDeployKey slug publicKey title).run mem
        = Res.ok (b.raw.RegisterDeployKey slug publicKey title)
            { storage := mem, trace := [Event.RegisterDeployKey slug publicKey title] }
      ∧ ((b.RegisterDeployKey slug publicKey title).run mem).storeAccesses = [])
    ∧ ((b.UnregisterDeployKey slug deployKey).run mem
        = Res.ok (b.raw.UnregisterDeployKey slug deployKey)
            { storage := mem, trace := [Event.UnregisterDeployKey slug deployKey] }
      ∧ ((b.UnregisterDeployKey slug deployKey).run mem).storeAccesses = [])
    ∧ ((b.ExistsDeployKey slug deployKey).run mem
        = Res.ok (b.raw.ExistsDeployKey slug deployKey)
            { storage := mem, trace := [Event.ExistsDeployKey slug deployKey] }
      ∧ ((b.ExistsDeployKey slug deployKey).run mem).storeAccesses = [])
    ∧ ((b.RegisterWebhook slug hookURL).run mem
        = Res.ok (b.raw.RegisterWebhook slug hookURL)
            { storage := mem, trace := [Event.RegisterWebhook slug hookURL] }
      ∧ ((b.RegisterWebhook slug hookURL).run mem).storeAccesses = [])
    ∧ ((b.UnregisterWebhook slug webhook).run mem
        = Res.ok (b.raw.UnregisterWebhook slug webhook)
            { storage := mem, trace := [Event.UnregisterWebhook slug webhook] }
      ∧ ((b.UnregisterWebhook slug webhook).run mem).storeAccesses = [])
    ∧ ((b.ExistsWebhook slug webhook).run mem
        = Res.ok (b.raw.ExistsWebhook slug webhook)
            { storage := mem, trace := [Event.ExistsWebhook slug webhook] }
      ∧ ((b.ExistsWebhook slug webhook).run mem).storeAccesses = []) :=
  ⟨⟨rfl, rfl⟩, ⟨rfl, rfl⟩, ⟨rfl, rfl⟩, ⟨rfl, rfl⟩, ⟨rfl, rfl⟩, ⟨rfl, rfl⟩⟩

/-- C8: `newServiceWithCacheBase` (and so `NewServiceWithLatest` and
`NewServiceWithCache`) returns an error, and no instance, if and only if the
adapter is nil or the cache store is nil; otherwise, for every namespace string
`ns`, the empty string included, it returns an instance that keeps the given
adapter and store and whose `cacheKey` is
`"repository-service/" ++ adapter.GetServiceName() ++ "/" ++ ns`. -/
theorem C8_construction (service : Option Service) (cacheStore : Option Store) (ns : String) :
    ((∃ err, newServiceWithCacheBase service cacheStore ns = .error err)
        ↔ (service = none ∨ cacheStore = none))
      ∧ ((∃ err, NewServiceWithLatest service cacheStore ns = .error err)
        ↔ (service = none ∨ cacheStore = none))
      ∧ ((∃ err, NewServiceWithCache service cacheStore ns = .error err)
        ↔ (service = none ∨ cacheStore = none))
      ∧ (∀ raw store, service = some raw → cacheStore = some store →
          newServiceWithCacheBase service cacheStore ns
              = .ok { raw := raw
                      cacheStore := store
                      cacheKey := "repository-service/" ++ raw.GetServiceName ++ "/" ++ ns }
            ∧ NewServiceWithLatest service cacheStore ns
              = .ok { base := { raw := raw
                                cacheStore := store
                                cacheKey := "repository-service/" ++ raw.GetServiceName
                                  ++ "/" ++ ns } }
            ∧ NewServiceWithCache service cacheStore ns
              = .ok (ServiceWithCache.ofBase
                      { raw := raw
                        cacheStore := store
                        cacheKey := "repository-service/" ++ raw.GetServiceName
                          ++ "/" ++ ns }))
      ∧ (∀ raw store,
          newServiceWithCacheBase (some raw) (some store) ""
            = .ok { raw := raw
                    cacheStore := store
                    cacheKey := "repository-service/" ++ raw.GetServiceName ++ "/" }) := by
  refine ⟨?_, ?_, ?_, ?_, ?_⟩
  · cases service <;> cases cacheStore <;> simp [newServiceWithCacheBase]
  · cases service <;> cases cacheStore <;>
      simp [NewServiceWithLatest, newServiceWithCacheBase]
  · cases service <;> cases cacheStore <;>
      simp [NewServiceWithCache, NewServiceWithLatest, newServiceWithCacheBase]
  · intro raw store h1 h2
    subst h1
    subst h2
    exact ⟨rfl, rfl, rfl⟩
  · intro raw store
    simp [newServiceWithCacheBase]

/-- Witness of C8: `Test_newServiceWithCacheBase_WithEmptyCacheKey`, with the
mocked adapter and a working store. -/
theorem C8_construction_witness :
    newServiceWithCacheBase (some (testService testFailure testFailure testFailure))
        (some Store.working) ""
      = .ok { raw := testService testFailure testFailure testFailure
              cacheStore := Store.working
              cacheKey := "repository-service/RepositoryServiceMock/" } :=
  ((C8_construction (some (testService testFailure testFailure testFailure))
    (some Store.working) "").2.2.2.1 (testService testFailure testFailure testFailure)
    Store.working rfl rfl).1

end Metabase

namespace Metabase

/-- C9, refuted as stated: `ServiceWithLatest.ListBranches(S)` on an empty
working store, the adapter failing with `ErrNotFound`.  The error is returned,
but the store is written: it holds the entry of the empty branches list. -/
theorem C9_counterexample :
    (testService testFailure (Slice.nil, some Error.ErrNotFound) testFailure).ListBranches
        (some testSlug) = (Slice.nil, some Error.ErrNotFound)
      ∧ (ServiceWithLatest.ListBranches testJSON
          { base := testBase (testService testFailure (Slice.nil, some Error.ErrNotFound)
              testFailure) } (some testSlug)).run []
          = Res.ok (Slice.nil, some Error.ErrNotFound)
              { storage := [testEmptyBranchesItem]
                trace := [Event.ListBranches (some testSlug),
                  Event.storeSet testEmptyBranchesItem] }
      ∧ [testEmptyBranchesItem] ≠ ([] : Storage) :=
  ⟨rfl, by rfl, by decide⟩

/-- C9, amended: for `GetUserID`, `GetRepositoryBySlug`, `GetRepositoryByID`,
`ListRepositories` and `GetCommitID` of `ServiceWithLatest` (non-nil identity
arguments), when the adapter call fails with any error `e`, the operation
returns that same error and the store is left unchanged, nothing being
written.  For `ListBranches` and `ListTags` this holds for every error other
than `ErrNotFound`; on `ErrNotFound` they return the list of the adapter with
`ErrNotFound` after `storeBranchesCache` / `storeTagsCache` ran on that list. -/
theorem C9_adapter_failure (js : JSON) (b : serviceWithCacheBase) (mem : Storage) (S : Slug)
    (I : Metabase.ID) (ref : Reference) (e : Error) :
    (∀ v, b.raw.GetUserID = (v, some e) →
        (ServiceWithLatest.GetUserID { base := b }).run mem
          = Res.ok ("", some e) { storage := mem, trace := [Event.GetUserID] })
      ∧ (∀ v, b.raw.GetRepositoryBySlug (some S) = (v, some e) →
          (ServiceWithLatest.GetRepositoryBySlug js { base := b } (some S)).run mem
            = Res.ok (none, some e)
                { storage := mem, trace := [Event.GetRepositoryBySlug (some S)] })
      ∧ (∀ v, b.raw.GetRepositoryByID (some I) = (v, some e) →
          (ServiceWithLatest.GetRepositoryByID js { base := b } (some I)).run mem
            = Res.ok (none, some e)
                { storage := mem, trace := [Event.GetRepositoryByID (some I)] })
      ∧ (∀ v, b.raw.ListRepositories = (v, some e) →
          (ServiceWithLatest.ListRepositories js { base := b }).run mem
            = Res.ok (Slice.nil, some e) { storage := mem, trace := [Event.ListRepositories] })
      ∧ (∀ v, b.raw.GetCommitID (some S) (some ref) = (v, some e) →
          (ServiceWithLatest.GetCommitID js { base := b } (some S) (some ref)).run mem
            = Res.ok ("", some e)
                { storage := mem, trace := [Event.GetCommitID (some S) (some ref)] })
      ∧ (∀ v, b.raw.ListBranches (some S) = (v, some e) →
          (e ≠ Error.ErrNotFound →
            (ServiceWithLatest.ListBranches js { base := b } (some S)).run mem
              = Res.ok (Slice.nil, some e)
                  { storage := mem, trace := [Event.ListBranches (some S)] })
          ∧ (e = Error.ErrNotFound →
            (ServiceWithLatest.ListBranches js { base := b } (some S)).run mem
              = Res.ok (v, some Error.ErrNotFound)
                  (b.afterStore js { storage := mem, trace := [Event.ListBranches (some S)] }
                    S (b.branchesCacheKey S) v)))
      ∧ (∀ v, b.raw.ListTags (some S) = (v, some e) →
          (e ≠ Error.ErrNotFound →
            (ServiceWithLatest.ListTags js { base := b } (some S)).run mem
              = Res.ok (Slice.nil, some e)
                  { storage := mem, trace := [Event.ListTags (some S)] })
          ∧ (e = Error.ErrNotFound →
            (ServiceWithLatest.ListTags js { base := b } (some S)).run mem
              = Res.ok (v, some Error.ErrNotFound)
                  (b.afterStore js { storage := mem, trace := [Event.ListTags (some S)] }
                    S (b.tagsCacheKey S) v))) := by
  refine ⟨?_, ?_, ?_, ?_, ?_, ?_, ?_⟩
  · intro v h
    simp [Op.run, ServiceWithLatest.GetUserID, Op.bind_apply, Op.call_apply, h, Op.pure_apply]
  · intro v h
    simp [Op.run, ServiceWithLatest.GetRepositoryBySlug, Op.bind_apply, Op.call_apply, h,
      Op.pure_apply]
  · intro v h
    simp [Op.run, ServiceWithLatest.GetRepositoryByID, Op.bind_apply, Op.call_apply, h,
      Op.pure_apply]
  · intro v h
    simp [Op.run, ServiceWithLatest.ListRepositories, Op.bind_apply, Op.call_apply, h,
      Op.pure_apply]
  · intro v h
    simp [Op.run, ServiceWithLatest.GetCommitID, Op.bind_apply, Op.call_apply, h,
      Op.pure_apply]
  · intro v h
    constructor
    · intro hne
      have hst : stops (some e) := ⟨by simp, by simpa using hne⟩
      simp only [Op.run, Latest_ListBranches_eq, h]
      rw [if_pos hst]
      rfl
    · intro he
      subst he
      have hst : ¬ stops (some Error.ErrNotFound) := fun hs => hs.2 rfl
      simp only [Op.run, Latest_ListBranches_eq, h]
      rw [if_neg hst]
      rfl
  · intro v h
    constructor
    · intro hne
      have hst : stops (some e) := ⟨by simp, by simpa using hne⟩
      simp only [Op.run, Latest_ListTags_eq, h]
      rw [if_pos hst]
      rfl
    · intro he
      subst he
      have hst : ¬ stops (some Error.ErrNotFound) := fun hs => hs.2 rfl
      simp only [Op.run, Latest_ListTags_eq, h]
      rw [if_neg hst]
      rfl

/-- Witness of C9 (amended): `Test_GetUserID_WhenRawServiceError`. -/
theorem C9_adapter_failure_witness :
    (ServiceWithLatest.GetUserID
        { base := testBase (testService testFailure testFailure testFailure) }).run []
      = Res.ok ("", some (Error.other "test: unexpected error"))
          { storage := [], trace := [Event.GetUserID] } :=
  (C9_adapter_failure testJSON (testBase (testService testFailure testFailure testFailure)) []
    testSlug { Saas := "github.com", OwnerID := "100", ID := "200" } testBranch
    (Error.other "test: unexpected error")).1 "" rfl

/-- C10: for `ListReferences`, `ListBranches` and `ListTags` of
`ServiceWithLatest` and a non-nil slug `S`, on a working store: when the adapter
answers `(L, ErrNotFound)`, the operation returns `(L, ErrNotFound)` and
afterwards the corresponding sub-caches of `S` hold an identity-matching
envelope for `S` (for `ListReferences` the branch-typed and the tag-typed part
of `L`, the empty list when `L` is empty), the envelopes reading back from
their JSON text, so that a subsequent `retrieveBranchesCache(S)` /
`retrieveTagsCache(S)` succeeds without error. -/
theorem C10_not_found_is_cached (js : JSON) (b : serviceWithCacheBase) (S : Slug)
    (mem : Storage) (hs : b.cacheStore = Store.working) :
    (∀ L : Slice Reference, b.raw.ListReferences (some S) = (L.ptrs, some Error.ErrNotFound) →
        js.RoundTrips
          { Slug := S, Refs := Slice.ofList ((L.elems.filter Reference.IsBranch).map some) } →
        js.RoundTrips
          { Slug := S, Refs := Slice.ofList ((L.elems.filter Reference.IsTag).map some) } →
        ((ServiceWithLatest.ListReferences js { base := b } (some S)).run mem).value?
            = some (L.ptrs, some Error.ErrNotFound)
          ∧ ((b.retrieveBranchesCache js (some S)).run
              ((ServiceWithLatest.ListReferences js { base := b } (some S)).run
                mem).world.storage).value?
              = some (Slice.ofList ((L.elems.filter Reference.IsBranch).map some), none)
          ∧ ((b.retrieveTagsCache js (some S)).run
              ((ServiceWithLatest.ListReferences js { base := b } (some S)).run
                mem).world.storage).value?
              = some (Slice.ofList ((L.elems.filter Reference.IsTag).map some), none))
      ∧ (∀ L, b.raw.ListBranches (some S) = (L, some Error.ErrNotFound) →
          js.RoundTrips { Slug := S, Refs := L } →
          ((ServiceWithLatest.ListBranches js { base := b } (some S)).run mem).value?
              = some (L, some Error.ErrNotFound)
            ∧ ((b.retrieveBranchesCache js (some S)).run
                ((ServiceWithLatest.ListBranches js { base := b } (some S)).run
                  mem).world.storage).value? = some (L, none))
      ∧ (∀ L, b.raw.ListTags (some S) = (L, some Error.ErrNotFound) →
          js.RoundTrips { Slug := S, Refs := L } →
          ((ServiceWithLatest.ListTags js { base := b } (some S)).run mem).value?
              = some (L, some Error.ErrNotFound)
            ∧ ((b.retrieveTagsCache js (some S)).run
                ((ServiceWithLatest.ListTags js { base := b } (some S)).run
                  mem).world.storage).value? = some (L, none)) := by
  have hns : ¬ stops (some Error.ErrNotFound) := fun h => h.2 rfl
  refine ⟨?_, ?_, ?_⟩
  · intro L hL hrb hrt
    have hrun : (ServiceWithLatest.ListReferences js { base := b } (some S)).run mem
        = Res.ok (L.ptrs, some Error.ErrNotFound)
            (b.afterStore js
              (b.afterStore js { storage := mem, trace := [Event.ListReferences (some S)] }
                S (b.branchesCacheKey S)
                (Slice.ofList ((L.elems.filter Reference.IsBranch).map some)))
              S (b.tagsCacheKey S)
              (Slice.ofList ((L.elems.filter Reference.IsTag).map some))) := by
      simp [Op.run, Latest_ListReferences_eq, hL, hns, separateReferences_ptrs]
    have hr := afterStore_both_read js b S
      { storage := mem, trace := [Event.ListReferences (some S)] } _ _ hs hrb hrt
    rw [hrun]
    refine ⟨rfl, ?_, ?_⟩
    · simp only [Op.run, retrieveBranchesCache_eq, Res.value?, Res.world, hr.1]
    · simp only [Op.run, retrieveTagsCache_eq, Res.value?, Res.world, hr.2]
  · intro L hL hrt
    have hrun : (ServiceWithLatest.ListBranches js { base := b } (some S)).run mem
        = Res.ok (L, some Error.ErrNotFound)
            (b.afterStore js { storage := mem, trace := [Event.ListBranches (some S)] }
              S (b.branchesCacheKey S) L) := by
      simp [Op.run, Latest_ListBranches_eq, hL, hns]
    have hr := afterStore_read js b S
      { storage := mem, trace := [Event.ListBranches (some S)] }
      (b.branchesCacheKey S) (b.tagsCacheKey S) L (branchesCacheKey_ne_tagsCacheKey b S S)
      hs hrt
    rw [hrun]
    refine ⟨rfl, ?_⟩
    simp only [Op.run, retrieveBranchesCache_eq, Res.value?, Res.world,
      serviceWithCacheBase.cachedBranches, hr.1]
  · intro L hL hrt
    have hrun : (ServiceWithLatest.ListTags js { base := b } (some S)).run mem
        = Res.ok (L, some Error.ErrNotFound)
            (b.afterStore js { storage := mem, trace := [Event.ListTags (some S)] }
              S (b.tagsCacheKey S) L) := by
      simp [Op.run, Latest_ListTags_eq, hL, hns]
    have hr := afterStore_read js b S
      { storage := mem, trace := [Event.ListTags (some S)] }
      (b.tagsCacheKey S) (b.branchesCacheKey S) L
      (fun e => branchesCacheKey_ne_tagsCacheKey b S S e.symm) hs hrt
    rw [hrun]
    refine ⟨rfl, ?_⟩
    simp only [Op.run, retrieveTagsCache_eq, Res.value?, Res.world,
      serviceWithCacheBase.cachedTags, hr.1]

/-- Witness of C10: `Test_ListReferences_WhenRawServiceNotFoundError`, the
adapter answering `(nil, ErrNotFound)` on an empty working store. -/
theorem C10_not_found_is_cached_witness :
    ((ServiceWithLatest.ListReferences testJSON
        { base := testBase (testService (Slice.nil, some Error.ErrNotFound) testFailure
            testFailure) } (some testSlug)).run []).value?
        = some (Slice.nil, some Error.ErrNotFound)
      ∧ (((testBase (testService (Slice.nil, some Error.ErrNotFound) testFailure
            testFailure)).retrieveBranchesCache testJSON (some testSlug)).run
          ((ServiceWithLatest.ListReferences testJSON
            { base := testBase (testService (Slice.nil, some Error.ErrNotFound) testFailure
                testFailure) } (some testSlug)).run []).world.storage).value?
          = some (Slice.nil, none)
      ∧ (((testBase (testService (Slice.nil, some Error.ErrNotFound) testFailure
            testFailure)).retrieveTagsCache testJSON (some testSlug)).run
          ((ServiceWithLatest.ListReferences testJSON
            { base := testBase (testService (Slice.nil, some Error.ErrNotFound) testFailure
                testFailure) } (some testSlug)).run []).world.storage).value?
          = some (Slice.nil, none) :=
  (C10_not_found_is_cached testJSON
    (testBase (testService (Slice.nil, some Error.ErrNotFound) testFailure testFailure))
    testSlug [] rfl).1 Slice.nil rfl
    ⟨jsonReferences { Slug := testSlug, Refs := Slice.nil }, rfl, by rfl⟩
    ⟨jsonReferences { Slug := testSlug, Refs := Slice.nil }, rfl, by rfl⟩

end Metabase

/-! ## The operations of the always-fresh variant, for all arguments -/

namespace Metabase

section LatestFormulas

variable (js : JSON) (b : serviceWithCacheBase)

theorem afterWrite_adapterCalls (store : Store) (w : World) (encoded : Option String)
    (key : String) :
    (afterWrite store w encoded key).trace.filter Event.isAdapter
      = w.trace.filter Event.isAdapter := by
  unfold afterWrite JSONItem.Item
  cases encoded <;> simp [Event.isAdapter, Event.isStore]

theorem afterWrite_storeGets (store : Store) (w : World) (encoded : Option String)
    (key : String) :
    (afterWrite store w encoded key).trace.filter Event.isGet = w.trace.filter Event.isGet := by
  unfold afterWrite JSONItem.Item
  cases encoded <;> simp [Event.isGet]

theorem afterWrite_lookup (w : World) (bytes key : String) :
    (afterWrite Store.working w (some bytes) key).storage.lookup key
      = some { Key := key, Value := bytes, Expiration := cacheExpiration } := by
  simp only [afterWrite, JSONItem.Item, Store.Set, Store.working]
  exact Storage.lookup_insert_self w.storage _

theorem afterStore_eq_afterWrite (w : World) (S : Slug) (key : String)
    (refs : Slice (Option Reference)) :
    b.afterStore js w S key refs
      = afterWrite b.cacheStore w (js.MarshalReferences { Slug := S, Refs := refs }) key := by
  unfold serviceWithCacheBase.afterStore afterWrite JSONItem.Item referencesItem
  cases js.MarshalReferences { Slug := S, Refs := refs } <;> rfl

theorem Latest_GetUserID_eq (w : World) :
    ServiceWithLatest.GetUserID { base := b } w
      = if b.raw.GetUserID.2 ≠ none then
          Res.ok ("", b.raw.GetUserID.2) (afterCall w Event.GetUserID)
        else
          Res.ok (b.raw.GetUserID.1, none)
            (afterWrite b.cacheStore (afterCall w Event.GetUserID) (some b.raw.GetUserID.1)
              (b.cacheKey ++ "/GetUserID")) := by
  simp only [ServiceWithLatest.GetUserID, Op.bind_apply, Op.call_apply]
  split
  · rfl
  · rfl

theorem Latest_GetRepositoryBySlug_eq (slug : Option Slug) (w : World) :
    ServiceWithLatest.GetRepositoryBySlug js { base := b } slug w
      = if (b.raw.GetRepositoryBySlug slug).2 ≠ none then
          Res.ok (none, (b.raw.GetRepositoryBySlug slug).2)
            (afterCall w (Event.GetRepositoryBySlug slug))
        else
          match slug with
          | none => Res.panic (afterCall w (Event.GetRepositoryBySlug slug))
          | some s =>
            Res.ok ((b.raw.GetRepositoryBySlug slug).1, none)
              (afterWrite b.cacheStore (afterCall w (Event.GetRepositoryBySlug slug))
                (js.MarshalRepository (b.raw.GetRepositoryBySlug slug).1)
                (b.repositoryBySlugKey s)) := by
  simp only [ServiceWithLatest.GetRepositoryBySlug, Op.bind_apply, Op.call_apply]
  split
  · rfl
  · cases slug with
    | none => rfl
    | some s =>
      simp only [Op.bind_apply, Op.deref_some, afterWrite, JSONItem.Item,
        serviceWithCacheBase.repositoryBySlugKey]
      cases js.MarshalRepository (b.raw.GetRepositoryBySlug (some s)).1 <;> rfl

theorem Latest_GetRepositoryByID_eq (id : Option Metabase.ID) (w : World) :
    ServiceWithLatest.GetRepositoryByID js { base := b } id w
      = if (b.raw.GetRepositoryByID id).2 ≠ none then
          Res.ok (none, (b.raw.GetRepositoryByID id).2)
            (afterCall w (Event.GetRepositoryByID id))
        else
          match id with
          | none => Res.panic (afterCall w (Event.GetRepositoryByID id))
          | some i =>
            Res.ok ((b.raw.GetRepositoryByID id).1, none)
              (afterWrite b.cacheStore (afterCall w (Event.GetRepositoryByID id))
                (js.MarshalRepository (b.raw.GetRepositoryByID id).1)
                (b.repositoryByIDKey i)) := by
  simp only [ServiceWithLatest.GetRepositoryByID, Op.bind_apply, Op.call_apply]
  split
  · rfl
  · cases id with
    | none => rfl
    | some i =>
      simp only [Op.bind_apply, Op.deref_some, afterWrite, JSONItem.Item,
        serviceWithCacheBase.repositoryByIDKey]
      cases js.MarshalRepository (b.raw.GetRepositoryByID (some i)).1 <;> rfl

theorem Latest_ListRepositories_eq (w : World) :
    ServiceWithLatest.ListRepositories js { base := b } w
      = if b.raw.ListRepositories.2 ≠ none then
          Res.ok (Slice.nil, b.raw.ListRepositories.2) (afterCall w Event.ListRepositories)
        else
          Res.ok (b.raw.ListRepositories.1, none)
            (afterWrite b.cacheStore (afterCall w Event.ListRepositories)
              (js.MarshalRepositories b.raw.ListRepositories.1)
              (b.cacheKey ++ "/ListRepositories")) := by
  simp only [ServiceWithLatest.ListRepositories, Op.bind_apply, Op.call_apply]
  split
  · rfl
  · simp only [afterWrite, JSONItem.Item]
    cases js.MarshalRepositories b.raw.ListRepositories.1 <;> rfl

theorem Latest_GetCommitID_eq (slug : Option Slug) (ref : Option Reference) (w : World) :
    ServiceWithLatest.GetCommitID js { base := b } slug ref w
      = if (b.raw.GetCommitID slug ref).2 ≠ none then
          Res.ok ("", (b.raw.GetCommitID slug ref).2) (afterCall w (Event.GetCommitID slug ref))
        else
          match slug, ref with
          | some s, some r =>
            Res.ok ((b.raw.GetCommitID slug ref).1, none)
              (afterWrite b.cacheStore (afterCall w (Event.GetCommitID slug ref))
                (js.MarshalCommit
                  { Slug := s, Ref := r, ID := (b.raw.GetCommitID slug ref).1 })
                (b.commitIDKey s r))
          | _, _ => Res.panic (afterCall w (Event.GetCommitID slug ref)) := by
  simp only [ServiceWithLatest.GetCommitID, Op.bind_apply, Op.call_apply]
  split
  · rfl
  · cases slug with
    | none => rfl
    | some s =>
      cases ref with
      | none => rfl
      | some r =>
        simp only [Op.bind_apply, Op.deref_some, afterWrite, JSONItem.Item,
          serviceWithCacheBase.commitIDKey]
        cases js.MarshalCommit
          { Slug := s, Ref := r, ID := (b.raw.GetCommitID (some s) (some r)).1 } <;> rfl

theorem storeBranchesCache_none (refs : Slice (Option Reference)) (w : World) :
    b.storeBranchesCache js none refs w = Res.panic w := rfl

theorem storeTagsCache_none (refs : Slice (Option Reference)) (w : World) :
    b.storeTagsCache js none refs w = Res.panic w := rfl

theorem Latest_ListBranches_all (slug : Option Slug) (w : World) :
    ServiceWithLatest.ListBranches js { base := b } slug w
      = if stops (b.raw.ListBranches slug).2 then
          Res.ok (Slice.nil, (b.raw.ListBranches slug).2) (afterCall w (Event.ListBranches slug))
        else
          match slug with
          | none => Res.panic (afterCall w (Event.ListBranches slug))
          | some s =>
            Res.ok (b.raw.ListBranches slug)
              (b.afterStore js (afterCall w (Event.ListBranches slug)) s (b.branchesCacheKey s)
                (b.raw.ListBranches slug).1) := by
  cases slug with
  | some s => exact Latest_ListBranches_eq js b s w
  | none =>
    simp only [ServiceWithLatest.ListBranches, Op.bind_apply, Op.call_apply, stops]
    split
    · rfl
    · simp only [Op.bind_apply, storeBranchesCache_none]
      rfl

theorem Latest_ListTags_all (slug : Option Slug) (w : World) :
    ServiceWithLatest.ListTags js { base := b } slug w
      = if stops (b.raw.ListTags slug).2 then
          Res.ok (Slice.nil, (b.raw.ListTags slug).2) (afterCall w (Event.ListTags slug))
        else
          match slug with
          | none => Res.panic (afterCall w (Event.ListTags slug))
          | some s =>
            Res.ok (b.raw.ListTags slug)
              (b.afterStore js (afterCall w (Event.ListTags slug)) s (b.tagsCacheKey s)
                (b.raw.ListTags slug).1) := by
  cases slug with
  | some s => exact Latest_ListTags_eq js b s w
  | none =>
    simp only [ServiceWithLatest.ListTags, Op.bind_apply, Op.call_apply, stops]
    split
    · rfl
    · simp only [Op.bind_apply, storeTagsCache_none]
      rfl

theorem Latest_ListReferences_all (slug : Option Slug) (w : World) :
    ServiceWithLatest.ListReferences js { base := b } slug w
      = if stops (b.raw.ListReferences slug).2 then
          Res.ok (Slice.nil, (b.raw.ListReferences slug).2)
            (afterCall w (Event.ListReferences slug))
        else
          match separateReferences (b.raw.ListReferences slug).1, slug with
          | some (branches, tags), some s =>
            Res.ok (b.raw.ListReferences slug)
              (b.afterStore js
                (b.afterStore js (afterCall w (Event.ListReferences slug)) s
                  (b.branchesCacheKey s) branches)
                s (b.tagsCacheKey s) tags)
          | _, _ => Res.panic (afterCall w (Event.ListReferences slug)) := by
  cases slug with
  | some s =>
    rw [Latest_ListReferences_eq js b s w]
    split
    · rfl
    · cases separateReferences (b.raw.ListReferences (some s)).1 with
      | none => rfl
      | some p => rfl
  | none =>
    simp only [ServiceWithLatest.ListReferences, Op.bind_apply, Op.call_apply, stops]
    split
    · rfl
    · cases separateReferences (b.raw.ListReferences none).1 with
      | none => rfl
      | some p =>
        simp only [Op.bind_apply, storeBranchesCache_none]
        rfl

end LatestFormulas

end Metabase

/-! ## The operations of the cache-first variant: hit or fall through -/

namespace Metabase

section CacheFormulas

variable (js : JSON) (b : serviceWithCacheBase)

theorem Cache_GetUserID_eq (w : World) :
    (ServiceWithCache.ofBase b).GetUserID w
      = match b.cacheStore.Get w.storage (b.cacheKey ++ "/GetUserID") with
        | .ok item =>
          Res.ok (item.Value, none) (afterCall w (Event.storeGet (b.cacheKey ++ "/GetUserID")))
        | .error _ =>
          ServiceWithLatest.GetUserID { base := b }
            (afterCall w (Event.storeGet (b.cacheKey ++ "/GetUserID"))) := by
  simp only [ServiceWithCache.GetUserID, ServiceWithCache.ofBase, Op.bind_apply,
    Op.storeGet_apply]
  cases b.cacheStore.Get w.storage (b.cacheKey ++ "/GetUserID") <;> rfl

theorem Cache_GetRepositoryBySlug_eq (S : Slug) (w : World) :
    (ServiceWithCache.ofBase b).GetRepositoryBySlug js (some S) w
      = match b.cachedRepositoryBySlug js w.storage S with
        | some repo =>
          Res.ok (some repo, none) (afterCall w (Event.storeGet (b.repositoryBySlugKey S)))
        | none =>
          ServiceWithLatest.GetRepositoryBySlug js { base := b } (some S)
            (afterCall w (Event.storeGet (b.repositoryBySlugKey S))) := by
  simp only [ServiceWithCache.GetRepositoryBySlug, ServiceWithCache.ofBase, Op.bind_apply,
    Op.storeGet_apply, serviceWithCacheBase.cachedRepositoryBySlug,
    serviceWithCacheBase.repositoryBySlugKey, repositoryFromCacheItem]
  cases b.cacheStore.Get w.storage (b.cacheKey ++ "/GetRepositoryBySlug/" ++ toString S.Hash) with
  | error e => rfl
  | ok item =>
    simp only []
    cases js.UnmarshalRepository item.Value with
    | none => rfl
    | some repo =>
      simp only []
      split <;> rfl

theorem Cache_GetRepositoryByID_eq (I : Metabase.ID) (w : World) :
    (ServiceWithCache.ofBase b).GetRepositoryByID js (some I) w
      = match b.cachedRepositoryByID js w.storage I with
        | some repo =>
          Res.ok (some repo, none) (afterCall w (Event.storeGet (b.repositoryByIDKey I)))
        | none =>
          ServiceWithLatest.GetRepositoryByID js { base := b } (some I)
            (afterCall w (Event.storeGet (b.repositoryByIDKey I))) := by
  simp only [ServiceWithCache.GetRepositoryByID, ServiceWithCache.ofBase, Op.bind_apply,
    Op.storeGet_apply, serviceWithCacheBase.cachedRepositoryByID,
    serviceWithCacheBase.repositoryByIDKey, repositoryFromCacheItem]
  cases b.cacheStore.Get w.storage (b.cacheKey ++ "/GetRepositoryByID/" ++ toString I.Hash) with
  | error e => rfl
  | ok item =>
    simp only []
    cases js.UnmarshalRepository item.Value with
    | none => rfl
    | some repo =>
      simp only []
      split <;> rfl

theorem Cache_GetCommitID_eq (S : Slug) (R : Reference) (w : World) :
    (ServiceWithCache.ofBase b).GetCommitID js (some S) (some R) w
      = match b.cachedCommit js w.storage S R with
        | some c => Res.ok (c.ID, none) (afterCall w (Event.storeGet (b.commitIDKey S R)))
        | none =>
          ServiceWithLatest.GetCommitID js { base := b } (some S) (some R)
            (afterCall w (Event.storeGet (b.commitIDKey S R))) := by
  simp only [ServiceWithCache.GetCommitID, ServiceWithCache.ofBase, Op.bind_apply,
    Op.storeGet_apply, serviceWithCacheBase.cachedCommit, serviceWithCacheBase.commitIDKey,
    commitFromCacheItem]
  cases b.cacheStore.Get w.storage
      (b.cacheKey ++ "/GetCommitID/" ++ toString S.Hash ++ "/" ++ toString R.Hash) with
  | error e => rfl
  | ok item =>
    simp only []
    cases js.UnmarshalCommit item.Value with
    | none => rfl
    | some c =>
      simp only []
      split <;> rfl

theorem Cache_ListRepositories_eq (w : World) :
    (ServiceWithCache.ofBase b).ListRepositories js w
      = match b.cachedRepositories js w.storage with
        | some repos =>
          Res.ok (Slice.mk repos, none)
            (afterCall w (Event.storeGet (b.cacheKey ++ "/ListRepositories")))
        | none =>
          ServiceWithLatest.ListRepositories js { base := b }
            (afterCall w (Event.storeGet (b.cacheKey ++ "/ListRepositories"))) := by
  simp only [ServiceWithCache.ListRepositories, ServiceWithCache.ofBase, Op.bind_apply,
    Op.storeGet_apply, serviceWithCacheBase.cachedRepositories]
  cases b.cacheStore.Get w.storage (b.cacheKey ++ "/ListRepositories") with
  | error e => rfl
  | ok item =>
    simp only []
    cases repositoriesFromCacheItem js (some item) <;> rfl

theorem Cache_ListBranches_eq (S : Slug) (w : World) :
    (ServiceWithCache.ofBase b).ListBranches js (some S) w
      = if (b.cachedBranches js w.storage S).2 = none then
          Res.ok ((b.cachedBranches js w.storage S).1, none)
            (afterCall w (Event.storeGet (b.branchesCacheKey S)))
        else
          ServiceWithLatest.ListBranches js { base := b } (some S)
            (afterCall w (Event.storeGet (b.branchesCacheKey S))) := by
  simp only [ServiceWithCache.ListBranches, ServiceWithCache.ofBase, Op.bind_apply,
    retrieveBranchesCache_eq]
  split <;> rfl

theorem Cache_ListTags_eq (S : Slug) (w : World) :
    (ServiceWithCache.ofBase b).ListTags js (some S) w
      = if (b.cachedTags js w.storage S).2 = none then
          Res.ok ((b.cachedTags js w.storage S).1, none)
            (afterCall w (Event.storeGet (b.tagsCacheKey S)))
        else
          ServiceWithLatest.ListTags js { base := b } (some S)
            (afterCall w (Event.storeGet (b.tagsCacheKey S))) := by
  simp only [ServiceWithCache.ListTags, ServiceWithCache.ofBase, Op.bind_apply,
    retrieveTagsCache_eq]
  split <;> rfl

end CacheFormulas

end Metabase

/-! ## Claims on the single-key operations -/

namespace Metabase

theorem afterStore_storeGets (js : JSON) (b : serviceWithCacheBase) (w : World) (S : Slug)
    (key : String) (refs : Slice (Option Reference)) :
    (b.afterStore js w S key refs).trace.filter Event.isGet = w.trace.filter Event.isGet := by
  rw [afterStore_eq_afterWrite]
  exact afterWrite_storeGets _ _ _ _

/-- C11: `ServiceWithLatest` never reads the store.  For each of its eight read
operations, every argument, every adapter and any two stores (handles `st1`,
`st2` and contents `mem1`, `mem2`), the two runs have the same outcome (the
same result and error, or the same nil-dereference panic when a nil identity
meets an adapter that does not fail), each calls the adapter exactly once, and
neither performs a store `Get`.  With non-nil identities, and non-nil
references in the list of `ListReferences`, the operations return. -/
theorem C11_latest_never_reads (js : JSON) (raw : Service) (st1 st2 : Store) (key : String)
    (mem1 mem2 : Storage) (slug : Option Slug) (id : Option Metabase.ID)
    (ref : Option Reference) :
    (NeverReads Event.GetUserID
        ((ServiceWithLatest.GetUserID
          { base := { raw := raw, cacheStore := st1, cacheKey := key } }).run mem1)
        ((ServiceWithLatest.GetUserID
          { base := { raw := raw, cacheStore := st2, cacheKey := key } }).run mem2)
      ∧ NeverReads (Event.GetRepositoryBySlug slug)
        ((ServiceWithLatest.GetRepositoryBySlug js
          { base := { raw := raw, cacheStore := st1, cacheKey := key } } slug).run mem1)
        ((ServiceWithLatest.GetRepositoryBySlug js
          { base := { raw := raw, cacheStore := st2, cacheKey := key } } slug).run mem2)
      ∧ NeverReads (Event.GetRepositoryByID id)
        ((ServiceWithLatest.GetRepositoryByID js
          { base := { raw := raw, cacheStore := st1, cacheKey := key } } id).run mem1)
        ((ServiceWithLatest.GetRepositoryByID js
          { base := { raw := raw, cacheStore := st2, cacheKey := key } } id).run mem2)
      ∧ NeverReads Event.ListRepositories
        ((ServiceWithLatest.ListRepositories js
          { base := { raw := raw, cacheStore := st1, cacheKey := key } }).run mem1)
        ((ServiceWithLatest.ListRepositories js
          { base := { raw := raw, cacheStore := st2, cacheKey := key } }).run mem2)
      ∧ NeverReads (Event.ListReferences slug)
        ((ServiceWithLatest.ListReferences js
          { base := { raw := raw, cacheStore := st1, cacheKey := key } } slug).run mem1)
        ((ServiceWithLatest.ListReferences js
          { base := { raw := raw, cacheStore := st2, cacheKey := key } } slug).run mem2)
      ∧ NeverReads (Event.ListBranches slug)
        ((ServiceWithLatest.ListBranches js
          { base := { raw := raw, cacheStore := st1, cacheKey := key } } slug).run mem1)
        ((ServiceWithLatest.ListBranches js
          { base := { raw := raw, cacheStore := st2, cacheKey := key } } slug).run mem2)
      ∧ NeverReads (Event.ListTags slug)
        ((ServiceWithLatest.ListTags js
          { base := { raw := raw, cacheStore := st1, cacheKey := key } } slug).run mem1)
        ((ServiceWithLatest.ListTags js
          { base := { raw := raw, cacheStore := st2, cacheKey := key } } slug).run mem2)
      ∧ NeverReads (Event.GetCommitID slug ref)
        ((ServiceWithLatest.GetCommitID js
          { base := { raw := raw, cacheStore := st1, cacheKey := key } } slug ref).run mem1)
        ((ServiceWithLatest.GetCommitID js
          { base := { raw := raw, cacheStore := st2, cacheKey := key } } slug ref).run mem2))
    ∧ (∀ (S : Slug) (I : Metabase.ID) (R : Reference),
        ((ServiceWithLatest.GetUserID
            { base := { raw := raw, cacheStore := st1, cacheKey := key } }).run mem1).value?
            ≠ none
          ∧ ((ServiceWithLatest.GetRepositoryBySlug js
              { base := { raw := raw, cacheStore := st1, cacheKey := key } }
              (some S)).run mem1).value? ≠ none
          ∧ ((ServiceWithLatest.GetRepositoryByID js
              { base := { raw := raw, cacheStore := st1, cacheKey := key } }
              (some I)).run mem1).value? ≠ none
          ∧ ((ServiceWithLatest.ListRepositories js
              { base := { raw := raw, cacheStore := st1, cacheKey := key } }).run
              mem1).value? ≠ none
          ∧ ((ServiceWithLatest.ListBranches js
              { base := { raw := raw, cacheStore := st1, cacheKey := key } }
              (some S)).run mem1).value? ≠ none
          ∧ ((ServiceWithLatest.ListTags js
              { base := { raw := raw, cacheStore := st1, cacheKey := key } }
              (some S)).run mem1).value? ≠ none
          ∧ ((ServiceWithLatest.GetCommitID js
              { base := { raw := raw, cacheStore := st1, cacheKey := key } }
              (some S) (some R)).run mem1).value? ≠ none
          ∧ (∀ (L : Slice Reference) (err : Option Error),
              raw.ListReferences (some S) = (L.ptrs, err) →
              ((ServiceWithLatest.ListReferences js
                { base := { raw := raw, cacheStore := st1, cacheKey := key } }
                (some S)).run mem1).value? ≠ none)) := by
  refine ⟨⟨?_, ?_, ?_, ?_, ?_, ?_, ?_, ?_⟩, ?_⟩
  · simp only [NeverReads, Op.run, Latest_GetUserID_eq]
    by_cases h : raw.GetUserID.2 = none <;>
      simp [h, Res.value?, Res.adapterCalls, Res.storeGets, Res.world, afterCall,
        afterWrite_adapterCalls, afterWrite_storeGets, Event.isAdapter, Event.isStore,
        Event.isGet]
  · simp only [NeverReads, Op.run, Latest_GetRepositoryBySlug_eq]
    by_cases h : (raw.GetRepositoryBySlug slug).2 = none <;> cases slug <;>
      simp [h, Res.value?, Res.adapterCalls, Res.storeGets, Res.world, afterCall,
        afterWrite_adapterCalls, afterWrite_storeGets, Event.isAdapter, Event.isStore,
        Event.isGet]
  · simp only [NeverReads, Op.run, Latest_GetRepositoryByID_eq]
    by_cases h : (raw.GetRepositoryByID id).2 = none <;> cases id <;>
      simp [h, Res.value?, Res.adapterCalls, Res.storeGets, Res.world, afterCall,
        afterWrite_adapterCalls, afterWrite_storeGets, Event.isAdapter, Event.isStore,
        Event.isGet]
  · simp only [NeverReads, Op.run, Latest_ListRepositories_eq]
    by_cases h : raw.ListRepositories.2 = none <;>
      simp [h, Res.value?, Res.adapterCalls, Res.storeGets, Res.world, afterCall,
        afterWrite_adapterCalls, afterWrite_storeGets, Event.isAdapter, Event.isStore,
        Event.isGet]
  · simp only [NeverReads, Op.run, Latest_ListReferences_all]
    by_cases h : stops (raw.ListReferences slug).2
    · simp [h, Res.value?, Res.adapterCalls, Res.storeGets, Res.world, afterCall,
        Event.isAdapter, Event.isStore, Event.isGet]
    · cases hsep : separateReferences (raw.ListReferences slug).1 with
      | none =>
        simp [h, hsep, Res.value?, Res.adapterCalls, Res.storeGets, Res.world, afterCall,
          Event.isAdapter, Event.isStore, Event.isGet]
      | some p =>
        cases slug <;>
          simp [h, hsep, Res.value?, Res.adapterCalls, Res.storeGets, Res.world, afterCall,
            afterStore_adapterCalls, afterStore_storeGets, Event.isAdapter, Event.isStore,
            Event.isGet]
  · simp only [NeverReads, Op.run, Latest_ListBranches_all]
    by_cases h : stops (raw.ListBranches slug).2 <;> cases slug <;>
      simp [h, Res.value?, Res.adapterCalls, Res.storeGets, Res.world, afterCall,
        afterStore_adapterCalls, afterStore_storeGets, Event.isAdapter, Event.isStore,
        Event.isGet]
  · simp only [NeverReads, Op.run, Latest_ListTags_all]
    by_cases h : stops (raw.ListTags slug).2 <;> cases slug <;>
      simp [h, Res.value?, Res.adapterCalls, Res.storeGets, Res.world, afterCall,
        afterStore_adapterCalls, afterStore_storeGets, Event.isAdapter, Event.isStore,
        Event.isGet]
  · simp only [NeverReads, Op.run, Latest_GetCommitID_eq]
    by_cases h : (raw.GetCommitID slug ref).2 = none <;> cases slug <;> cases ref <;>
      simp [h, Res.value?, Res.adapterCalls, Res.storeGets, Res.world, afterCall,
        afterWrite_adapterCalls, afterWrite_storeGets, Event.isAdapter, Event.isStore,
        Event.isGet]
  · intro S I R
    refine ⟨?_, ?_, ?_, ?_, ?_, ?_, ?_, ?_⟩
    · simp only [Op.run, Latest_GetUserID_eq]
      split <;> simp [Res.value?]
    · simp only [Op.run, Latest_GetRepositoryBySlug_eq]
      split <;> simp [Res.value?]
    · simp only [Op.run, Latest_GetRepositoryByID_eq]
      split <;> simp [Res.value?]
    · simp only [Op.run, Latest_ListRepositories_eq]
      split <;> simp [Res.value?]
    · simp only [Op.run, Latest_ListBranches_all]
      split <;> simp [Res.value?]
    · simp only [Op.run, Latest_ListTags_all]
      split <;> simp [Res.value?]
    · simp only [Op.run, Latest_GetCommitID_eq]
      split <;> simp [Res.value?]
    · intro L err hL
      simp only [Op.run, Latest_ListReferences_all, hL, separateReferences_ptrs]
      split <;> simp [Res.value?]

end Metabase

namespace Metabase

/-- Witness of C11: `ServiceWithLatest.ListBranches` on an empty store and on a
store where the branches are cached, as in `Test_ListBranches_WhenCache`. -/
theorem C11_latest_never_reads_witness :
    NeverReads (Event.ListBranches (some testSlug))
      ((ServiceWithLatest.ListBranches testJSON
        { base := { raw := testService testFailure (Slice.mk [some testBranch], none)
                      testFailure
                    cacheStore := Store.working
                    cacheKey := "repository-service/RepositoryServiceMock/18446744073709551615" } }
        (some testSlug)).run [])
      ((ServiceWithLatest.ListBranches testJSON
        { base := { raw := testService testFailure (Slice.mk [some testBranch], none)
                      testFailure
                    cacheStore := Store.working
                    cacheKey := "repository-service/RepositoryServiceMock/18446744073709551615" } }
        (some testSlug)).run [testBranchesItem]) :=
  (C11_latest_never_reads testJSON
    (testService testFailure (Slice.mk [some testBranch], none) testFailure)
    Store.working Store.working
    "repository-service/RepositoryServiceMock/18446744073709551615" [] [testBranchesItem]
    (some testSlug) none none).1.2.2.2.2.2.1

/-- C12: read-through on miss.  For a non-nil slug `S` and a repository `R`,
starting from an empty working store with an adapter that answers
`GetRepositoryBySlug(S)` with `(R, nil)`, `ServiceWithCache.GetRepositoryBySlug(S)`
returns `(R, nil)`, calls the adapter exactly once, and afterwards the store
entry under the key `cacheKey ++ "/GetRepositoryBySlug/" ++ decimal(S.Hash())`
is exactly the JSON serialization `bytes` of `R`. -/
theorem C12_read_through_on_miss (js : JSON) (b : serviceWithCacheBase) (S : Slug)
    (R : Repository) (bytes : String) (hs : b.cacheStore = Store.working)
    (hR : b.raw.GetRepositoryBySlug (some S) = (some R, none))
    (hm : js.MarshalRepository (some R) = some bytes) :
    (((ServiceWithCache.ofBase b).GetRepositoryBySlug js (some S)).run []).value?
        = some (some R, none)
      ∧ (((ServiceWithCache.ofBase b).GetRepositoryBySlug js (some S)).run []).adapterCalls
          = [Event.GetRepositoryBySlug (some S)]
      ∧ (((ServiceWithCache.ofBase b).GetRepositoryBySlug js (some S)).run
          []).world.storage.lookup
            (b.cacheKey ++ "/GetRepositoryBySlug/" ++ toString S.Hash)
          = some { Key := b.cacheKey ++ "/GetRepositoryBySlug/" ++ toString S.Hash
                   Value := bytes
                   Expiration := cacheExpiration }
      ∧ (((ServiceWithCache.ofBase b).GetRepositoryBySlug js (some S)).run
          []).world.storage
          = [{ Key := b.cacheKey ++ "/GetRepositoryBySlug/" ++ toString S.Hash
               Value := bytes
               Expiration := cacheExpiration }] := by
  have hmiss : b.cachedRepositoryBySlug js [] S = none := by
    simp [serviceWithCacheBase.cachedRepositoryBySlug, Store.Get, hs, Store.working,
      Storage.lookup]
  have hrun : ((ServiceWithCache.ofBase b).GetRepositoryBySlug js (some S)).run []
      = Res.ok (some R, none)
          (afterWrite Store.working
            (afterCall (afterCall { storage := [], trace := [] }
              (Event.storeGet (b.repositoryBySlugKey S)))
              (Event.GetRepositoryBySlug (some S)))
            (some bytes) (b.repositoryBySlugKey S)) := by
    simp [Op.run, Cache_GetRepositoryBySlug_eq, hmiss, Latest_GetRepositoryBySlug_eq, hR, hm, hs]
  rw [hrun]
  refine ⟨rfl, ?_, ?_, ?_⟩
  · simp [Res.adapterCalls, Res.world, afterWrite_adapterCalls, afterCall, Event.isAdapter,
      Event.isStore]
  · exact afterWrite_lookup _ bytes (b.repositoryBySlugKey S)
  · simp [Res.world, afterWrite, JSONItem.Item, Store.Set, Store.working, Storage.insert,
      afterCall, serviceWithCacheBase.repositoryBySlugKey]

/-- Witness of C12: `Test_GetRepositoryBySlug_WhenCacheMiss`. -/
theorem C12_read_through_on_miss_witness :
    (((ServiceWithCache.ofBase (testBase (testRepositoryService (some testRepository, none)
        ("", none)))).GetRepositoryBySlug testFullJSON (some testSlug)).run []).value?
        = some (some testRepository, none)
      ∧ (((ServiceWithCache.ofBase (testBase (testRepositoryService
          (some testRepository, none) ("", none)))).GetRepositoryBySlug testFullJSON
          (some testSlug)).run []).world.storage
          = [cacheItem testRepositoryKey (jsonRepository (some testRepository))] :=
  ⟨(C12_read_through_on_miss testFullJSON
      (testBase (testRepositoryService (some testRepository, none) ("", none))) testSlug
      testRepository (jsonRepository (some testRepository)) rfl rfl rfl).1,
   (C12_read_through_on_miss testFullJSON
      (testBase (testRepositoryService (some testRepository, none) ("", none))) testSlug
      testRepository (jsonRepository (some testRepository)) rfl rfl rfl).2.2.2⟩

/-- C13: cache-first short-circuit.  For a non-nil slug `S` and a repository
`R` with `R.Slug = S`, when the store entry under the `GetRepositoryBySlug` key
of `S` is the JSON serialization of `R` (which unmarshals to `R`), then
`ServiceWithCache.GetRepositoryBySlug(S)` returns `(R, nil)`, calls no adapter
operation and leaves the store content unchanged. -/
theorem C13_cache_first_short_circuit (js : JSON) (b : serviceWithCacheBase) (S : Slug)
    (R : Repository) (mem : Storage) (item : Item)
    (hget : b.cacheStore.Get mem (b.cacheKey ++ "/GetRepositoryBySlug/" ++ toString S.Hash)
      = .ok item)
    (hser : js.MarshalRepository (some R) = some item.Value
      ∧ js.UnmarshalRepository item.Value = some R)
    (hslug : R.Slug = S) :
    ((ServiceWithCache.ofBase b).GetRepositoryBySlug js (some S)).run mem
        = Res.ok (some R, none)
            { storage := mem
              trace := [Event.storeGet
                (b.cacheKey ++ "/GetRepositoryBySlug/" ++ toString S.Hash)] }
      ∧ (((ServiceWithCache.ofBase b).GetRepositoryBySlug js (some S)).run mem).adapterCalls
          = []
      ∧ (((ServiceWithCache.ofBase b).GetRepositoryBySlug js (some S)).run mem).world.storage
          = mem := by
  have hhit : b.cachedRepositoryBySlug js mem S = some R := by
    simp [serviceWithCacheBase.cachedRepositoryBySlug, serviceWithCacheBase.repositoryBySlugKey,
      hget, hser.2, hslug]
  have hrun : ((ServiceWithCache.ofBase b).GetRepositoryBySlug js (some S)).run mem
      = Res.ok (some R, none)
          { storage := mem
            trace := [Event.storeGet
              (b.cacheKey ++ "/GetRepositoryBySlug/" ++ toString S.Hash)] } := by
    simp [Op.run, Cache_GetRepositoryBySlug_eq, hhit, afterCall,
      serviceWithCacheBase.repositoryBySlugKey]
  rw [hrun]
  exact ⟨rfl, by simp [Res.adapterCalls, Res.world, Event.isAdapter, Event.isStore], rfl⟩

/-- Witness of C13: `Test_GetRepositoryBySlug_WhenValidCacheHit`. -/
theorem C13_cache_first_short_circuit_witness :
    ((ServiceWithCache.ofBase (testBase (testRepositoryService
        (none, some (Error.other "test: unexpected error"))
        ("", none)))).GetRepositoryBySlug testFullJSON (some testSlug)).run
        [cacheItem testRepositoryKey (jsonRepository (some testRepository))]
      = Res.ok (some testRepository, none)
          { storage := [cacheItem testRepositoryKey (jsonRepository (some testRepository))]
            trace := [Event.storeGet testRepositoryKey] } :=
  (C13_cache_first_short_circuit testFullJSON
    (testBase (testRepositoryService (none, some (Error.other "test: unexpected error"))
      ("", none))) testSlug testRepository
    [cacheItem testRepositoryKey (jsonRepository (some testRepository))]
    (cacheItem testRepositoryKey (jsonRepository (some testRepository)))
    (by rfl) ⟨rfl, by rfl⟩ rfl).1

end Metabase

namespace Metabase

/-- C14: collision safety of `GetRepositoryBySlug`, `GetRepositoryByID`,
`ListBranches` and `ListTags` of `ServiceWithCache`.  When the store entry
under the key of the requested identity `A` decodes to a value whose embedded
identity differs from `A`, the entry is a miss: the adapter is called exactly
once, for `A`; its answer is returned (the error with a nil value when the
adapter fails, for the listings when it fails with another error than
`ErrNotFound`); and when the adapter succeeds, on a working store, the entry
under the key of `A` is overwritten with the serialization `bytes` of the
fresh data of `A`. -/
theorem C14_collision_is_a_miss (js : JSON) (b : serviceWithCacheBase) (mem : Storage)
    (S : Slug) (I : Metabase.ID) :
    (∀ item repo, b.cacheStore.Get mem (b.repositoryBySlugKey S) = .ok item →
        js.UnmarshalRepository item.Value = some repo → repo.Slug ≠ S →
        (((ServiceWithCache.ofBase b).GetRepositoryBySlug js (some S)).run mem).adapterCalls
            = [Event.GetRepositoryBySlug (some S)]
          ∧ (((ServiceWithCache.ofBase b).GetRepositoryBySlug js (some S)).run mem).value?
              = some (if (b.raw.GetRepositoryBySlug (some S)).2 ≠ none
                      then (none, (b.raw.GetRepositoryBySlug (some S)).2)
                      else b.raw.GetRepositoryBySlug (some S))
          ∧ ∀ bytes, (b.raw.GetRepositoryBySlug (some S)).2 = none →
              b.cacheStore = Store.working →
              js.MarshalRepository (b.raw.GetRepositoryBySlug (some S)).1 = some bytes →
              (((ServiceWithCache.ofBase b).GetRepositoryBySlug js (some S)).run
                mem).world.storage.lookup (b.repositoryBySlugKey S)
                = some (cacheItem (b.repositoryBySlugKey S) bytes))
      ∧ (∀ item repo, b.cacheStore.Get mem (b.repositoryByIDKey I) = .ok item →
          js.UnmarshalRepository item.Value = some repo → repo.ID ≠ I →
          (((ServiceWithCache.ofBase b).GetRepositoryByID js (some I)).run mem).adapterCalls
              = [Event.GetRepositoryByID (some I)]
            ∧ (((ServiceWithCache.ofBase b).GetRepositoryByID js (some I)).run mem).value?
                = some (if (b.raw.GetRepositoryByID (some I)).2 ≠ none
                        then (none, (b.raw.GetRepositoryByID (some I)).2)
                        else b.raw.GetRepositoryByID (some I))
            ∧ ∀ bytes, (b.raw.GetRepositoryByID (some I)).2 = none →
                b.cacheStore = Store.working →
                js.MarshalRepository (b.raw.GetRepositoryByID (some I)).1 = some bytes →
                (((ServiceWithCache.ofBase b).GetRepositoryByID js (some I)).run
                  mem).world.storage.lookup (b.repositoryByIDKey I)
                  = some (cacheItem (b.repositoryByIDKey I) bytes))
      ∧ (∀ item refs, b.cacheStore.Get mem (b.branchesCacheKey S) = .ok item →
          js.UnmarshalReferences item.Value = some refs → refs.Slug ≠ S →
          (((ServiceWithCache.ofBase b).ListBranches js (some S)).run mem).adapterCalls
              = [Event.ListBranches (some S)]
            ∧ (((ServiceWithCache.ofBase b).ListBranches js (some S)).run mem).value?
                = some (if stops (b.raw.ListBranches (some S)).2
                        then (Slice.nil, (b.raw.ListBranches (some S)).2)
                        else b.raw.ListBranches (some S))
            ∧ ∀ bytes, (b.raw.ListBranches (some S)).2 = none →
                b.cacheStore = Store.working →
                js.MarshalReferences { Slug := S, Refs := (b.raw.ListBranches (some S)).1 }
                  = some bytes →
                (((ServiceWithCache.ofBase b).ListBranches js (some S)).run
                  mem).world.storage.lookup (b.branchesCacheKey S)
                  = some (cacheItem (b.branchesCacheKey S) bytes))
      ∧ (∀ item refs, b.cacheStore.Get mem (b.tagsCacheKey S) = .ok item →
          js.UnmarshalReferences item.Value = some refs → refs.Slug ≠ S →
          (((ServiceWithCache.ofBase b).ListTags js (some S)).run mem).adapterCalls
              = [Event.ListTags (some S)]
            ∧ (((ServiceWithCache.ofBase b).ListTags js (some S)).run mem).value?
                = some (if stops (b.raw.ListTags (some S)).2
                        then (Slice.nil, (b.raw.ListTags (some S)).2)
                        else b.raw.ListTags (some S))
            ∧ ∀ bytes, (b.raw.ListTags (some S)).2 = none →
                b.cacheStore = Store.working →
                js.MarshalReferences { Slug := S, Refs := (b.raw.ListTags (some S)).1 }
                  = some bytes →
                (((ServiceWithCache.ofBase b).ListTags js (some S)).run
                  mem).world.storage.lookup (b.tagsCacheKey S)
                  = some (cacheItem (b.tagsCacheKey S) bytes)) := by
  have hns : ¬ stops (none : Option Error) := fun h => h.1 rfl
  refine ⟨?_, ?_, ?_, ?_⟩
  · intro item repo hget hun hne
    have hmiss : b.cachedRepositoryBySlug js mem S = none := by
      simp [serviceWithCacheBase.cachedRepositoryBySlug, hget, hun, hne]
    simp only [Op.run, Cache_GetRepositoryBySlug_eq, hmiss, Latest_GetRepositoryBySlug_eq]
    by_cases he : (b.raw.GetRepositoryBySlug (some S)).2 = none
    · refine ⟨?_, ?_, ?_⟩
      · simp [he, Res.adapterCalls, Res.world, afterWrite_adapterCalls, afterCall,
          Event.isAdapter, Event.isStore]
      · simp only [he, ne_eq, not_true_eq_false, if_false, Res.value?]
        rw [← he]
      · intro bytes _ hs hm
        simp only [he, ne_eq, not_true_eq_false, if_false, Res.world, hs, hm]
        exact afterWrite_lookup _ bytes _
    · refine ⟨?_, ?_, ?_⟩
      · simp [he, Res.adapterCalls, Res.world, afterCall, Event.isAdapter, Event.isStore]
      · simp [he, Res.value?]
      · intro bytes he2
        exact absurd he2 he
  · intro item repo hget hun hne
    have hmiss : b.cachedRepositoryByID js mem I = none := by
      simp [serviceWithCacheBase.cachedRepositoryByID, hget, hun, hne]
    simp only [Op.run, Cache_GetRepositoryByID_eq, hmiss, Latest_GetRepositoryByID_eq]
    by_cases he : (b.raw.GetRepositoryByID (some I)).2 = none
    · refine ⟨?_, ?_, ?_⟩
      · simp [he, Res.adapterCalls, Res.world, afterWrite_adapterCalls, afterCall,
          Event.isAdapter, Event.isStore]
      · simp only [he, ne_eq, not_true_eq_false, if_false, Res.value?]
        rw [← he]
      · intro bytes _ hs hm
        simp only [he, ne_eq, not_true_eq_false, if_false, Res.world, hs, hm]
        exact afterWrite_lookup _ bytes _
    · refine ⟨?_, ?_, ?_⟩
      · simp [he, Res.adapterCalls, Res.world, afterCall, Event.isAdapter, Event.isStore]
      · simp [he, Res.value?]
      · intro bytes he2
        exact absurd he2 he
  · intro item refs hget hun hne
    have hmiss : (b.cachedBranches js mem S).2 ≠ none := by
      simp [serviceWithCacheBase.cachedBranches, serviceWithCacheBase.cachedReferences, hget,
        hun, hne]
    simp only [Op.run, Cache_ListBranches_eq, hmiss, if_false, Latest_ListBranches_all]
    by_cases hst : stops (b.raw.ListBranches (some S)).2
    · refine ⟨?_, ?_, ?_⟩
      · simp [hst, Res.adapterCalls, Res.world, afterCall, Event.isAdapter, Event.isStore]
      · simp [hst, Res.value?]
      · intro bytes he2
        exact absurd he2 hst.1
    · refine ⟨?_, ?_, ?_⟩
      · simp [hst, Res.adapterCalls, Res.world, afterStore_adapterCalls, afterCall,
          Event.isAdapter, Event.isStore]
      · simp [hst, Res.value?]
      · intro bytes _ hs hm
        simp only [hst, if_false, Res.world, afterStore_eq_afterWrite, hs, hm]
        exact afterWrite_lookup _ bytes _
  · intro item refs hget hun hne
    have hmiss : (b.cachedTags js mem S).2 ≠ none := by
      simp [serviceWithCacheBase.cachedTags, serviceWithCacheBase.cachedReferences, hget,
        hun, hne]
    simp only [Op.run, Cache_ListTags_eq, hmiss, if_false, Latest_ListTags_all]
    by_cases hst : stops (b.raw.ListTags (some S)).2
    · refine ⟨?_, ?_, ?_⟩
      · simp [hst, Res.adapterCalls, Res.world, afterCall, Event.isAdapter, Event.isStore]
      · simp [hst, Res.value?]
      · intro bytes he2
        exact absurd he2 hst.1
    · refine ⟨?_, ?_, ?_⟩
      · simp [hst, Res.adapterCalls, Res.world, afterStore_adapterCalls, afterCall,
          Event.isAdapter, Event.isStore]
      · simp [hst, Res.value?]
      · intro bytes _ hs hm
        simp only [hst, if_false, Res.world, afterStore_eq_afterWrite, hs, hm]
        exact afterWrite_lookup _ bytes _

/-- Witness of C14: `Test_GetRepositoryBySlug_WhenCacheConflict`, the entry of
the key holding the repository `conflict-repo`. -/
theorem C14_collision_is_a_miss_witness :
    (((ServiceWithCache.ofBase (testBase (testRepositoryService (some testRepository, none)
        ("", none)))).GetRepositoryBySlug testFullJSON (some testSlug)).run
        [cacheItem testRepositoryKey (jsonRepository (some testConflictRepository))]).adapterCalls
        = [Event.GetRepositoryBySlug (some testSlug)]
      ∧ (((ServiceWithCache.ofBase (testBase (testRepositoryService
          (some testRepository, none) ("", none)))).GetRepositoryBySlug testFullJSON
          (some testSlug)).run
          [cacheItem testRepositoryKey
            (jsonRepository (some testConflictRepository))]).value?
          = some (some testRepository, none)
      ∧ (((ServiceWithCache.ofBase (testBase (testRepositoryService
          (some testRepository, none) ("", none)))).GetRepositoryBySlug testFullJSON
          (some testSlug)).run
          [cacheItem testRepositoryKey
            (jsonRepository (some testConflictRepository))]).world.storage.lookup
          testRepositoryKey
          = some (cacheItem testRepositoryKey (jsonRepository (some testRepository))) :=
  ⟨((C14_collision_is_a_miss testFullJSON
      (testBase (testRepositoryService (some testRepository, none) ("", none)))
      [cacheItem testRepositoryKey (jsonRepository (some testConflictRepository))] testSlug
      testRepository.ID).1
      (cacheItem testRepositoryKey (jsonRepository (some testConflictRepository)))
      testConflictRepository (by rfl) (by rfl) (by decide)).1,
   ((C14_collision_is_a_miss testFullJSON
      (testBase (testRepositoryService (some testRepository, none) ("", none)))
      [cacheItem testRepositoryKey (jsonRepository (some testConflictRepository))] testSlug
      testRepository.ID).1
      (cacheItem testRepositoryKey (jsonRepository (some testConflictRepository)))
      testConflictRepository (by rfl) (by rfl) (by decide)).2.1,
   ((C14_collision_is_a_miss testFullJSON
      (testBase (testRepositoryService (some testRepository, none) ("", none)))
      [cacheItem testRepositoryKey (jsonRepository (some testConflictRepository))] testSlug
      testRepository.ID).1
      (cacheItem testRepositoryKey (jsonRepository (some testConflictRepository)))
      testConflictRepository (by rfl) (by rfl) (by decide)).2.2
      (jsonRepository (some testRepository)) rfl rfl rfl⟩

end Metabase

namespace Metabase

/-- C15: for a non-nil slug `S` and a non-nil reference `R`,
`ServiceWithCache.GetCommitID(S, R)` answers from the store, returning the
embedded commit id with no adapter call, if and only if the entry under the
`GetCommitID` key of `(S, R)` exists, decodes as a commit envelope and has both
its embedded slug equal to `S` and its embedded reference equal to `R`.  A
mismatch on the slug or on the reference makes it fall through to exactly one
adapter call `GetCommitID(S, R)`, whose successful result `id` is returned and,
on a working store, overwrites the entry with the serialization of
`{S, R, id}`. -/
theorem C15_commit_id_identity (js : JSON) (b : serviceWithCacheBase) (mem : Storage)
    (S : Slug) (R : Reference) :
    (∀ item c, b.cacheStore.Get mem (b.commitIDKey S R) = .ok item →
        js.UnmarshalCommit item.Value = some c → c.Slug = S → c.Ref = R →
        ((ServiceWithCache.ofBase b).GetCommitID js (some S) (some R)).run mem
          = Res.ok (c.ID, none)
              { storage := mem, trace := [Event.storeGet (b.commitIDKey S R)] })
      ∧ ((((ServiceWithCache.ofBase b).GetCommitID js (some S) (some R)).run mem).adapterCalls
            = []
          ↔ ∃ item c, b.cacheStore.Get mem (b.commitIDKey S R) = .ok item
              ∧ js.UnmarshalCommit item.Value = some c ∧ c.Slug = S ∧ c.Ref = R)
      ∧ (∀ item c, b.cacheStore.Get mem (b.commitIDKey S R) = .ok item →
          js.UnmarshalCommit item.Value = some c → (c.Slug ≠ S ∨ c.Ref ≠ R) →
          (((ServiceWithCache.ofBase b).GetCommitID js (some S) (some R)).run
              mem).adapterCalls = [Event.GetCommitID (some S) (some R)]
            ∧ ∀ id bytes, b.raw.GetCommitID (some S) (some R) = (id, none) →
                (((ServiceWithCache.ofBase b).GetCommitID js (some S) (some R)).run
                    mem).value? = some (id, none)
                  ∧ (b.cacheStore = Store.working →
                      js.MarshalCommit { Slug := S, Ref := R, ID := id } = some bytes →
                      (((ServiceWithCache.ofBase b).GetCommitID js (some S) (some R)).run
                        mem).world.storage.lookup (b.commitIDKey S R)
                        = some (cacheItem (b.commitIDKey S R) bytes))) := by
  have hcalls : ∀ w : World, (ServiceWithLatest.GetCommitID js { base := b } (some S) (some R)
      w).world.trace.filter Event.isAdapter
      = w.trace.filter Event.isAdapter ++ [Event.GetCommitID (some S) (some R)] := by
    intro w
    rw [Latest_GetCommitID_eq]
    split <;>
      simp [Res.world, afterWrite_adapterCalls, afterCall, Event.isAdapter, Event.isStore]
  refine ⟨?_, ?_, ?_⟩
  · intro item c hget hun h1 h2
    have hhit : b.cachedCommit js mem S R = some c := by
      simp [serviceWithCacheBase.cachedCommit, hget, hun, h1, h2]
    simp [Op.run, Cache_GetCommitID_eq, hhit, afterCall]
  · constructor
    · intro h
      cases hc : b.cachedCommit js mem S R with
      | none =>
        simp only [Op.run, Cache_GetCommitID_eq, hc, Res.adapterCalls, hcalls] at h
        simp at h
      | some c =>
        simp only [serviceWithCacheBase.cachedCommit] at hc
        cases hget : b.cacheStore.Get mem (b.commitIDKey S R) with
        | error e => simp [hget] at hc
        | ok item =>
          cases hun : js.UnmarshalCommit item.Value with
          | none => simp [hget, hun] at hc
          | some c2 =>
            simp only [hget, hun] at hc
            by_cases hid : c2.Slug = S ∧ c2.Ref = R
            · exact ⟨item, c2, rfl, hun, hid.1, hid.2⟩
            · simp [hid] at hc
    · rintro ⟨item, c, hget, hun, h1, h2⟩
      have hhit : b.cachedCommit js mem S R = some c := by
        simp [serviceWithCacheBase.cachedCommit, hget, hun, h1, h2]
      simp [Op.run, Cache_GetCommitID_eq, hhit, afterCall, Res.adapterCalls, Res.world,
        Event.isAdapter, Event.isStore]
  · intro item c hget hun hne
    have hmiss : b.cachedCommit js mem S R = none := by
      have hn : ¬ (c.Slug = S ∧ c.Ref = R) := by
        intro h
        cases hne with
        | inl h1 => exact h1 h.1
        | inr h2 => exact h2 h.2
      simp [serviceWithCacheBase.cachedCommit, hget, hun, hn]
    refine ⟨?_, ?_⟩
    · simp only [Op.run, Cache_GetCommitID_eq, hmiss, Res.adapterCalls, hcalls]
      simp [afterCall, Event.isAdapter, Event.isStore]
    · intro id bytes hid
      simp only [Op.run, Cache_GetCommitID_eq, hmiss, Latest_GetCommitID_eq, hid]
      refine ⟨by simp [Res.value?], ?_⟩
      intro hs hm
      simp only [ne_eq, not_true_eq_false, if_false, Res.world, hs, hm]
      exact afterWrite_lookup _ bytes _

/-- Witness of C15: `Test_GetCommitID_WhenCacheConflictOnSlug`, the entry of
the key holding a commit of the repository `conflict-repo`. -/
theorem C15_commit_id_identity_witness :
    (((ServiceWithCache.ofBase (testBase (testRepositoryService
        (none, some (Error.other "test: unexpected error"))
        (testCommitID, none)))).GetCommitID testFullJSON (some testSlug)
        (some testBranch)).run
        [cacheItem testCommitKey (jsonCommit testConflictCommit)]).adapterCalls
        = [Event.GetCommitID (some testSlug) (some testBranch)]
      ∧ (((ServiceWithCache.ofBase (testBase (testRepositoryService
          (none, some (Error.other "test: unexpected error"))
          (testCommitID, none)))).GetCommitID testFullJSON (some testSlug)
          (some testBranch)).run
          [cacheItem testCommitKey (jsonCommit testConflictCommit)]).value?
          = some (testCommitID, none)
      ∧ (((ServiceWithCache.ofBase (testBase (testRepositoryService
          (none, some (Error.other "test: unexpected error"))
          (testCommitID, none)))).GetCommitID testFullJSON (some testSlug)
          (some testBranch)).run
          [cacheItem testCommitKey (jsonCommit testConflictCommit)]).world.storage.lookup
          testCommitKey = some (cacheItem testCommitKey (jsonCommit testCommit)) :=
  ⟨((C15_commit_id_identity testFullJSON
      (testBase (testRepositoryService (none, some (Error.other "test: unexpected error"))
        (testCommitID, none)))
      [cacheItem testCommitKey (jsonCommit testConflictCommit)] testSlug testBranch).2.2
      (cacheItem testCommitKey (jsonCommit testConflictCommit)) testConflictCommit
      (by rfl) (by rfl) (Or.inl (by decide))).1,
   (((C15_commit_id_identity testFullJSON
      (testBase (testRepositoryService (none, some (Error.other "test: unexpected error"))
        (testCommitID, none)))
      [cacheItem testCommitKey (jsonCommit testConflictCommit)] testSlug testBranch).2.2
      (cacheItem testCommitKey (jsonCommit testConflictCommit)) testConflictCommit
      (by rfl) (by rfl) (Or.inl (by decide))).2 testCommitID (jsonCommit testCommit) rfl).1,
   (((C15_commit_id_identity testFullJSON
      (testBase (testRepositoryService (none, some (Error.other "test: unexpected error"))
        (testCommitID, none)))
      [cacheItem testCommitKey (jsonCommit testConflictCommit)] testSlug testBranch).2.2
      (cacheItem testCommitKey (jsonCommit testConflictCommit)) testConflictCommit
      (by rfl) (by rfl) (Or.inl (by decide))).2 testCommitID (jsonCommit testCommit) rfl).2
      rfl rfl⟩

end Metabase

namespace Metabase

/-- C16, refuted as stated: `ListReferences` is a read operation addressed by a
slug.  With malformed entries under both sub-cache keys of the slug and the
adapter answering an empty list with no error, `ServiceWithLatest.ListReferences`
returns that empty list with a nil error, while `ServiceWithCache.ListReferences`
returns `(nil, ErrNotFound)`. -/
theorem C16_counterexample :
    testJSON.UnmarshalReferences "non json value" = none
      ∧ ((ServiceWithLatest.ListReferences testJSON
          { base := testBase (testService (Slice.mk [], none) testFailure testFailure) }
          (some testSlug)).run
          [cacheItem testBranchesItem.Key "non json value",
            cacheItem testTagsItem.Key "non json value"]).value?
          = some (Slice.mk [], none)
      ∧ (((ServiceWithCache.ofBase (testBase (testService (Slice.mk [], none) testFailure
          testFailure))).ListReferences testJSON (some testSlug)).run
          [cacheItem testBranchesItem.Key "non json value",
            cacheItem testTagsItem.Key "non json value"]).value?
          = some (Slice.nil, some Error.ErrNotFound) :=
  ⟨by rfl, by rfl, by rfl⟩

/-- C16, amended: a malformed store entry is a miss, never an error.  The four
decoders return nil for a nil item and for every item whose value does not
unmarshal to the expected type.  For `GetRepositoryBySlug`, `GetRepositoryByID`,
`ListBranches`, `ListTags` and `GetCommitID` of `ServiceWithCache` (non-nil
identities), such an entry under the requested key makes the operation return
exactly what `ServiceWithLatest` returns for the same arguments, with one
adapter call and no decode error surfaced.  For `ListReferences`, such an entry
under the branches or the tags key is a miss of that sub-cache in the
reconciliation of the two sub-caches. -/
theorem C16_malformed_entry_is_a_miss (js : JSON) (b : serviceWithCacheBase) (mem : Storage)
    (S : Slug) (I : Metabase.ID) (R : Reference) :
    ((repositoryFromCacheItem js none = none
        ∧ repositoriesFromCacheItem js none = Slice.nil
        ∧ referencesFromCacheItem js none = none
        ∧ commitFromCacheItem js none = none)
      ∧ (∀ item : Item,
        (js.UnmarshalRepository item.Value = none →
          repositoryFromCacheItem js (some item) = none)
        ∧ (js.UnmarshalRepositories item.Value = none →
          repositoriesFromCacheItem js (some item) = Slice.nil)
        ∧ (js.UnmarshalReferences item.Value = none →
          referencesFromCacheItem js (some item) = none)
        ∧ (js.UnmarshalCommit item.Value = none →
          commitFromCacheItem js (some item) = none)))
    ∧ (∀ item, b.cacheStore.Get mem (b.repositoryBySlugKey S) = .ok item →
        js.UnmarshalRepository item.Value = none →
        (((ServiceWithCache.ofBase b).GetRepositoryBySlug js (some S)).run mem).value?
            = ((ServiceWithLatest.GetRepositoryBySlug js { base := b } (some S)).run mem).value?
          ∧ (((ServiceWithCache.ofBase b).GetRepositoryBySlug js (some S)).run
              mem).adapterCalls = [Event.GetRepositoryBySlug (some S)])
    ∧ (∀ item, b.cacheStore.Get mem (b.repositoryByIDKey I) = .ok item →
        js.UnmarshalRepository item.Value = none →
        (((ServiceWithCache.ofBase b).GetRepositoryByID js (some I)).run mem).value?
            = ((ServiceWithLatest.GetRepositoryByID js { base := b } (some I)).run mem).value?
          ∧ (((ServiceWithCache.ofBase b).GetRepositoryByID js (some I)).run
              mem).adapterCalls = [Event.GetRepositoryByID (some I)])
    ∧ (∀ item, b.cacheStore.Get mem (b.branchesCacheKey S) = .ok item →
        js.UnmarshalReferences item.Value = none →
        (((ServiceWithCache.ofBase b).ListBranches js (some S)).run mem).value?
            = ((ServiceWithLatest.ListBranches js { base := b } (some S)).run mem).value?
          ∧ (((ServiceWithCache.ofBase b).ListBranches js (some S)).run mem).adapterCalls
              = [Event.ListBranches (some S)]
          ∧ b.cachedBranches js mem S = (Slice.nil, some Error.ErrCacheMiss))
    ∧ (∀ item, b.cacheStore.Get mem (b.tagsCacheKey S) = .ok item →
        js.UnmarshalReferences item.Value = none →
        (((ServiceWithCache.ofBase b).ListTags js (some S)).run mem).value?
            = ((ServiceWithLatest.ListTags js { base := b } (some S)).run mem).value?
          ∧ (((ServiceWithCache.ofBase b).ListTags js (some S)).run mem).adapterCalls
              = [Event.ListTags (some S)]
          ∧ b.cachedTags js mem S = (Slice.nil, some Error.ErrCacheMiss))
    ∧ (∀ item, b.cacheStore.Get mem (b.commitIDKey S R) = .ok item →
        js.UnmarshalCommit item.Value = none →
        (((ServiceWithCache.ofBase b).GetCommitID js (some S) (some R)).run mem).value?
            = ((ServiceWithLatest.GetCommitID js { base := b } (some S) (some R)).run
                mem).value?
          ∧ (((ServiceWithCache.ofBase b).GetCommitID js (some S) (some R)).run
              mem).adapterCalls = [Event.GetCommitID (some S) (some R)]) := by
  refine ⟨⟨⟨rfl, rfl, rfl, rfl⟩, ?_⟩, ?_, ?_, ?_, ?_, ?_⟩
  · intro item
    refine ⟨?_, ?_, ?_, ?_⟩
    · intro h
      simp [repositoryFromCacheItem, h]
    · intro h
      simp [repositoriesFromCacheItem, h]
    · intro h
      simp [referencesFromCacheItem, h]
    · intro h
      simp [commitFromCacheItem, h]
  · intro item hget hun
    have hmiss : b.cachedRepositoryBySlug js mem S = none := by
      simp [serviceWithCacheBase.cachedRepositoryBySlug, hget, hun]
    simp only [Op.run, Cache_GetRepositoryBySlug_eq, hmiss, Latest_GetRepositoryBySlug_eq]
    split <;>
      simp [Res.value?, Res.adapterCalls, Res.world, afterWrite_adapterCalls, afterCall,
        Event.isAdapter, Event.isStore]
  · intro item hget hun
    have hmiss : b.cachedRepositoryByID js mem I = none := by
      simp [serviceWithCacheBase.cachedRepositoryByID, hget, hun]
    simp only [Op.run, Cache_GetRepositoryByID_eq, hmiss, Latest_GetRepositoryByID_eq]
    split <;>
      simp [Res.value?, Res.adapterCalls, Res.world, afterWrite_adapterCalls, afterCall,
        Event.isAdapter, Event.isStore]
  · intro item hget hun
    have hc : b.cachedBranches js mem S = (Slice.nil, some Error.ErrCacheMiss) := by
      simp [serviceWithCacheBase.cachedBranches, serviceWithCacheBase.cachedReferences, hget,
        hun]
    have hmiss : (b.cachedBranches js mem S).2 ≠ none := by simp [hc]
    refine ⟨?_, ?_, hc⟩
    · simp only [Op.run, Cache_ListBranches_eq, hmiss, if_false, Latest_ListBranches_all]
      split <;> simp [Res.value?]
    · simp only [Op.run, Cache_ListBranches_eq, hmiss, if_false, Latest_ListBranches_all]
      split <;>
        simp [Res.adapterCalls, Res.world, afterStore_adapterCalls, afterCall,
          Event.isAdapter, Event.isStore]
  · intro item hget hun
    have hc : b.cachedTags js mem S = (Slice.nil, some Error.ErrCacheMiss) := by
      simp [serviceWithCacheBase.cachedTags, serviceWithCacheBase.cachedReferences, hget, hun]
    have hmiss : (b.cachedTags js mem S).2 ≠ none := by simp [hc]
    refine ⟨?_, ?_, hc⟩
    · simp only [Op.run, Cache_ListTags_eq, hmiss, if_false, Latest_ListTags_all]
      split <;> simp [Res.value?]
    · simp only [Op.run, Cache_ListTags_eq, hmiss, if_false, Latest_ListTags_all]
      split <;>
        simp [Res.adapterCalls, Res.world, afterStore_adapterCalls, afterCall,
          Event.isAdapter, Event.isStore]
  · intro item hget hun
    have hmiss : b.cachedCommit js mem S R = none := by
      simp [serviceWithCacheBase.cachedCommit, hget, hun]
    simp only [Op.run, Cache_GetCommitID_eq, hmiss, Latest_GetCommitID_eq]
    split <;>
      simp [Res.value?, Res.adapterCalls, Res.world, afterWrite_adapterCalls, afterCall,
        Event.isAdapter, Event.isStore]

/-- Witness of C16 (amended): `Test_GetRepositoryBySlug_WhenInvalidCacheHit`,
the entry of the key holding `non json value`. -/
theorem C16_malformed_entry_is_a_miss_witness :
    (((ServiceWithCache.ofBase (testBase (testRepositoryService (some testRepository, none)
        ("", none)))).GetRepositoryBySlug testFullJSON (some testSlug)).run
        [cacheItem testRepositoryKey "non json value"]).value?
        = some (some testRepository, none)
      ∧ (((ServiceWithCache.ofBase (testBase (testRepositoryService
          (some testRepository, none) ("", none)))).GetRepositoryBySlug testFullJSON
          (some testSlug)).run
          [cacheItem testRepositoryKey "non json value"]).adapterCalls
          = [Event.GetRepositoryBySlug (some testSlug)] :=
  (C16_malformed_entry_is_a_miss testFullJSON
    (testBase (testRepositoryService (some testRepository, none) ("", none)))
    [cacheItem testRepositoryKey "non json value"] testSlug testRepository.ID testBranch).2.1
    (cacheItem testRepositoryKey "non json value") (by rfl) (by rfl)

/-- C17, refuted as stated: an adapter that answers `GetRepositoryBySlug(nil)`
with a repository and no error.  `ServiceWithCache.GetRepositoryBySlug(nil)`
then does not return the answer of the adapter: `ServiceWithLatest` computes
the store key with `slug.Hash()` on the nil slug, a nil dereference. -/
theorem C17_counterexample :
    (testRepositoryService (some testRepository, none) ("", none)).GetRepositoryBySlug none
        = (some testRepository, none)
      ∧ (((ServiceWithCache.ofBase (testBase (testRepositoryService
          (some testRepository, none) ("", none)))).GetRepositoryBySlug testFullJSON
          none).run []).value? = none
      ∧ ((ServiceWithCache.ofBase (testBase (testRepositoryService
          (some testRepository, none) ("", none)))).GetRepositoryBySlug testFullJSON
          none).run []
          = Res.panic { storage := [], trace := [Event.GetRepositoryBySlug none] } :=
  ⟨rfl, by rfl, by rfl⟩

/-- C17, amended: nil-identity bypass.  For every store content and every
adapter, `ServiceWithCache.GetRepositoryBySlug(nil)` calls
`adapter.GetRepositoryBySlug(nil)` exactly once and performs no store `Get` or
`Set`, the store content being unchanged; when the adapter answers with an
error `e`, as the slug validation of an adapter does for nil, it returns
`(nil, e)`. -/
theorem C17_nil_slug_bypass (js : JSON) (b : serviceWithCacheBase) (mem : Storage) :
    (((ServiceWithCache.ofBase b).GetRepositoryBySlug js none).run mem).adapterCalls
        = [Event.GetRepositoryBySlug none]
      ∧ (((ServiceWithCache.ofBase b).GetRepositoryBySlug js none).run mem).storeAccesses = []
      ∧ (((ServiceWithCache.ofBase b).GetRepositoryBySlug js none).run mem).world.storage = mem
      ∧ (∀ v e, b.raw.GetRepositoryBySlug none = (v, some e) →
          ((ServiceWithCache.ofBase b).GetRepositoryBySlug js none).run mem
            = Res.ok (none, some e)
                { storage := mem, trace := [Event.GetRepositoryBySlug none] }) := by
  have hrun : ((ServiceWithCache.ofBase b).GetRepositoryBySlug js none).run mem
      = ServiceWithLatest.GetRepositoryBySlug js { base := b } none
          { storage := mem, trace := [] } := rfl
  rw [hrun, Latest_GetRepositoryBySlug_eq]
  refine ⟨?_, ?_, ?_, ?_⟩
  · split <;> simp [Res.adapterCalls, Res.world, afterCall, Event.isAdapter, Event.isStore]
  · split <;> simp [Res.storeAccesses, Res.world, afterCall, Event.isStore]
  · split <;> simp [Res.world, afterCall]
  · intro v e h
    simp [h, afterCall]

/-- Witness of C17 (amended): `Test_GetRepositoryBySlug_WithNilSlug`. -/
theorem C17_nil_slug_bypass_witness :
    ((ServiceWithCache.ofBase (testBase (testRepositoryService
        (none, some (Error.other "no slug specified")) ("", none)))).GetRepositoryBySlug
        testFullJSON none).run [cacheItem testRepositoryKey "non json value"]
      = Res.ok (none, some (Error.other "no slug specified"))
          { storage := [cacheItem testRepositoryKey "non json value"]
            trace := [Event.GetRepositoryBySlug none] } :=
  (C17_nil_slug_bypass testFullJSON
    (testBase (testRepositoryService (none, some (Error.other "no slug specified"))
      ("", none))) [cacheItem testRepositoryKey "non json value"]).2.2.2 none
    (Error.other "no slug specified") rfl

end Metabase

namespace Metabase

theorem cachedReferences_failing (js : JSON) (raw : Service) (key : String) (e1 : Error)
    (setErr : Option Error) (mem : Storage) (S : Slug) (k : String) :
    (serviceWithCacheBase.cachedReferences js
      { raw := raw, cacheStore := { getErr := some e1, setErr := setErr }, cacheKey := key }
      mem S k).2 ≠ none := by
  simp [serviceWithCacheBase.cachedReferences, Store.Get]

/-- C18: store failures are never visible to the caller.  For each of the
eight read operations of `ServiceWithCache`, all arguments and every adapter,
a run against a store whose `Get` always fails with `e1` and whose `Set`
always fails with `e2` (any errors, whatever the store content) has the same
outcome, result and error, as a run against an empty working store with the
same adapter. -/
theorem C18_store_failures_are_invisible (js : JSON) (raw : Service) (key : String)
    (e1 e2 : Error) (mem : Storage) (slug : Option Slug) (id : Option Metabase.ID)
    (ref : Option Reference) :
    ((ServiceWithCache.ofBase
        { raw := raw, cacheStore := { getErr := some e1, setErr := some e2 }
          cacheKey := key }).GetUserID.run mem).value?
        = ((ServiceWithCache.ofBase
            { raw := raw, cacheStore := Store.working, cacheKey := key }).GetUserID.run
            []).value?
      ∧ (((ServiceWithCache.ofBase
          { raw := raw, cacheStore := { getErr := some e1, setErr := some e2 }
            cacheKey := key }).GetRepositoryBySlug js slug).run mem).value?
          = (((ServiceWithCache.ofBase
              { raw := raw, cacheStore := Store.working
                cacheKey := key }).GetRepositoryBySlug js slug).run []).value?
      ∧ (((ServiceWithCache.ofBase
          { raw := raw, cacheStore := { getErr := some e1, setErr := some e2 }
            cacheKey := key }).GetRepositoryByID js id).run mem).value?
          = (((ServiceWithCache.ofBase
              { raw := raw, cacheStore := Store.working
                cacheKey := key }).GetRepositoryByID js id).run []).value?
      ∧ (((ServiceWithCache.ofBase
          { raw := raw, cacheStore := { getErr := some e1, setErr := some e2 }
            cacheKey := key }).ListRepositories js).run mem).value?
          = (((ServiceWithCache.ofBase
              { raw := raw, cacheStore := Store.working
                cacheKey := key }).ListRepositories js).run []).value?
      ∧ (((ServiceWithCache.ofBase
          { raw := raw, cacheStore := { getErr := some e1, setErr := some e2 }
            cacheKey := key }).ListReferences js slug).run mem).value?
          = (((ServiceWithCache.ofBase
              { raw := raw, cacheStore := Store.working
                cacheKey := key }).ListReferences js slug).run []).value?
      ∧ (((ServiceWithCache.ofBase
          { raw := raw, cacheStore := { getErr := some e1, setErr := some e2 }
            cacheKey := key }).ListBranches js slug).run mem).value?
          = (((ServiceWithCache.ofBase
              { raw := raw, cacheStore := Store.working
                cacheKey := key }).ListBranches js slug).run []).value?
      ∧ (((ServiceWithCache.ofBase
          { raw := raw, cacheStore := { getErr := some e1, setErr := some e2 }
            cacheKey := key }).ListTags js slug).run mem).value?
          = (((ServiceWithCache.ofBase
              { raw := raw, cacheStore := Store.working
                cacheKey := key }).ListTags js slug).run []).value?
      ∧ (((ServiceWithCache.ofBase
          { raw := raw, cacheStore := { getErr := some e1, setErr := some e2 }
            cacheKey := key }).GetCommitID js slug ref).run mem).value?
          = (((ServiceWithCache.ofBase
              { raw := raw, cacheStore := Store.working
                cacheKey := key }).GetCommitID js slug ref).run []).value? := by
  refine ⟨?_, ?_, ?_, ?_, ?_, ?_, ?_, ?_⟩
  · simp only [Op.run, Cache_GetUserID_eq, Store.Get, Store.working, Storage.lookup,
      List.find?_nil, Latest_GetUserID_eq]
    split <;> simp [Res.value?]
  · cases slug with
    | none =>
      simp only [Op.run, ServiceWithCache.GetRepositoryBySlug, ServiceWithCache.ofBase,
        Latest_GetRepositoryBySlug_eq]
      split <;> simp [Res.value?]
    | some S =>
      simp only [Op.run, Cache_GetRepositoryBySlug_eq,
        serviceWithCacheBase.cachedRepositoryBySlug, Store.Get, Store.working, Storage.lookup,
        List.find?_nil, Latest_GetRepositoryBySlug_eq]
      split <;> simp [Res.value?]
  · cases id with
    | none =>
      simp only [Op.run, ServiceWithCache.GetRepositoryByID, ServiceWithCache.ofBase,
        Latest_GetRepositoryByID_eq]
      split <;> simp [Res.value?]
    | some I =>
      simp only [Op.run, Cache_GetRepositoryByID_eq,
        serviceWithCacheBase.cachedRepositoryByID, Store.Get, Store.working, Storage.lookup,
        List.find?_nil, Latest_GetRepositoryByID_eq]
      split <;> simp [Res.value?]
  · simp only [Op.run, Cache_ListRepositories_eq, serviceWithCacheBase.cachedRepositories,
      Store.Get, Store.working, Storage.lookup, List.find?_nil, Latest_ListRepositories_eq]
    split <;> simp [Res.value?]
  · cases slug with
    | none =>
      simp only [Op.run, ServiceWithCache.ListReferences, ServiceWithCache.ofBase,
        Latest_ListReferences_all]
      split
      · simp [Res.value?]
      · cases separateReferences (raw.ListReferences none).1 <;> simp [Res.value?]
    | some S =>
      have hB1 := cachedReferences_failing js raw key e1 (some e2) mem S
        (serviceWithCacheBase.branchesCacheKey
          { raw := raw, cacheStore := { getErr := some e1, setErr := some e2 }
            cacheKey := key } S)
      have hT1 := cachedReferences_failing js raw key e1 (some e2) mem S
        (serviceWithCacheBase.tagsCacheKey
          { raw := raw, cacheStore := { getErr := some e1, setErr := some e2 }
            cacheKey := key } S)
      have hB2 := cachedReferences_nil js
        { raw := raw, cacheStore := Store.working, cacheKey := key } S
        (serviceWithCacheBase.branchesCacheKey
          { raw := raw, cacheStore := Store.working, cacheKey := key } S)
      have hT2 := cachedReferences_nil js
        { raw := raw, cacheStore := Store.working, cacheKey := key } S
        (serviceWithCacheBase.tagsCacheKey
          { raw := raw, cacheStore := Store.working, cacheKey := key } S)
      simp only [Op.run, ListReferences_post, listReferences_reads,
        serviceWithCacheBase.cachedBranches, serviceWithCacheBase.cachedTags, hB1, hT1, hB2,
        hT2, if_false, Latest_ListReferences_all]
      by_cases hst : stops (raw.ListReferences (some S)).2
      · have hne : (raw.ListReferences (some S)).2 ≠ none := hst.1
        simp [hst, hne, Res.value?]
      · cases hsep : separateReferences (raw.ListReferences (some S)).1 with
        | none => simp [hst, hsep, Res.value?]
        | some p =>
          simp only [hst, hsep, if_false]
          split <;> [skip; split] <;> simp [Res.value?]
  · cases slug with
    | none =>
      simp only [Op.run, ServiceWithCache.ListBranches, ServiceWithCache.ofBase,
        Latest_ListBranches_all]
      split <;> simp [Res.value?]
    | some S =>
      have h1 := cachedReferences_failing js raw key e1 (some e2) mem S
        (serviceWithCacheBase.branchesCacheKey
          { raw := raw, cacheStore := { getErr := some e1, setErr := some e2 }
            cacheKey := key } S)
      have h2 := cachedReferences_nil js
        { raw := raw, cacheStore := Store.working, cacheKey := key } S
        (serviceWithCacheBase.branchesCacheKey
          { raw := raw, cacheStore := Store.working, cacheKey := key } S)
      simp only [Op.run, Cache_ListBranches_eq, serviceWithCacheBase.cachedBranches, h1, h2,
        if_false, Latest_ListBranches_all]
      split <;> simp [Res.value?]
  · cases slug with
    | none =>
      simp only [Op.run, ServiceWithCache.ListTags, ServiceWithCache.ofBase,
        Latest_ListTags_all]
      split <;> simp [Res.value?]
    | some S =>
      have h1 := cachedReferences_failing js raw key e1 (some e2) mem S
        (serviceWithCacheBase.tagsCacheKey
          { raw := raw, cacheStore := { getErr := some e1, setErr := some e2 }
            cacheKey := key } S)
      have h2 := cachedReferences_nil js
        { raw := raw, cacheStore := Store.working, cacheKey := key } S
        (serviceWithCacheBase.tagsCacheKey
          { raw := raw, cacheStore := Store.working, cacheKey := key } S)
      simp only [Op.run, Cache_ListTags_eq, serviceWithCacheBase.cachedTags, h1, h2,
        if_false, Latest_ListTags_all]
      split <;> simp [Res.value?]
  · cases slug with
    | none =>
      simp only [Op.run, ServiceWithCache.GetCommitID, ServiceWithCache.ofBase,
        Latest_GetCommitID_eq]
      split <;> simp [Res.value?]
    | some S =>
      cases ref with
      | none =>
        simp only [Op.run, ServiceWithCache.GetCommitID, ServiceWithCache.ofBase,
          Latest_GetCommitID_eq]
        split <;> simp [Res.value?]
      | some R =>
        simp only [Op.run, Cache_GetCommitID_eq, serviceWithCacheBase.cachedCommit, Store.Get,
          Store.working, Storage.lookup, List.find?_nil, Latest_GetCommitID_eq]
        split <;> simp [Res.value?]

/-- C19: `Slug.Validate(expected)` returns nil if and only if `Saas` is not
empty, `Saas` equals `expected`, `Owner` is not empty and `Name` is not empty;
`ID.Validate(expected)` returns nil if and only if `Saas` is not empty, `Saas`
equals `expected`, `OwnerID` is not empty and `ID` is not empty; `ValidateSlug`
and `ValidateID` return an error for a nil pointer and otherwise agree with
`Validate`. -/
theorem C19_slug_and_id_validation (slug : Slug) (id : Metabase.ID) (expected : GoString) :
    (slug.Validate expected = none
        ↔ slug.Saas ≠ "" ∧ slug.Saas = expected ∧ slug.Owner ≠ "" ∧ slug.Name ≠ "")
      ∧ (id.Validate expected = none
        ↔ id.Saas ≠ "" ∧ id.Saas = expected ∧ id.OwnerID ≠ "" ∧ id.ID ≠ "")
      ∧ ValidateSlug none expected ≠ none
      ∧ ValidateSlug (some slug) expected = slug.Validate expected
      ∧ ValidateID none expected ≠ none
      ∧ ValidateID (some id) expected = id.Validate expected := by
  refine ⟨?_, ?_, ?_, rfl, ?_, rfl⟩
  · unfold Slug.Validate
    split_ifs <;> simp_all
  · unfold ID.Validate
    split_ifs <;> simp_all
  · simp [ValidateSlug]
  · simp [ValidateID]

/-- C20: `Reference.Validate` returns nil if and only if `Type` is exactly
`"branch"` or exactly `"tag"` and `Name` is not empty; `ValidateReference`
returns an error for nil and otherwise agrees with `Validate`; `IsBranch` and
`IsTag` are the predicates `Type = "branch"` and `Type = "tag"` and are never
both true. -/
theorem C20_reference_validation (ref : Reference) :
    (ref.Validate = none ↔ (ref.Type_ = "branch" ∨ ref.Type_ = "tag") ∧ ref.Name ≠ "")
      ∧ ValidateReference none ≠ none
      ∧ ValidateReference (some ref) = ref.Validate
      ∧ (ref.IsBranch = true ↔ ref.Type_ = "branch")
      ∧ (ref.IsTag = true ↔ ref.Type_ = "tag")
      ∧ ¬ (ref.IsBranch = true ∧ ref.IsTag = true) := by
  have hb : ref.IsBranch = true ↔ ref.Type_ = "branch" := by
    simp [Reference.IsBranch, ReferenceTypeBranch]
  have ht : ref.IsTag = true ↔ ref.Type_ = "tag" := by
    simp [Reference.IsTag, ReferenceTypeTag]
  have e1 : ¬ (("branch" : GoString) = "") := by decide
  have e2 : ¬ (("tag" : GoString) = "") := by decide
  have e3 : ¬ (("" : GoString) = "branch") := by decide
  have e4 : ¬ (("" : GoString) = "tag") := by decide
  refine ⟨?_, ?_, rfl, hb, ht, ?_⟩
  · unfold Reference.Validate
    by_cases h1 : ref.Type_ = "branch"
    · have h0 : ref.Type_ ≠ "" := by rw [h1]; decide
      have hB : ref.IsBranch = true := hb.2 h1
      by_cases h3 : ref.Name = "" <;> simp [h0, hB, h1, h3, e1]
    · by_cases h2 : ref.Type_ = "tag"
      · have h0 : ref.Type_ ≠ "" := by rw [h2]; decide
        have hT : ref.IsTag = true := ht.2 h2
        by_cases h3 : ref.Name = "" <;> simp [h0, hT, h2, h3, e2]
      · have hB : ref.IsBranch = false := by
          cases h : ref.IsBranch
          · rfl
          · exact absurd (hb.1 h) h1
        have hT : ref.IsTag = false := by
          cases h : ref.IsTag
          · rfl
          · exact absurd (ht.1 h) h2
        by_cases h0 : ref.Type_ = "" <;> simp [h0, hB, hT, h1, h2, e3, e4]
  · simp [ValidateReference]
  · intro h
    have h1 := hb.1 h.1
    have h2 := ht.1 h.2
    rw [h1] at h2
    exact absurd h2 (by decide)

end Metabase

/-! ## Claims on the hashes -/

namespace Metabase

theorem strBytes_append (a b : GoString) : strBytes (a ++ b) = strBytes a ++ strBytes b := rfl

theorem GoString.ofString_append (a b : String) :
    GoString.ofString (a ++ b) = GoString.ofString a ++ GoString.ofString b := by
  simp [GoString.ofString, String.data_append, List.flatMap_append]

theorem fnvWrite_append (h : Nat) (a b : List UInt8) :
    fnvWrite (fnvWrite h a) b = fnvWrite h (a ++ b) := by
  simp [fnvWrite, List.foldl_append]

theorem fnvWrite_eq_spec (bytes : List UInt8) :
    fnvWrite fnvOffset64 bytes = specFNV1a64 bytes := rfl

theorem fnvWrite_lt (h : Nat) (bytes : List UInt8) (hh : h < 2 ^ 64) :
    fnvWrite h bytes < 2 ^ 64 := by
  unfold fnvWrite
  induction bytes generalizing h with
  | nil => simpa using hh
  | cons x xs ih =>
    rw [List.foldl_cons]
    exact ih _ (Nat.mod_lt _ (by decide))

theorem Slug_Hash_eq (slug : Slug) :
    slug.Hash = specFNV1a64 (strBytes slug.Saas ++ strBytes slug.Owner ++ strBytes slug.Name) := by
  unfold Slug.Hash
  rw [fnvWrite_append, fnvWrite_append, fnvWrite_eq_spec, List.append_assoc]

theorem ID_Hash_eq (id : Metabase.ID) :
    id.Hash = specFNV1a64 (strBytes id.Saas ++ strBytes id.OwnerID ++ strBytes id.ID) := by
  unfold ID.Hash
  rw [fnvWrite_append, fnvWrite_append, fnvWrite_eq_spec, List.append_assoc]

theorem Reference_Hash_eq (ref : Reference) :
    ref.Hash = specFNV1a64 (strBytes ref.Type_ ++ strBytes ref.Name) := by
  unfold Reference.Hash
  rw [fnvWrite_append, fnvWrite_eq_spec]

/-- C21: `Slug.Hash`, `ID.Hash` and `Reference.Hash` each equal the 64-bit
FNV-1a hash (offset basis 14695981039346656037, prime 1099511628211, modulo
`2^64`) of the bytes of the fields concatenated in declaration order with no
separator, which are also the fields' bytes put end to end; the hash fits in 64
bits; and values with equal fields hash equally. -/
theorem C21_hash_is_fnv1a_of_concatenation (slug : Slug) (id : Metabase.ID) (ref : Reference) :
    (slug.Hash = specFNV1a64 (strBytes (slug.Saas ++ slug.Owner ++ slug.Name))
      ∧ strBytes (slug.Saas ++ slug.Owner ++ slug.Name)
          = strBytes slug.Saas ++ strBytes slug.Owner ++ strBytes slug.Name
      ∧ slug.Hash < 2 ^ 64)
    ∧ (id.Hash = specFNV1a64 (strBytes (id.Saas ++ id.OwnerID ++ id.ID))
      ∧ strBytes (id.Saas ++ id.OwnerID ++ id.ID)
          = strBytes id.Saas ++ strBytes id.OwnerID ++ strBytes id.ID
      ∧ id.Hash < 2 ^ 64)
    ∧ (ref.Hash = specFNV1a64 (strBytes (ref.Type_ ++ ref.Name))
      ∧ strBytes (ref.Type_ ++ ref.Name) = strBytes ref.Type_ ++ strBytes ref.Name
      ∧ ref.Hash < 2 ^ 64)
    ∧ (∀ slug2 : Slug, slug2.Saas = slug.Saas → slug2.Owner = slug.Owner →
        slug2.Name = slug.Name → slug2.Hash = slug.Hash)
    ∧ (∀ id2 : Metabase.ID, id2.Saas = id.Saas → id2.OwnerID = id.OwnerID → id2.ID = id.ID →
        id2.Hash = id.Hash)
    ∧ (∀ ref2 : Reference, ref2.Type_ = ref.Type_ → ref2.Name = ref.Name →
        ref2.Hash = ref.Hash) := by
  have hoff : fnvOffset64 < 2 ^ 64 := by decide
  refine ⟨⟨?_, ?_, ?_⟩, ⟨?_, ?_, ?_⟩, ⟨?_, ?_, ?_⟩, ?_, ?_, ?_⟩
  · rw [Slug_Hash_eq, strBytes_append, strBytes_append]
  · rw [strBytes_append, strBytes_append]
  · exact fnvWrite_lt _ _ (fnvWrite_lt _ _ (fnvWrite_lt _ _ hoff))
  · rw [ID_Hash_eq, strBytes_append, strBytes_append]
  · rw [strBytes_append, strBytes_append]
  · exact fnvWrite_lt _ _ (fnvWrite_lt _ _ (fnvWrite_lt _ _ hoff))
  · rw [Reference_Hash_eq, strBytes_append]
  · rw [strBytes_append]
  · exact fnvWrite_lt _ _ (fnvWrite_lt _ _ hoff)
  · intro s2 h1 h2 h3
    simp only [Slug.Hash, h1, h2, h3]
  · intro i2 h1 h2 h3
    simp only [ID.Hash, h1, h2, h3]
  · intro r2 h1 h2
    simp only [Reference.Hash, h1, h2]

/-- C21 at the slug, an id and the branch of the tests: the hash of the slug
`github.com/tractrix/common-go` is the FNV-1a hash of the bytes of
`github.comtractrixcommon-go`, and a second slug with the same fields hashes to
the same value. -/
theorem C21_hash_is_fnv1a_of_concatenation_witness :
    testSlug.Hash = specFNV1a64 (strBytes "github.comtractrixcommon-go")
      ∧ ({ Saas := "github.com", Owner := "tractrix", Name := "common-go" } : Slug).Hash
          = testSlug.Hash :=
  ⟨(C21_hash_is_fnv1a_of_concatenation testSlug testRepository.ID testBranch).1.1,
    (C21_hash_is_fnv1a_of_concatenation testSlug testRepository.ID testBranch).2.2.2.1
      { Saas := "github.com", Owner := "tractrix", Name := "common-go" } rfl rfl rfl⟩

/-- C22: two slugs whose fields, put end to end, give the same bytes have the
same hash, hence the same store keys in every cache-first operation addressed
by a slug; and there are two distinct valid slugs that differ field by field
(owner `ab`, name `c` against owner `a`, name `bc`) with the same hash and the
same store keys. -/
theorem C22_equal_concatenation_collides :
    (∀ s1 s2 : Slug,
        strBytes s1.Saas ++ strBytes s1.Owner ++ strBytes s1.Name
          = strBytes s2.Saas ++ strBytes s2.Owner ++ strBytes s2.Name →
        s1.Hash = s2.Hash
          ∧ ∀ b : serviceWithCacheBase,
              b.repositoryBySlugKey s1 = b.repositoryBySlugKey s2
                ∧ b.branchesCacheKey s1 = b.branchesCacheKey s2
                ∧ b.tagsCacheKey s1 = b.tagsCacheKey s2
                ∧ ∀ ref : Reference, b.commitIDKey s1 ref = b.commitIDKey s2 ref)
    ∧ testSplitSlug1 ≠ testSplitSlug2
    ∧ testSplitSlug1.Owner ≠ testSplitSlug2.Owner
    ∧ testSplitSlug1.Name ≠ testSplitSlug2.Name
    ∧ testSplitSlug1.Validate "github.com" = none
    ∧ testSplitSlug2.Validate "github.com" = none
    ∧ testSplitSlug1.Hash = testSplitSlug2.Hash
    ∧ ∀ b : serviceWithCacheBase,
        b.repositoryBySlugKey testSplitSlug1 = b.repositoryBySlugKey testSplitSlug2
          ∧ b.branchesCacheKey testSplitSlug1 = b.branchesCacheKey testSplitSlug2
          ∧ b.tagsCacheKey testSplitSlug1 = b.tagsCacheKey testSplitSlug2 := by
  have key : ∀ s1 s2 : Slug,
      strBytes s1.Saas ++ strBytes s1.Owner ++ strBytes s1.Name
        = strBytes s2.Saas ++ strBytes s2.Owner ++ strBytes s2.Name → s1.Hash = s2.Hash := by
    intro s1 s2 h
    rw [Slug_Hash_eq, Slug_Hash_eq, h]
  have hsplit : testSplitSlug1.Hash = testSplitSlug2.Hash := key _ _ (by decide)
  refine ⟨?_, by decide, by decide, by decide, by decide, by decide, hsplit, ?_⟩
  · intro s1 s2 h
    have hh := key s1 s2 h
    refine ⟨hh, fun b => ?_⟩
    simp only [serviceWithCacheBase.repositoryBySlugKey, serviceWithCacheBase.branchesCacheKey,
      serviceWithCacheBase.tagsCacheKey, serviceWithCacheBase.commitIDKey, hh]
    exact ⟨trivial, trivial, trivial, fun _ => trivial⟩
  · intro b
    simp only [serviceWithCacheBase.repositoryBySlugKey, serviceWithCacheBase.branchesCacheKey,
      serviceWithCacheBase.tagsCacheKey, hsplit]
    exact ⟨trivial, trivial, trivial⟩

/-- C22 at the two slugs `github.com/ab/c` and `github.com/a/bc`: their bytes
put end to end agree, so their hashes agree. -/
theorem C22_equal_concatenation_collides_witness :
    strBytes testSplitSlug1.Saas ++ strBytes testSplitSlug1.Owner ++ strBytes testSplitSlug1.Name
        = strBytes testSplitSlug2.Saas ++ strBytes testSplitSlug2.Owner
            ++ strBytes testSplitSlug2.Name
      ∧ testSplitSlug1.Hash = testSplitSlug2.Hash :=
  ⟨by decide, (C22_equal_concatenation_collides.1 testSplitSlug1 testSplitSlug2 (by decide)).1⟩

end Metabase

/-! ## Claims on the trees -/

namespace Metabase

theorem GoMap.foundOrMake_eq_mk {V : Type} (x : Option (GoMap V)) :
    ∃ es, GoMap.foundOrMake x = GoMap.mk es := by
  cases x with
  | none => exact ⟨[], rfl⟩
  | some m =>
    cases m with
    | nil => exact ⟨[], rfl⟩
    | mk es => exact ⟨es, rfl⟩

theorem GoMap.get?_cons_self {V : Type} (k : GoString) (v : V) (es : List (GoString × V)) :
    (GoMap.mk ((k, v) :: es)).get? k = some v := by
  simp [GoMap.get?, GoMap.entries]

theorem GoMap_len_eq_zero {V : Type} (m : GoMap V) : m.len = 0 ↔ m.entries = [] := by
  unfold GoMap.len
  rw [List.length_eq_zero]
  constructor
  · intro h
    cases he : m.entries with
    | nil => rfl
    | cons x xs =>
      rw [he] at h
      have hx : x.1 ∈ (List.map Prod.fst (x :: xs)).dedup :=
        List.mem_dedup.mpr (List.mem_map_of_mem Prod.fst (List.mem_cons_self x xs))
      rw [h] at hx
      exact absurd hx (List.not_mem_nil _)
  · intro h
    rw [h]
    rfl

theorem SlugTree_PutData_mk {δ : Type} (es : List (GoString × GoMap (GoMap (Option δ))))
    (s : Slug) (d : Option δ) :
    ∃ os rs rest, SlugTree.PutData (GoMap.mk es) (some s) d
      = some (GoMap.mk ((s.Saas, GoMap.mk ((s.Owner, GoMap.mk ((s.Name, d) :: rs)) :: os))
          :: rest)) := by
  unfold SlugTree.PutData
  obtain ⟨os, hos⟩ := GoMap.foundOrMake_eq_mk ((GoMap.mk es).get? s.Saas)
  simp only [hos]
  obtain ⟨rs, hrs⟩ := GoMap.foundOrMake_eq_mk ((GoMap.mk os).get? s.Owner)
  simp only [hrs]
  exact ⟨_, _, _, rfl⟩

theorem SlugTree_GetData_path {δ : Type} (s : Slug) (d : Option δ)
    (os : List (GoString × GoMap (Option δ))) (rs : List (GoString × Option δ))
    (rest : List (GoString × GoMap (GoMap (Option δ)))) :
    SlugTree.GetData
      (GoMap.mk ((s.Saas, GoMap.mk ((s.Owner, GoMap.mk ((s.Name, d) :: rs)) :: os)) :: rest))
      (some s) = d := by
  simp [SlugTree.GetData, GoMap.get?, GoMap.entries]

theorem ReferenceTree_PutData_mk {δ : Type} (es : List (GoString × GoMap (Option δ)))
    (r : Reference) (d : Option δ) :
    ∃ rs rest, ReferenceTree.PutData (GoMap.mk es) (some r) d
      = some (GoMap.mk ((r.Type_, GoMap.mk ((r.Name, d) :: rs)) :: rest)) := by
  unfold ReferenceTree.PutData
  obtain ⟨rs, hrs⟩ := GoMap.foundOrMake_eq_mk ((GoMap.mk es).get? r.Type_)
  simp only [hrs]
  exact ⟨_, _, rfl⟩

theorem ReferenceTree_GetData_path {δ : Type} (r : Reference) (d : Option δ)
    (rs : List (GoString × Option δ)) (rest : List (GoString × GoMap (Option δ))) :
    ReferenceTree.GetData (GoMap.mk ((r.Type_, GoMap.mk ((r.Name, d) :: rs)) :: rest)) (some r)
      = d := by
  simp [ReferenceTree.GetData, GoMap.get?, GoMap.entries]

theorem SlugTree_GetData_of_no_entry {δ : Type} (t : SlugTree δ) (s : Slug)
    (h : SlugTree.hasEntry t s = false) : SlugTree.GetData t (some s) = none := by
  unfold SlugTree.hasEntry at h
  unfold SlugTree.GetData
  cases h1 : GoMap.get? t s.Saas with
  | none => simp only [h1]
  | some owners =>
    simp only [h1] at h
    cases owners with
    | nil => simp only [h1]
    | mk os =>
      simp only [h1]
      cases h2 : GoMap.get? (GoMap.mk os) s.Owner with
      | none => simp only [h2]
      | some repos =>
        simp only [h2] at h
        cases repos with
        | nil => simp only [h2]
        | mk rs =>
          simp only [h2]
          cases h3 : GoMap.get? (GoMap.mk rs) s.Name with
          | none => simp only [h3]
          | some d => simp [h3] at h

theorem ReferenceTree_GetData_of_no_entry {δ : Type} (t : ReferenceTree δ) (r : Reference)
    (h : ReferenceTree.hasEntry t r = false) : ReferenceTree.GetData t (some r) = none := by
  unfold ReferenceTree.hasEntry at h
  unfold ReferenceTree.GetData
  cases h1 : GoMap.get? t r.Type_ with
  | none => simp only [h1]
  | some refs =>
    simp only [h1] at h
    cases refs with
    | nil => simp only [h1]
    | mk rs =>
      simp only [h1]
      cases h3 : GoMap.get? (GoMap.mk rs) r.Name with
      | none => simp only [h3]
      | some d => simp [h3] at h

end Metabase

namespace Metabase

theorem SlugTree_GetData_nil {δ : Type} (slug : Option Slug) :
    SlugTree.GetData (GoMap.nil : SlugTree δ) slug = none := by
  cases slug <;> rfl

theorem ReferenceTree_GetData_nil {δ : Type} (ref : Option Reference) :
    ReferenceTree.GetData (GoMap.nil : ReferenceTree δ) ref = none := by
  cases ref <;> rfl

theorem SlugTree_no_entry_of_Empty {δ : Type} (t : SlugTree δ) (h : SlugTree.Empty t = true)
    (s : Slug) : SlugTree.hasEntry t s = false := by
  have he : t.entries = [] := (GoMap_len_eq_zero t).mp (by simpa [SlugTree.Empty] using h)
  simp [SlugTree.hasEntry, GoMap.get?, he]

theorem ReferenceTree_no_entry_of_Empty {δ : Type} (t : ReferenceTree δ)
    (h : ReferenceTree.Empty t = true) (r : Reference) : ReferenceTree.hasEntry t r = false := by
  have he : t.entries = [] := (GoMap_len_eq_zero t).mp (by simpa [ReferenceTree.Empty] using h)
  simp [ReferenceTree.hasEntry, GoMap.get?, he]

/-- C23: on a non-nil `SlugTree`, `PutData(s, d)` for a non-nil slug returns
(no panic) and `GetData(s)` then returns `d`, whatever the tree held before
(inner maps that are missing or nil are made); a second `PutData(s, d2)`
overwrites, `GetData(s)` then returning `d2`.  `PutData` with a nil slug leaves
the tree unchanged; `GetData` returns nil for a nil slug, on the nil tree, and
for a slug with no entry.  The same holds for `ReferenceTree`. -/
theorem C23_put_then_get (δ : Type) (t : SlugTree δ) (rt : ReferenceTree δ) (s : Slug)
    (r : Reference) (d d2 : Option δ) :
    ((t ≠ GoMap.nil →
        ∃ t1, SlugTree.PutData t (some s) d = some t1 ∧ t1 ≠ GoMap.nil
          ∧ SlugTree.GetData t1 (some s) = d
          ∧ ∃ t2, SlugTree.PutData t1 (some s) d2 = some t2
              ∧ SlugTree.GetData t2 (some s) = d2)
      ∧ SlugTree.PutData t none d = some t
      ∧ SlugTree.GetData t none = none
      ∧ (∀ slug, SlugTree.GetData (GoMap.nil : SlugTree δ) slug = none)
      ∧ (SlugTree.hasEntry t s = false → SlugTree.GetData t (some s) = none))
    ∧ ((rt ≠ GoMap.nil →
        ∃ t1, ReferenceTree.PutData rt (some r) d = some t1 ∧ t1 ≠ GoMap.nil
          ∧ ReferenceTree.GetData t1 (some r) = d
          ∧ ∃ t2, ReferenceTree.PutData t1 (some r) d2 = some t2
              ∧ ReferenceTree.GetData t2 (some r) = d2)
      ∧ ReferenceTree.PutData rt none d = some rt
      ∧ ReferenceTree.GetData rt none = none
      ∧ (∀ ref, ReferenceTree.GetData (GoMap.nil : ReferenceTree δ) ref = none)
      ∧ (ReferenceTree.hasEntry rt r = false → ReferenceTree.GetData rt (some r) = none)) := by
  refine ⟨⟨?_, rfl, rfl, SlugTree_GetData_nil, SlugTree_GetData_of_no_entry t s⟩,
    ⟨?_, rfl, rfl, ReferenceTree_GetData_nil, ReferenceTree_GetData_of_no_entry rt r⟩⟩
  · intro ht
    cases t with
    | nil => exact absurd rfl ht
    | mk es =>
      obtain ⟨os, rs, rest, h1⟩ := SlugTree_PutData_mk es s d
      obtain ⟨os2, rs2, rest2, h2⟩ := SlugTree_PutData_mk
        ((s.Saas, GoMap.mk ((s.Owner, GoMap.mk ((s.Name, d) :: rs)) :: os)) :: rest) s d2
      exact ⟨_, h1, fun h => GoMap.noConfusion h, SlugTree_GetData_path s d os rs rest,
        _, h2, SlugTree_GetData_path s d2 os2 rs2 rest2⟩
  · intro ht
    cases rt with
    | nil => exact absurd rfl ht
    | mk es =>
      obtain ⟨rs, rest, h1⟩ := ReferenceTree_PutData_mk es r d
      obtain ⟨rs2, rest2, h2⟩ := ReferenceTree_PutData_mk
        ((r.Type_, GoMap.mk ((r.Name, d) :: rs)) :: rest) r d2
      exact ⟨_, h1, fun h => GoMap.noConfusion h, ReferenceTree_GetData_path r d rs rest,
        _, h2, ReferenceTree_GetData_path r d2 rs2 rest2⟩

/-- C23 on the tree `SlugTree{"github.com": nil}`, whose saas of the tests is
mapped to a nil inner map, and on the made `ReferenceTree`: data put for the
slug, respectively the branch, of the tests is retrieved. -/
theorem C23_put_then_get_witness :
    (testNilOwnersTree ≠ GoMap.nil
      ∧ ∃ t1, SlugTree.PutData testNilOwnersTree (some testSlug) (some "repo data") = some t1
          ∧ SlugTree.GetData t1 (some testSlug) = some "repo data")
    ∧ ((GoMap.make : ReferenceTree String) ≠ GoMap.nil
      ∧ ∃ t1, ReferenceTree.PutData (GoMap.make : ReferenceTree String) (some testBranch)
            (some "ref data") = some t1
          ∧ ReferenceTree.GetData t1 (some testBranch) = some "ref data") :=
  ⟨⟨fun h => GoMap.noConfusion h,
      ((C23_put_then_get String testNilOwnersTree GoMap.make testSlug testBranch
          (some "repo data") (some "ref data")).1.1 (fun h => GoMap.noConfusion h)).imp
        fun _ h => ⟨h.1, h.2.2.1⟩⟩,
    ⟨fun h => GoMap.noConfusion h,
      ((C23_put_then_get String testNilOwnersTree GoMap.make testSlug testBranch
          (some "ref data") (some "repo data")).2.1 (fun h => GoMap.noConfusion h)).imp
        fun _ h => ⟨h.1, h.2.2.1⟩⟩⟩

/-- C24: `Empty()` is `len(tree) == 0`, which counts the keys of the outer map
only.  On the trees `SlugTree{"github.com": {}}`, `SlugTree{"github.com": nil}`
and `ReferenceTree{"branch": {}}` it returns false although no slug
(respectively no reference) has an entry and `GetData` returns nil for every
argument. -/
theorem C24_empty_counts_outer_keys :
    (SlugTree.Empty testHollowSlugTree = false
      ∧ (∀ s, SlugTree.hasEntry testHollowSlugTree s = false)
      ∧ (∀ slug, SlugTree.GetData testHollowSlugTree slug = none))
    ∧ (SlugTree.Empty testNilOwnersTree = false
      ∧ (∀ s, SlugTree.hasEntry testNilOwnersTree s = false)
      ∧ (∀ slug, SlugTree.GetData testNilOwnersTree slug = none))
    ∧ (ReferenceTree.Empty testHollowReferenceTree = false
      ∧ (∀ r, ReferenceTree.hasEntry testHollowReferenceTree r = false)
      ∧ (∀ ref, ReferenceTree.GetData testHollowReferenceTree ref = none)) := by
  have h1 : ∀ s, SlugTree.hasEntry testHollowSlugTree s = false := by
    intro s
    have hg : GoMap.get? testHollowSlugTree s.Saas = none
        ∨ GoMap.get? testHollowSlugTree s.Saas = some (GoMap.mk []) := by
      simp only [testHollowSlugTree, GoMap.get?, GoMap.entries, List.find?]
      cases ("github.com" == s.Saas) <;> simp
    unfold SlugTree.hasEntry
    rcases hg with hg | hg
    · simp only [hg]
    · simp only [hg]
      rfl
  have h2 : ∀ s, SlugTree.hasEntry testNilOwnersTree s = false := by
    intro s
    have hg : GoMap.get? testNilOwnersTree s.Saas = none
        ∨ GoMap.get? testNilOwnersTree s.Saas = some GoMap.nil := by
      simp only [testNilOwnersTree, GoMap.get?, GoMap.entries, List.find?]
      cases ("github.com" == s.Saas) <;> simp
    unfold SlugTree.hasEntry
    rcases hg with hg | hg
    · simp only [hg]
    · simp only [hg]
      rfl
  have h3 : ∀ r, ReferenceTree.hasEntry testHollowReferenceTree r = false := by
    intro r
    have hg : GoMap.get? testHollowReferenceTree r.Type_ = none
        ∨ GoMap.get? testHollowReferenceTree r.Type_ = some (GoMap.mk []) := by
      simp only [testHollowReferenceTree, GoMap.get?, GoMap.entries, List.find?]
      cases ("branch" == r.Type_) <;> simp
    unfold ReferenceTree.hasEntry
    rcases hg with hg | hg
    · simp only [hg]
    · simp only [hg]
      rfl
  refine ⟨⟨by decide, h1, ?_⟩, ⟨by decide, h2, ?_⟩, ⟨by decide, h3, ?_⟩⟩
  · intro slug
    cases slug with
    | none => rfl
    | some s => exact SlugTree_GetData_of_no_entry _ s (h1 s)
  · intro slug
    cases slug with
    | none => rfl
    | some s => exact SlugTree_GetData_of_no_entry _ s (h2 s)
  · intro ref
    cases ref with
    | none => rfl
    | some r => exact ReferenceTree_GetData_of_no_entry _ r (h3 r)

end Metabase

/-! ## Claims on the partition and on the one-sided refresh -/

namespace Metabase

theorem filter_disjoint_length {α : Type} (p q : α → Bool)
    (hd : ∀ x, p x = true → q x = false) (l : List α) :
    (l.filter p).length + (l.filter q).length ≤ l.length
      ∧ ((l.filter p).length + (l.filter q).length = l.length
          ↔ ∀ x ∈ l, p x = true ∨ q x = true) := by
  induction l with
  | nil => simp
  | cons x xs ih =>
    obtain ⟨ih1, ih2⟩ := ih
    cases hp : p x with
    | true =>
      have hq : q x = false := hd x hp
      simp only [List.filter_cons, hp, hq, if_true, List.length_cons, List.mem_cons,
        forall_eq_or_imp, true_or, true_and]
      refine ⟨by simp; omega, ?_⟩
      rw [← ih2]
      simp
      omega
    | false =>
      cases hq : q x with
      | true =>
        simp only [List.filter_cons, hp, hq, if_true, List.length_cons, List.mem_cons,
          forall_eq_or_imp, or_true, true_and]
        refine ⟨by simp; omega, ?_⟩
        rw [← ih2]
        simp
        omega
      | false =>
        simp only [List.filter_cons, hp, hq, List.length_cons, List.mem_cons,
          forall_eq_or_imp]
        refine ⟨by simp; omega, ?_⟩
        simp
        omega

theorem Slice.len_ofList {α : Type} (l : List α) : (Slice.ofList l).len = l.length := by
  rw [Slice.len, Slice.elems_ofList]

end Metabase

namespace Metabase

theorem Reference.IsBranch_iff (r : Reference) : r.IsBranch = true ↔ r.Type_ = "branch" := by
  simp [Reference.IsBranch, ReferenceTypeBranch]

theorem Reference.IsTag_iff (r : Reference) : r.IsTag = true ↔ r.Type_ = "tag" := by
  simp [Reference.IsTag, ReferenceTypeTag]

/-- C25: for every list `R` of non-nil references, `separateReferences` returns
(no panic) the elements of `R` for which `IsBranch` holds and the elements for
which `IsTag` holds, each in the order of `R` (sub-sequences of `R`); an
element whose `Type` is neither `branch` nor `tag` is in neither list, so the
two lengths add up to at most `len(R)`, with equality exactly when every
element has one of the two types.  When the adapter answers `ListReferences(S)`
with `R` and no error or `ErrNotFound`, `ServiceWithLatest.ListReferences(S)`
returns the answer and writes these two lists: on a working store, and the two
envelopes marshalling to `bb` and `bt`, the branches key and the tags key of
`S` then hold the entries of `bb` and `bt`. -/
theorem C25_stable_partition (js : JSON) (b : serviceWithCacheBase) (S : Slug) (mem : Storage)
    (R : Slice Reference) :
    ∃ branches tags, separateReferences R.ptrs = some (branches, tags)
      ∧ branches.elems = (R.elems.filter Reference.IsBranch).map some
      ∧ tags.elems = (R.elems.filter Reference.IsTag).map some
      ∧ branches.elems.Sublist R.ptrs.elems
      ∧ tags.elems.Sublist R.ptrs.elems
      ∧ (∀ r ∈ R.elems, r.Type_ ≠ "branch" → r.Type_ ≠ "tag" →
          some r ∉ branches.elems ∧ some r ∉ tags.elems)
      ∧ branches.len + tags.len ≤ R.len
      ∧ (branches.len + tags.len = R.len
          ↔ ∀ r ∈ R.elems, r.Type_ = "branch" ∨ r.Type_ = "tag")
      ∧ ∀ err, b.raw.ListReferences (some S) = (R.ptrs, err) → ¬ stops err →
          (ServiceWithLatest.ListReferences js { base := b } (some S)).run mem
              = Res.ok (R.ptrs, err)
                  (b.afterStore js
                    (b.afterStore js
                      { storage := mem, trace := [Event.ListReferences (some S)] }
                      S (b.branchesCacheKey S) branches)
                    S (b.tagsCacheKey S) tags)
            ∧ ∀ bb bt, b.cacheStore = Store.working →
                js.MarshalReferences { Slug := S, Refs := branches } = some bb →
                js.MarshalReferences { Slug := S, Refs := tags } = some bt →
                ((ServiceWithLatest.ListReferences js { base := b } (some S)).run
                    mem).world.storage.lookup (b.branchesCacheKey S)
                    = some (referencesItem (b.branchesCacheKey S) bb)
                  ∧ ((ServiceWithLatest.ListReferences js { base := b } (some S)).run
                      mem).world.storage.lookup (b.tagsCacheKey S)
                      = some (referencesItem (b.tagsCacheKey S) bt) := by
  have hlen := filter_disjoint_length Reference.IsBranch Reference.IsTag
    (fun r hr => Reference.not_IsTag_of_IsBranch r hr) R.elems
  refine ⟨_, _, separateReferences_ptrs R, Slice.elems_ofList _, Slice.elems_ofList _,
    ?_, ?_, ?_, ?_, ?_, ?_⟩
  · rw [Slice.elems_ofList, Slice.elems_ptrs]
    exact List.Sublist.map some (List.filter_sublist _)
  · rw [Slice.elems_ofList, Slice.elems_ptrs]
    exact List.Sublist.map some (List.filter_sublist _)
  · intro r _ hb ht
    rw [Slice.elems_ofList, Slice.elems_ofList]
    simp only [List.mem_map, List.mem_filter, Option.some.injEq, not_exists, not_and]
    constructor
    · intro x hx hxr
      rw [hxr, Reference.IsBranch_iff] at hx
      exact hb hx.2
    · intro x hx hxr
      rw [hxr, Reference.IsTag_iff] at hx
      exact ht hx.2
  · rw [Slice.len_ofList, Slice.len_ofList, List.length_map, List.length_map]
    exact hlen.1
  · rw [Slice.len_ofList, Slice.len_ofList, List.length_map, List.length_map]
    rw [show R.len = R.elems.length from rfl, hlen.2]
    simp only [Reference.IsBranch_iff, Reference.IsTag_iff]
  · intro err hraw hns
    have hrun : (ServiceWithLatest.ListReferences js { base := b } (some S)).run mem
        = Res.ok (R.ptrs, err)
            (b.afterStore js
              (b.afterStore js
                { storage := mem, trace := [Event.ListReferences (some S)] }
                S (b.branchesCacheKey S)
                (Slice.ofList ((R.elems.filter Reference.IsBranch).map some)))
              S (b.tagsCacheKey S)
              (Slice.ofList ((R.elems.filter Reference.IsTag).map some))) := by
      simp only [Op.run, Latest_ListReferences_eq, hraw, hns, if_false,
        separateReferences_ptrs, List.nil_append]
    refine ⟨hrun, ?_⟩
    intro bb bt hs hmb hmt
    rw [hrun]
    have h := afterStore_both js b S
      { storage := mem, trace := [Event.ListReferences (some S)] } bb bt _ _ hs hmb hmt
    exact ⟨h.1, h.2.1⟩

/-- C25 for the list `[master, v1.0]` of the tests, on an empty store: the
partition is `[master]` and `[v1.0]`, and `ServiceWithLatest.ListReferences`
leaves the two entries in the store. -/
theorem C25_stable_partition_witness :
    ∃ branches tags,
      separateReferences (Slice.mk [some testBranch, some testTag]) = some (branches, tags)
        ∧ branches.elems = [some testBranch]
        ∧ tags.elems = [some testTag]
        ∧ ((ServiceWithLatest.ListReferences testJSON
            { base := testBase (testService (Slice.mk [some testBranch, some testTag], none)
                testFailure testFailure) } (some testSlug)).run []).world.storage
            = [testTagsItem, testBranchesItem] := by
  obtain ⟨branches, tags, hsep, hb, ht, _, _, _, _, _, _⟩ :=
    C25_stable_partition testJSON
      (testBase (testService (Slice.mk [some testBranch, some testTag], none) testFailure
        testFailure)) testSlug [] (Slice.mk [testBranch, testTag])
  exact ⟨branches, tags, hsep, hb.trans (by decide), ht.trans (by decide), by rfl⟩

end Metabase

namespace Metabase

/-- C26: for a non-nil slug `S` with exactly one sub-cache hit, when the adapter
call for the missing side (`ListTags(S)` when the tags miss, `ListBranches(S)`
when the branches miss) fails with an error other than `ErrNotFound`,
`ServiceWithCache.ListReferences(S)` makes that one adapter call, returns
`(nil, that error)` and leaves the store as it was: the missing sub-cache
still misses and the hit sub-cache reads as before. -/
theorem C26_one_sided_refresh_failure (js : JSON) (b : serviceWithCacheBase) (S : Slug)
    (mem : Storage) :
    ((b.cachedBranches js mem S).2 = none → (b.cachedTags js mem S).2 ≠ none →
      ∀ L e, b.raw.ListTags (some S) = (L, some e) → e ≠ Error.ErrNotFound →
        (((ServiceWithCache.ofBase b).ListReferences js (some S)).run mem).value?
            = some (Slice.nil, some e)
          ∧ (((ServiceWithCache.ofBase b).ListReferences js (some S)).run mem).adapterCalls
              = [Event.ListTags (some S)]
          ∧ (((ServiceWithCache.ofBase b).ListReferences js (some S)).run mem).world.storage
              = mem
          ∧ (b.cachedTags js (((ServiceWithCache.ofBase b).ListReferences js (some S)).run
              mem).world.storage S).2 ≠ none
          ∧ b.cachedBranches js (((ServiceWithCache.ofBase b).ListReferences js (some S)).run
              mem).world.storage S = b.cachedBranches js mem S)
    ∧ ((b.cachedTags js mem S).2 = none → (b.cachedBranches js mem S).2 ≠ none →
      ∀ L e, b.raw.ListBranches (some S) = (L, some e) → e ≠ Error.ErrNotFound →
        (((ServiceWithCache.ofBase b).ListReferences js (some S)).run mem).value?
            = some (Slice.nil, some e)
          ∧ (((ServiceWithCache.ofBase b).ListReferences js (some S)).run mem).adapterCalls
              = [Event.ListBranches (some S)]
          ∧ (((ServiceWithCache.ofBase b).ListReferences js (some S)).run mem).world.storage
              = mem
          ∧ (b.cachedBranches js (((ServiceWithCache.ofBase b).ListReferences js
              (some S)).run mem).world.storage S).2 ≠ none
          ∧ b.cachedTags js (((ServiceWithCache.ofBase b).ListReferences js (some S)).run
              mem).world.storage S = b.cachedTags js mem S) := by
  constructor
  · intro hB hT L e hraw hne
    have hst : stops (b.raw.ListTags (some S)).2 := by
      rw [hraw]
      exact ⟨by simp, by simpa using hne⟩
    have hrun := ListReferences_tags_miss_stop js b S mem hB hT hst
    rw [hrun, hraw]
    exact ⟨rfl, by simp [Res.adapterCalls, Res.world, Event.isAdapter, Event.isStore], rfl, hT,
      rfl⟩
  · intro hT hB L e hraw hne
    have hst : stops (b.raw.ListBranches (some S)).2 := by
      rw [hraw]
      exact ⟨by simp, by simpa using hne⟩
    have hrun := ListReferences_branches_miss_stop js b S mem hT hB hst
    rw [hrun, hraw]
    exact ⟨rfl, by simp [Res.adapterCalls, Res.world, Event.isAdapter, Event.isStore], rfl, hB,
      rfl⟩

/-- C26 in the manner of `Test_ListReferences_WhenListTagsError`: the store
holds the branches `[master]` only and `ListTags` fails; the call returns the
error and the store still holds exactly that entry. -/
theorem C26_one_sided_refresh_failure_witness :
    (((ServiceWithCache.ofBase (testBase (testService testFailure testFailure
        testFailure))).ListReferences testJSON (some testSlug)).run [testBranchesItem]).value?
        = some (Slice.nil, some (Error.other "test: unexpected error"))
      ∧ (((ServiceWithCache.ofBase (testBase (testService testFailure testFailure
          testFailure))).ListReferences testJSON (some testSlug)).run
          [testBranchesItem]).world.storage = [testBranchesItem] :=
  ⟨((C26_one_sided_refresh_failure testJSON
      (testBase (testService testFailure testFailure testFailure)) testSlug
      [testBranchesItem]).1 (by rfl) (by decide) Slice.nil
      (Error.other "test: unexpected error") rfl (by decide)).1,
   ((C26_one_sided_refresh_failure testJSON
      (testBase (testService testFailure testFailure testFailure)) testSlug
      [testBranchesItem]).1 (by rfl) (by decide) Slice.nil
      (Error.other "test: unexpected error") rfl (by decide)).2.2.1⟩

/-- C27: for a non-nil slug `S` with exactly one sub-cache hit, holding a
non-empty list `C`, when the adapter call for the missing side answers
`(nil, ErrNotFound)`, `ServiceWithCache.ListReferences(S)` makes that one
adapter call and returns `(C, nil)`; afterwards, on a working store and the
envelope `{Slug: S, Refs: nil}` marshalling to `bytes`, the missing sub-cache
holds the entry of that envelope (which reads back as a hit with the empty list
when `bytes` unmarshals to the envelope) and the other sub-cache still holds
`C`. -/
theorem C27_one_sided_not_found (js : JSON) (b : serviceWithCacheBase) (S : Slug)
    (mem : Storage) (C : Slice (Option Reference)) (hC : C.elems ≠ []) :
    (b.cachedBranches js mem S = (C, none) → (b.cachedTags js mem S).2 ≠ none →
      b.raw.ListTags (some S) = (Slice.nil, some Error.ErrNotFound) →
        (((ServiceWithCache.ofBase b).ListReferences js (some S)).run mem).value?
            = some (C, none)
          ∧ (((ServiceWithCache.ofBase b).ListReferences js (some S)).run mem).adapterCalls
              = [Event.ListTags (some S)]
          ∧ ∀ bytes, b.cacheStore = Store.working →
              js.MarshalReferences { Slug := S, Refs := Slice.nil } = some bytes →
              (((ServiceWithCache.ofBase b).ListReferences js (some S)).run
                  mem).world.storage.lookup (b.tagsCacheKey S)
                  = some (referencesItem (b.tagsCacheKey S) bytes)
                ∧ b.cachedBranches js (((ServiceWithCache.ofBase b).ListReferences js
                    (some S)).run mem).world.storage S = (C, none)
                ∧ (js.UnmarshalReferences bytes = some { Slug := S, Refs := Slice.nil } →
                    b.cachedTags js (((ServiceWithCache.ofBase b).ListReferences js
                      (some S)).run mem).world.storage S = (Slice.nil, none)))
    ∧ (b.cachedTags js mem S = (C, none) → (b.cachedBranches js mem S).2 ≠ none →
      b.raw.ListBranches (some S) = (Slice.nil, some Error.ErrNotFound) →
        (((ServiceWithCache.ofBase b).ListReferences js (some S)).run mem).value?
            = some (C, none)
          ∧ (((ServiceWithCache.ofBase b).ListReferences js (some S)).run mem).adapterCalls
              = [Event.ListBranches (some S)]
          ∧ ∀ bytes, b.cacheStore = Store.working →
              js.MarshalReferences { Slug := S, Refs := Slice.nil } = some bytes →
              (((ServiceWithCache.ofBase b).ListReferences js (some S)).run
                  mem).world.storage.lookup (b.branchesCacheKey S)
                  = some (referencesItem (b.branchesCacheKey S) bytes)
                ∧ b.cachedTags js (((ServiceWithCache.ofBase b).ListReferences js
                    (some S)).run mem).world.storage S = (C, none)
                ∧ (js.UnmarshalReferences bytes = some { Slug := S, Refs := Slice.nil } →
                    b.cachedBranches js (((ServiceWithCache.ofBase b).ListReferences js
                      (some S)).run mem).world.storage S = (Slice.nil, none))) := by
  have hns : ¬ stops (some Error.ErrNotFound) := fun h => h.2 rfl
  constructor
  · intro hB hT hraw
    have hns2 : ¬ stops (b.raw.ListTags (some S)).2 := by rw [hraw]; exact hns
    have happ : C.append (Slice.nil : Slice (Option Reference)) = C := rfl
    have hlen : ¬ (C.append (Slice.nil : Slice (Option Reference))).len = 0 := by
      rw [Slice.len_eq_zero, happ]
      exact hC
    have hrun := ListReferences_tags_miss js b S mem C hB hT hns2
    rw [hraw] at hrun
    rw [if_neg hlen, happ] at hrun
    rw [hrun]
    refine ⟨rfl, by simp [Res.adapterCalls, Res.world, afterStore_adapterCalls, Event.isAdapter,
      Event.isStore], ?_⟩
    intro bytes hs hm
    have h := afterStore_sub_caches js b S
      { storage := mem
        trace := [Event.storeGet (b.branchesCacheKey S),
          Event.storeGet (b.tagsCacheKey S), Event.ListTags (some S)] }
      (b.tagsCacheKey S) (b.branchesCacheKey S) bytes Slice.nil
      (fun e => branchesCacheKey_ne_tagsCacheKey b S S e.symm) hs hm
    exact ⟨h.1, h.2.2.1.trans hB, h.2.2.2⟩
  · intro hT hB hraw
    have hns2 : ¬ stops (b.raw.ListBranches (some S)).2 := by rw [hraw]; exact hns
    have happ : (Slice.nil : Slice (Option Reference)).append C = C := by
      cases C with
      | nil => exact absurd rfl hC
      | mk xs =>
        cases xs with
        | nil => exact absurd rfl hC
        | cons x xs => rfl
    have hlen : ¬ ((Slice.nil : Slice (Option Reference)).append C).len = 0 := by
      rw [Slice.len_eq_zero, happ]
      exact hC
    have hrun := ListReferences_branches_miss js b S mem C hT hB hns2
    rw [hraw] at hrun
    rw [if_neg hlen, happ] at hrun
    rw [hrun]
    refine ⟨rfl, by simp [Res.adapterCalls, Res.world, afterStore_adapterCalls, Event.isAdapter,
      Event.isStore], ?_⟩
    intro bytes hs hm
    have h := afterStore_sub_caches js b S
      { storage := mem
        trace := [Event.storeGet (b.branchesCacheKey S),
          Event.storeGet (b.tagsCacheKey S), Event.ListBranches (some S)] }
      (b.branchesCacheKey S) (b.tagsCacheKey S) bytes Slice.nil
      (branchesCacheKey_ne_tagsCacheKey b S S) hs hm
    exact ⟨h.1, h.2.2.1.trans hT, h.2.2.2⟩

/-- C27 in the manner of `Test_ListReferences_WhenListTagsNotFoundError`: the
store holds the branches `[master]` only and `ListTags` answers
`(nil, ErrNotFound)`; the call returns `([master], nil)` and the store then
holds, besides, the tags entry of the empty list. -/
theorem C27_one_sided_not_found_witness :
    (((ServiceWithCache.ofBase (testBase (testService testFailure testFailure
        (Slice.nil, some Error.ErrNotFound)))).ListReferences testJSON (some testSlug)).run
        [testBranchesItem]).value? = some (Slice.mk [some testBranch], none)
      ∧ (((ServiceWithCache.ofBase (testBase (testService testFailure testFailure
          (Slice.nil, some Error.ErrNotFound)))).ListReferences testJSON (some testSlug)).run
          [testBranchesItem]).world.storage.lookup testTagsItem.Key = some testEmptyTagsItem :=
  ⟨((C27_one_sided_not_found testJSON
      (testBase (testService testFailure testFailure (Slice.nil, some Error.ErrNotFound)))
      testSlug [testBranchesItem] (Slice.mk [some testBranch]) (by decide)).1 (by rfl)
      (by decide) rfl).1,
   (((C27_one_sided_not_found testJSON
      (testBase (testService testFailure testFailure (Slice.nil, some Error.ErrNotFound)))
      testSlug [testBranchesItem] (Slice.mk [some testBranch]) (by decide)).1 (by rfl)
      (by decide) rfl).2.2
      (jsonReferences { Slug := testSlug, Refs := Slice.nil }) rfl rfl).1⟩

end Metabase

/-! ## Claims on the store keys -/

namespace Metabase

theorem digitChar_isDigit (m : Nat) (h : m < 10) : (Nat.digitChar m).isDigit = true := by
  interval_cases m <;> rfl

theorem toDigitsCore_isDigit (fuel n : Nat) (ds : List Char)
    (h : ∀ c ∈ ds, c.isDigit = true) : ∀ c ∈ Nat.toDigitsCore 10 fuel n ds, c.isDigit = true := by
  induction fuel generalizing n ds with
  | zero => simpa [Nat.toDigitsCore] using h
  | succ fuel ih =>
    have hd : ∀ c ∈ Nat.digitChar (n % 10) :: ds, c.isDigit = true := by
      intro c hc
      rcases List.mem_cons.mp hc with hc | hc
      · rw [hc]
        exact digitChar_isDigit _ (Nat.mod_lt _ (by decide))
      · exact h c hc
    unfold Nat.toDigitsCore
    simp only
    split
    · exact hd
    · exact ih _ _ hd

theorem toDigitsCore_ne_nil (fuel n : Nat) (ds : List Char) (h : ds ≠ []) :
    Nat.toDigitsCore 10 fuel n ds ≠ [] := by
  induction fuel generalizing n ds with
  | zero => simpa [Nat.toDigitsCore] using h
  | succ fuel ih =>
    unfold Nat.toDigitsCore
    simp only
    split
    · exact List.cons_ne_nil _ _
    · exact ih _ _ (List.cons_ne_nil _ _)

theorem toString_nat_data (n : Nat) : (toString n).data = Nat.toDigits 10 n := rfl

theorem toString_nat_isDigit (n : Nat) : ∀ c ∈ (toString n).data, c.isDigit = true := by
  rw [toString_nat_data]
  exact toDigitsCore_isDigit _ _ _ (by simp)

theorem toString_nat_ne_nil (n : Nat) : (toString n).data ≠ [] := by
  rw [toString_nat_data]
  unfold Nat.toDigits Nat.toDigitsCore
  simp only
  split
  · exact List.cons_ne_nil _ _
  · exact toDigitsCore_ne_nil _ _ _ (List.cons_ne_nil _ _)

theorem takeWhile_digits_slash (D X : List Char) (hD : ∀ c ∈ D, c.isDigit = true) :
    (D ++ '/' :: X).takeWhile Char.isDigit = D := by
  induction D with
  | nil => rfl
  | cons c D ih =>
    rw [List.cons_append, List.takeWhile_cons, hD c (List.mem_cons_self c D)]
    simp only [if_true]
    rw [ih (fun x hx => hD x (List.mem_cons_of_mem c hx))]

theorem dropWhile_digits_slash (D X : List Char) (hD : ∀ c ∈ D, c.isDigit = true) :
    (D ++ '/' :: X).dropWhile Char.isDigit = '/' :: X := by
  induction D with
  | nil => rfl
  | cons c D ih =>
    rw [List.cons_append, List.dropWhile_cons, hD c (List.mem_cons_self c D)]
    simp only [if_true]
    rw [ih (fun x hx => hD x (List.mem_cons_of_mem c hx))]

end Metabase

namespace Metabase

theorem append_sep_inj (p : Char → Bool) (sep : Char) (hsep : p sep = false)
    (D D2 X X2 : List Char) (hD : ∀ c ∈ D, p c = true) (hD2 : ∀ c ∈ D2, p c = true)
    (h : D ++ sep :: X = D2 ++ sep :: X2) : D = D2 ∧ X = X2 := by
  induction D generalizing D2 with
  | nil =>
    cases D2 with
    | nil => exact ⟨rfl, by simpa using h⟩
    | cons d D2 =>
      simp only [List.nil_append, List.cons_append, List.cons.injEq] at h
      have := hD2 d (List.mem_cons_self d D2)
      rw [← h.1, hsep] at this
      exact absurd this (by decide)
  | cons c D ih =>
    cases D2 with
    | nil =>
      simp only [List.nil_append, List.cons_append, List.cons.injEq] at h
      have := hD c (List.mem_cons_self c D)
      rw [h.1, hsep] at this
      exact absurd this (by decide)
    | cons d D2 =>
      simp only [List.cons_append, List.cons.injEq] at h
      obtain ⟨h1, h2⟩ := ih D2 (fun x hx => hD x (List.mem_cons_of_mem c hx))
        (fun x hx => hD2 x (List.mem_cons_of_mem d hx)) h.2
      exact ⟨by rw [h.1, h1], h2⟩

theorem shape_inj (K1 K2 N1 N2 : List Char) (ds1 ds2 : List (List Char))
    (hN1 : N1 ≠ [] ∧ ∀ c ∈ N1, c.isDigit = false ∧ (c != '/') = true)
    (hN2 : N2 ≠ [] ∧ ∀ c ∈ N2, c.isDigit = false ∧ (c != '/') = true)
    (hd1 : ∀ D ∈ ds1, D ≠ [] ∧ ∀ c ∈ D, c.isDigit = true)
    (hd2 : ∀ D ∈ ds2, D ≠ [] ∧ ∀ c ∈ D, c.isDigit = true)
    (h : ds1.flatMap (fun D => D ++ ['/']) ++ (N1 ++ '/' :: K1)
      = ds2.flatMap (fun D => D ++ ['/']) ++ (N2 ++ '/' :: K2)) :
    ds1 = ds2 ∧ N1 = N2 ∧ K1 = K2 := by
  have clash : ∀ (N D X Y : List Char), N ≠ [] → (∀ c ∈ N, c.isDigit = false ∧ (c != '/') = true) →
      D ≠ [] → (∀ c ∈ D, c.isDigit = true) → N ++ X = D ++ Y → False := by
    intro N D X Y hN hNc hD hDc he
    cases N with
    | nil => exact hN rfl
    | cons n N =>
      cases D with
      | nil => exact hD rfl
      | cons d D =>
        simp only [List.cons_append, List.cons.injEq] at he
        have h1 := (hNc n (List.mem_cons_self n N)).1
        have h2 := hDc d (List.mem_cons_self d D)
        rw [he.1, h2] at h1
        exact absurd h1 (by decide)
  induction ds1 generalizing ds2 with
  | nil =>
    cases ds2 with
    | nil =>
      simp only [List.flatMap_nil, List.nil_append] at h
      have := append_sep_inj (fun c => c != '/') '/' (by decide) N1 N2 K1 K2
        (fun c hc => (hN1.2 c hc).2) (fun c hc => (hN2.2 c hc).2) h
      exact ⟨rfl, this⟩
    | cons D ds2 =>
      simp only [List.flatMap_nil, List.nil_append, List.flatMap_cons, List.append_assoc] at h
      exact (clash N1 D _ _ hN1.1 hN1.2 (hd2 D (List.mem_cons_self D ds2)).1
        (hd2 D (List.mem_cons_self D ds2)).2 h).elim
  | cons D ds1 ih =>
    cases ds2 with
    | nil =>
      simp only [List.flatMap_nil, List.nil_append, List.flatMap_cons, List.append_assoc] at h
      exact (clash N2 D _ _ hN2.1 hN2.2 (hd1 D (List.mem_cons_self D ds1)).1
        (hd1 D (List.mem_cons_self D ds1)).2 h.symm).elim
    | cons D2 ds2 =>
      simp only [List.flatMap_cons, List.append_assoc, List.singleton_append] at h
      obtain ⟨h1, h2⟩ := append_sep_inj Char.isDigit '/' (by decide) D D2 _ _
        (hd1 D (List.mem_cons_self D ds1)).2 (hd2 D2 (List.mem_cons_self D2 ds2)).2 h
      obtain ⟨h3, h4⟩ := ih ds2 (fun x hx => hd1 x (List.mem_cons_of_mem D hx))
        (fun x hx => hd2 x (List.mem_cons_of_mem D2 hx)) h2
      exact ⟨by rw [h1, h3], h4⟩

theorem CachedOp.name_chars (o : CachedOp) :
    o.name.data.reverse ≠ []
      ∧ ∀ c ∈ o.name.data.reverse, c.isDigit = false ∧ (c != '/') = true := by
  cases o <;> (simp only [CachedOp.name]; exact ⟨by decide, by decide⟩)

theorem CachedOp.hashes_digits (o : CachedOp) :
    ∀ D ∈ o.hashes.reverse.map (fun h => h.data.reverse),
      D ≠ [] ∧ ∀ c ∈ D, c.isDigit = true := by
  have hd : ∀ n : Nat, (toString n).data.reverse ≠ []
      ∧ ∀ c ∈ (toString n).data.reverse, c.isDigit = true := by
    intro n
    refine ⟨?_, ?_⟩
    · intro h
      exact toString_nat_ne_nil n (List.reverse_eq_nil_iff.mp h)
    · intro c hc
      exact toString_nat_isDigit n c (List.mem_reverse.mp hc)
  intro D hD
  cases o <;> simp [CachedOp.hashes] at hD
  all_goals (first | (rcases hD with hD | hD <;> rw [hD] <;> exact hd _) | (rw [hD]; exact hd _))

theorem CachedOp.key_shape (b : serviceWithCacheBase) (o : CachedOp) :
    (o.key b).data.reverse
      = (o.hashes.reverse.map (fun h => h.data.reverse)).flatMap (fun D => D ++ ['/'])
          ++ (o.name.data.reverse ++ '/' :: b.cacheKey.data.reverse) := by
  cases o <;>
    simp [CachedOp.key, CachedOp.hashes, CachedOp.name, serviceWithCacheBase.branchesCacheKey,
      serviceWithCacheBase.commitIDKey, serviceWithCacheBase.tagsCacheKey,
      serviceWithCacheBase.repositoryBySlugKey, serviceWithCacheBase.repositoryByIDKey,
      String.data_append, List.reverse_append]

end Metabase

namespace Metabase

section KeyUse

variable (js : JSON) (b : serviceWithCacheBase)

theorem afterWrite_onKey (store : Store) (w : World) (encoded : Option String) (key : String)
    (h : w.trace.all (Event.onKey key) = true) :
    (afterWrite store w encoded key).trace.all (Event.onKey key) = true := by
  unfold afterWrite JSONItem.Item
  cases encoded with
  | none => exact h
  | some bytes => simp [List.all_append, h, Event.onKey]

theorem afterCall_onKey (w : World) (e : Event) (key : String)
    (h : w.trace.all (Event.onKey key) = true) (he : e.onKey key = true) :
    (afterCall w e).trace.all (Event.onKey key) = true := by
  simp [afterCall, List.all_append, h, he]

theorem CachedOp.world_onKey (mem : Storage) (o : CachedOp) :
    (o.world js b mem).trace.all (Event.onKey (o.key b)) = true := by
  have hget : ∀ key : String,
      (afterCall { storage := mem, trace := [] } (Event.storeGet key)).trace.all
        (Event.onKey key) = true := by
    intro key
    simp [afterCall, Event.onKey]
  cases o with
  | GetUserID =>
    simp only [CachedOp.world, CachedOp.key, Op.run, Cache_GetUserID_eq, Latest_GetUserID_eq]
    split
    · exact hget _
    · split
      · exact afterCall_onKey _ _ _ (hget _) rfl
      · simp only [Res.world]
        apply afterWrite_onKey
        exact afterCall_onKey _ _ _ (hget _) rfl
  | GetRepositoryBySlug slug =>
    simp only [CachedOp.world, CachedOp.key, Op.run, Cache_GetRepositoryBySlug_eq,
      Latest_GetRepositoryBySlug_eq]
    split
    · exact hget _
    · split
      · exact afterCall_onKey _ _ _ (hget _) rfl
      · simp only [Res.world]
        apply afterWrite_onKey
        exact afterCall_onKey _ _ _ (hget _) rfl
  | GetRepositoryByID id =>
    simp only [CachedOp.world, CachedOp.key, Op.run, Cache_GetRepositoryByID_eq,
      Latest_GetRepositoryByID_eq]
    split
    · exact hget _
    · split
      · exact afterCall_onKey _ _ _ (hget _) rfl
      · simp only [Res.world]
        apply afterWrite_onKey
        exact afterCall_onKey _ _ _ (hget _) rfl
  | ListRepositories =>
    simp only [CachedOp.world, CachedOp.key, Op.run, Cache_ListRepositories_eq,
      Latest_ListRepositories_eq]
    split
    · exact hget _
    · split
      · exact afterCall_onKey _ _ _ (hget _) rfl
      · simp only [Res.world]
        apply afterWrite_onKey
        exact afterCall_onKey _ _ _ (hget _) rfl
  | ListBranches slug =>
    simp only [CachedOp.world, CachedOp.key, Op.run, Cache_ListBranches_eq,
      Latest_ListBranches_eq, afterStore_eq_afterWrite]
    split
    · exact hget _
    · split
      · exact afterCall_onKey _ _ _ (hget _) rfl
      · simp only [Res.world]
        apply afterWrite_onKey
        exact afterCall_onKey _ _ _ (hget _) rfl
  | ListTags slug =>
    simp only [CachedOp.world, CachedOp.key, Op.run, Cache_ListTags_eq,
      Latest_ListTags_eq, afterStore_eq_afterWrite]
    split
    · exact hget _
    · split
      · exact afterCall_onKey _ _ _ (hget _) rfl
      · simp only [Res.world]
        apply afterWrite_onKey
        exact afterCall_onKey _ _ _ (hget _) rfl
  | GetCommitID slug ref =>
    simp only [CachedOp.world, CachedOp.key, Op.run, Cache_GetCommitID_eq,
      Latest_GetCommitID_eq]
    split
    · exact hget _
    · split
      · exact afterCall_onKey _ _ _ (hget _) rfl
      · simp only [Res.world]
        apply afterWrite_onKey
        exact afterCall_onKey _ _ _ (hget _) rfl

end KeyUse

end Metabase

namespace Metabase

theorem string_of_data_reverse (s t : String) (h : s.data.reverse = t.data.reverse) : s = t :=
  String.ext (List.reverse_injective h)

theorem CachedOp.key_eq_iff (b1 b2 : serviceWithCacheBase) (o1 o2 : CachedOp) :
    o1.key b1 = o2.key b2
      ↔ o1.name = o2.name ∧ b1.cacheKey = b2.cacheKey ∧ o1.hashes = o2.hashes := by
  constructor
  · intro h
    have h2 := congrArg (fun x : String => x.data.reverse) h
    simp only [CachedOp.key_shape] at h2
    obtain ⟨hd, hn, hk⟩ := shape_inj _ _ _ _ _ _ o1.name_chars o2.name_chars
      o1.hashes_digits o2.hashes_digits h2
    refine ⟨string_of_data_reverse _ _ hn, string_of_data_reverse _ _ hk, ?_⟩
    have hinj : Function.Injective (fun h : String => h.data.reverse) :=
      fun s t hst => string_of_data_reverse s t hst
    exact List.reverse_injective (List.map_injective_iff.mpr hinj hd)
  · rintro ⟨hn, hk, hh⟩
    apply string_of_data_reverse
    rw [CachedOp.key_shape, CachedOp.key_shape, hn, hk, hh]

/-- C28: the store keys of the cached operations. For all bases `b1`, `b2`
(whatever their cache keys), identities and operations, the key built for one
operation in `b1` equals the key built for an operation in `b2` exactly when
the two operations are the same, the cache keys of `b1` and `b2` are equal and
the decimal hash components are equal; keys of two different operations are
never equal, so an entry written under the key of one operation leaves what a
`Get` of the key of a different operation finds unchanged.  The keys are those
of `GetUserID`, `GetRepositoryBySlug`, `GetRepositoryByID`, `ListRepositories`,
`ListBranches`, `ListTags` and `GetCommitID` in cache.go, and every access to
the store that one of these operations of `ServiceWithCache` makes, for non-nil
identities, is a `Get` or a `Set` under its key. -/
theorem C28_key_space_separation (b1 b2 : serviceWithCacheBase) (o1 o2 : CachedOp) :
    (o1.key b1 = o2.key b2
        ↔ o1.name = o2.name ∧ b1.cacheKey = b2.cacheKey ∧ o1.hashes = o2.hashes)
      ∧ (o1.name ≠ o2.name → o1.key b1 ≠ o2.key b2)
      ∧ (o1.name ≠ o2.name → ∀ (mem : Storage) (value : String),
          (mem.insert (cacheItem (o1.key b1) value)).lookup (o2.key b2)
            = mem.lookup (o2.key b2))
      ∧ (∀ (js : JSON) (mem : Storage),
          (o1.world js b1 mem).trace.all (Event.onKey (o1.key b1)) = true)
      ∧ (∀ (slug : Slug) (id : Metabase.ID) (ref : Reference),
          CachedOp.GetUserID.key b1 = b1.cacheKey ++ "/GetUserID"
            ∧ (CachedOp.GetRepositoryBySlug slug).key b1
                = b1.cacheKey ++ "/GetRepositoryBySlug/" ++ toString slug.Hash
            ∧ (CachedOp.GetRepositoryByID id).key b1
                = b1.cacheKey ++ "/GetRepositoryByID/" ++ toString id.Hash
            ∧ CachedOp.ListRepositories.key b1 = b1.cacheKey ++ "/ListRepositories"
            ∧ (CachedOp.ListBranches slug).key b1
                = b1.cacheKey ++ "/ListBranches/" ++ toString slug.Hash
            ∧ (CachedOp.ListTags slug).key b1
                = b1.cacheKey ++ "/ListTags/" ++ toString slug.Hash
            ∧ (CachedOp.GetCommitID slug ref).key b1
                = b1.cacheKey ++ "/GetCommitID/" ++ toString slug.Hash ++ "/"
                    ++ toString ref.Hash) := by
  have hne : o1.name ≠ o2.name → o1.key b1 ≠ o2.key b2 :=
    fun hn h => hn ((CachedOp.key_eq_iff b1 b2 o1 o2).mp h).1
  refine ⟨CachedOp.key_eq_iff b1 b2 o1 o2, hne, ?_,
    fun js mem => CachedOp.world_onKey js b1 mem o1, ?_⟩
  · intro hn mem value
    exact Storage.lookup_insert_of_ne mem _ _ (hne hn)
  · intro slug id ref
    exact ⟨rfl, rfl, rfl, rfl, rfl, rfl, rfl⟩

/-- C28 in the scenario of the tests: the branches key of the slug of the tests
differs from the tags key of the same slug under another cache key, and an
entry written under the former leaves the latter unread. -/
theorem C28_key_space_separation_witness :
    (CachedOp.ListBranches testSlug).name ≠ (CachedOp.ListTags testSlug).name
      ∧ (CachedOp.ListBranches testSlug).key
            (testBase (testService testFailure testFailure testFailure))
          ≠ (CachedOp.ListTags testSlug).key
            { raw := testService testFailure testFailure testFailure
              cacheStore := Store.working
              cacheKey := "repository-service/RepositoryServiceMock/0" }
      ∧ Storage.lookup
          (Storage.insert [] (cacheItem ((CachedOp.ListBranches testSlug).key
            (testBase (testService testFailure testFailure testFailure))) "null"))
          ((CachedOp.ListTags testSlug).key
            { raw := testService testFailure testFailure testFailure
              cacheStore := Store.working
              cacheKey := "repository-service/RepositoryServiceMock/0" })
          = Storage.lookup []
              ((CachedOp.ListTags testSlug).key
                { raw := testService testFailure testFailure testFailure
                  cacheStore := Store.working
                  cacheKey := "repository-service/RepositoryServiceMock/0" }) :=
  ⟨by decide,
   (C28_key_space_separation (testBase (testService testFailure testFailure testFailure))
      { raw := testService testFailure testFailure testFailure
        cacheStore := Store.working
        cacheKey := "repository-service/RepositoryServiceMock/0" }
      (CachedOp.ListBranches testSlug) (CachedOp.ListTags testSlug)).2.1 (by decide),
   (C28_key_space_separation (testBase (testService testFailure testFailure testFailure))
      { raw := testService testFailure testFailure testFailure
        cacheStore := Store.working
        cacheKey := "repository-service/RepositoryServiceMock/0" }
      (CachedOp.ListBranches testSlug) (CachedOp.ListTags testSlug)).2.2.1 (by decide) []
      "null"⟩

end Metabase

/-! ## Claims on repeated calls -/

namespace Metabase

section Repeated

variable (js : JSON) (b : serviceWithCacheBase)

theorem storageAfter_invariant {α : Type} (op : Op α) (P : Storage → Prop)
    (hstep : ∀ mem, P mem → P (op.run mem).world.storage) (n : Nat) (mem : Storage)
    (h : P mem) : P (storageAfter op n mem) := by
  induction n generalizing mem with
  | zero => exact h
  | succ n ih => exact ih _ (hstep mem h)

theorem cachedRepositoryBySlug_mismatch (S : Slug) (R : Repository) (bytes : String)
    (mem : Storage) (hs : b.cacheStore = Store.working)
    (hl : mem.lookup (b.repositoryBySlugKey S) = some (cacheItem (b.repositoryBySlugKey S) bytes))
    (hu : js.UnmarshalRepository bytes = some R) (hne : R.Slug ≠ S) :
    b.cachedRepositoryBySlug js mem S = none := by
  simp [serviceWithCacheBase.cachedRepositoryBySlug, hs, Store.Get, Store.working, hl, cacheItem,
    hu, hne]

theorem cachedRepositoryByID_mismatch (I : Metabase.ID) (R : Repository) (bytes : String)
    (mem : Storage) (hs : b.cacheStore = Store.working)
    (hl : mem.lookup (b.repositoryByIDKey I) = some (cacheItem (b.repositoryByIDKey I) bytes))
    (hu : js.UnmarshalRepository bytes = some R) (hne : R.ID ≠ I) :
    b.cachedRepositoryByID js mem I = none := by
  simp [serviceWithCacheBase.cachedRepositoryByID, hs, Store.Get, Store.working, hl, cacheItem,
    hu, hne]

theorem Latest_GetRepositoryBySlug_writes (S : Slug) (R : Option Repository) (bytes : String)
    (w : World) (hs : b.cacheStore = Store.working)
    (hraw : b.raw.GetRepositoryBySlug (some S) = (R, none))
    (hm : js.MarshalRepository R = some bytes) :
    ServiceWithLatest.GetRepositoryBySlug js { base := b } (some S) w
      = Res.ok (R, none)
          (afterWrite Store.working (afterCall w (Event.GetRepositoryBySlug (some S)))
            (some bytes) (b.repositoryBySlugKey S)) := by
  simp [Latest_GetRepositoryBySlug_eq, hraw, hm, hs]

theorem Latest_GetRepositoryByID_writes (I : Metabase.ID) (R : Option Repository)
    (bytes : String) (w : World) (hs : b.cacheStore = Store.working)
    (hraw : b.raw.GetRepositoryByID (some I) = (R, none))
    (hm : js.MarshalRepository R = some bytes) :
    ServiceWithLatest.GetRepositoryByID js { base := b } (some I) w
      = Res.ok (R, none)
          (afterWrite Store.working (afterCall w (Event.GetRepositoryByID (some I)))
            (some bytes) (b.repositoryByIDKey I)) := by
  simp [Latest_GetRepositoryByID_eq, hraw, hm, hs]

theorem Latest_ListRepositories_writes (L : Slice (Option Repository)) (bytes : String)
    (w : World) (hs : b.cacheStore = Store.working)
    (hraw : b.raw.ListRepositories = (L, none))
    (hm : js.MarshalRepositories L = some bytes) :
    ServiceWithLatest.ListRepositories js { base := b } w
      = Res.ok (L, none)
          (afterWrite Store.working (afterCall w Event.ListRepositories)
            (some bytes) (b.cacheKey ++ "/ListRepositories")) := by
  simp [Latest_ListRepositories_eq, hraw, hm, hs]

theorem afterWrite_adapterCalls_of_get (bytes key gkey : String) (mem : Storage) (e : Event)
    (he : e.isAdapter = true) :
    (afterWrite Store.working
        (afterCall (afterCall { storage := mem, trace := [] } (Event.storeGet gkey)) e)
        (some bytes) key).trace.filter Event.isAdapter = [e] := by
  rw [afterWrite_adapterCalls]
  have hg : (Event.storeGet gkey).isAdapter = false := rfl
  simp only [afterCall, List.nil_append, List.cons_append, List.filter_cons, hg, he, if_true,
    List.filter_nil]
  rfl

end Repeated

end Metabase

namespace Metabase

/-- C29: on a working store, when the adapter answers `GetRepositoryBySlug(S)`
with a repository `R` whose slug differs from `S` (and `R` marshals to `bytes`,
which unmarshal to `R`), the entry that `ServiceWithLatest.GetRepositoryBySlug`
writes under the key of `S` holds `bytes`; on every store content that holds
this entry under the key of `S`, `ServiceWithCache.GetRepositoryBySlug(S)`
finds no valid entry, calls the adapter exactly once, returns `(R, nil)` and
leaves the same entry; so after the write, however many calls of
`ServiceWithCache.GetRepositoryBySlug(S)` were made, the next one calls the
adapter again, exactly once.  The same holds for `GetRepositoryByID(I)` when
the id of the answered repository differs from `I`. -/
theorem C29_mismatched_answer_never_hits (js : JSON) (b : serviceWithCacheBase)
    (R : Repository) (bytes : String) (mem : Storage) (hs : b.cacheStore = Store.working)
    (hm : js.MarshalRepository (some R) = some bytes)
    (hu : js.UnmarshalRepository bytes = some R) :
    (∀ S : Slug, b.raw.GetRepositoryBySlug (some S) = (some R, none) → R.Slug ≠ S →
      ((ServiceWithLatest.GetRepositoryBySlug js { base := b } (some S)).run
          mem).world.storage.lookup (b.repositoryBySlugKey S)
          = some (cacheItem (b.repositoryBySlugKey S) bytes)
        ∧ (∀ m : Storage,
            m.lookup (b.repositoryBySlugKey S)
              = some (cacheItem (b.repositoryBySlugKey S) bytes) →
            b.cachedRepositoryBySlug js m S = none
              ∧ (((ServiceWithCache.ofBase b).GetRepositoryBySlug js (some S)).run
                  m).adapterCalls = [Event.GetRepositoryBySlug (some S)]
              ∧ (((ServiceWithCache.ofBase b).GetRepositoryBySlug js (some S)).run
                  m).value? = some (some R, none)
              ∧ (((ServiceWithCache.ofBase b).GetRepositoryBySlug js (some S)).run
                  m).world.storage.lookup (b.repositoryBySlugKey S)
                  = some (cacheItem (b.repositoryBySlugKey S) bytes))
        ∧ ∀ n : Nat,
          b.cachedRepositoryBySlug js
              (storageAfter ((ServiceWithCache.ofBase b).GetRepositoryBySlug js (some S)) n
                ((ServiceWithLatest.GetRepositoryBySlug js { base := b } (some S)).run
                  mem).world.storage) S = none
            ∧ (((ServiceWithCache.ofBase b).GetRepositoryBySlug js (some S)).run
                (storageAfter ((ServiceWithCache.ofBase b).GetRepositoryBySlug js (some S)) n
                  ((ServiceWithLatest.GetRepositoryBySlug js { base := b } (some S)).run
                    mem).world.storage)).adapterCalls = [Event.GetRepositoryBySlug (some S)]
            ∧ (((ServiceWithCache.ofBase b).GetRepositoryBySlug js (some S)).run
                (storageAfter ((ServiceWithCache.ofBase b).GetRepositoryBySlug js (some S)) n
                  ((ServiceWithLatest.GetRepositoryBySlug js { base := b } (some S)).run
                    mem).world.storage)).value? = some (some R, none))
    ∧ (∀ I : Metabase.ID, b.raw.GetRepositoryByID (some I) = (some R, none) → R.ID ≠ I →
      ((ServiceWithLatest.GetRepositoryByID js { base := b } (some I)).run
          mem).world.storage.lookup (b.repositoryByIDKey I)
          = some (cacheItem (b.repositoryByIDKey I) bytes)
        ∧ (∀ m : Storage,
            m.lookup (b.repositoryByIDKey I)
              = some (cacheItem (b.repositoryByIDKey I) bytes) →
            b.cachedRepositoryByID js m I = none
              ∧ (((ServiceWithCache.ofBase b).GetRepositoryByID js (some I)).run
                  m).adapterCalls = [Event.GetRepositoryByID (some I)]
              ∧ (((ServiceWithCache.ofBase b).GetRepositoryByID js (some I)).run
                  m).value? = some (some R, none)
              ∧ (((ServiceWithCache.ofBase b).GetRepositoryByID js (some I)).run
                  m).world.storage.lookup (b.repositoryByIDKey I)
                  = some (cacheItem (b.repositoryByIDKey I) bytes))
        ∧ ∀ n : Nat,
          b.cachedRepositoryByID js
              (storageAfter ((ServiceWithCache.ofBase b).GetRepositoryByID js (some I)) n
                ((ServiceWithLatest.GetRepositoryByID js { base := b } (some I)).run
                  mem).world.storage) I = none
            ∧ (((ServiceWithCache.ofBase b).GetRepositoryByID js (some I)).run
                (storageAfter ((ServiceWithCache.ofBase b).GetRepositoryByID js (some I)) n
                  ((ServiceWithLatest.GetRepositoryByID js { base := b } (some I)).run
                    mem).world.storage)).adapterCalls = [Event.GetRepositoryByID (some I)]
            ∧ (((ServiceWithCache.ofBase b).GetRepositoryByID js (some I)).run
                (storageAfter ((ServiceWithCache.ofBase b).GetRepositoryByID js (some I)) n
                  ((ServiceWithLatest.GetRepositoryByID js { base := b } (some I)).run
                    mem).world.storage)).value? = some (some R, none)) := by
  constructor
  · intro S hraw hne
    have hrun : ∀ m : Storage,
        m.lookup (b.repositoryBySlugKey S) = some (cacheItem (b.repositoryBySlugKey S) bytes) →
        ((ServiceWithCache.ofBase b).GetRepositoryBySlug js (some S)).run m
          = Res.ok (some R, none)
              (afterWrite Store.working
                (afterCall (afterCall { storage := m, trace := [] }
                  (Event.storeGet (b.repositoryBySlugKey S)))
                  (Event.GetRepositoryBySlug (some S)))
                (some bytes) (b.repositoryBySlugKey S)) := by
      intro m hl
      have hc := cachedRepositoryBySlug_mismatch js b S R bytes m hs hl hu hne
      simp only [Op.run, Cache_GetRepositoryBySlug_eq, hc]
      exact Latest_GetRepositoryBySlug_writes js b S (some R) bytes _ hs hraw hm
    have h0 : ((ServiceWithLatest.GetRepositoryBySlug js { base := b } (some S)).run
        mem).world.storage.lookup (b.repositoryBySlugKey S)
        = some (cacheItem (b.repositoryBySlugKey S) bytes) := by
      simp only [Op.run, Latest_GetRepositoryBySlug_writes js b S (some R) bytes _ hs hraw hm,
        Res.world]
      exact afterWrite_lookup _ _ _
    have hstep : ∀ m : Storage,
        m.lookup (b.repositoryBySlugKey S)
          = some (cacheItem (b.repositoryBySlugKey S) bytes) →
        (((ServiceWithCache.ofBase b).GetRepositoryBySlug js (some S)).run
          m).world.storage.lookup (b.repositoryBySlugKey S)
          = some (cacheItem (b.repositoryBySlugKey S) bytes) := by
      intro m hl
      simp only [hrun m hl, Res.world]
      exact afterWrite_lookup _ _ _
    refine ⟨h0, fun m hl => ⟨cachedRepositoryBySlug_mismatch js b S R bytes m hs hl hu hne,
      by rw [hrun m hl]; exact afterWrite_adapterCalls_of_get _ _ _ _ _ rfl,
      by rw [hrun m hl]; rfl, hstep m hl⟩, fun n => ?_⟩
    have hn := storageAfter_invariant
      ((ServiceWithCache.ofBase b).GetRepositoryBySlug js (some S))
      (fun m => m.lookup (b.repositoryBySlugKey S)
        = some (cacheItem (b.repositoryBySlugKey S) bytes))
      hstep n _ h0
    refine ⟨cachedRepositoryBySlug_mismatch js b S R bytes _ hs hn hu hne, ?_, ?_⟩
    · rw [hrun _ hn]
      exact afterWrite_adapterCalls_of_get _ _ _ _ _ rfl
    · rw [hrun _ hn]
      rfl
  · intro I hraw hne
    have hrun : ∀ m : Storage,
        m.lookup (b.repositoryByIDKey I) = some (cacheItem (b.repositoryByIDKey I) bytes) →
        ((ServiceWithCache.ofBase b).GetRepositoryByID js (some I)).run m
          = Res.ok (some R, none)
              (afterWrite Store.working
                (afterCall (afterCall { storage := m, trace := [] }
                  (Event.storeGet (b.repositoryByIDKey I)))
                  (Event.GetRepositoryByID (some I)))
                (some bytes) (b.repositoryByIDKey I)) := by
      intro m hl
      have hc := cachedRepositoryByID_mismatch js b I R bytes m hs hl hu hne
      simp only [Op.run, Cache_GetRepositoryByID_eq, hc]
      exact Latest_GetRepositoryByID_writes js b I (some R) bytes _ hs hraw hm
    have h0 : ((ServiceWithLatest.GetRepositoryByID js { base := b } (some I)).run
        mem).world.storage.lookup (b.repositoryByIDKey I)
        = some (cacheItem (b.repositoryByIDKey I) bytes) := by
      simp only [Op.run, Latest_GetRepositoryByID_writes js b I (some R) bytes _ hs hraw hm,
        Res.world]
      exact afterWrite_lookup _ _ _
    have hstep : ∀ m : Storage,
        m.lookup (b.repositoryByIDKey I)
          = some (cacheItem (b.repositoryByIDKey I) bytes) →
        (((ServiceWithCache.ofBase b).GetRepositoryByID js (some I)).run
          m).world.storage.lookup (b.repositoryByIDKey I)
          = some (cacheItem (b.repositoryByIDKey I) bytes) := by
      intro m hl
      simp only [hrun m hl, Res.world]
      exact afterWrite_lookup _ _ _
    refine ⟨h0, fun m hl => ⟨cachedRepositoryByID_mismatch js b I R bytes m hs hl hu hne,
      by rw [hrun m hl]; exact afterWrite_adapterCalls_of_get _ _ _ _ _ rfl,
      by rw [hrun m hl]; rfl, hstep m hl⟩, fun n => ?_⟩
    have hn := storageAfter_invariant
      ((ServiceWithCache.ofBase b).GetRepositoryByID js (some I))
      (fun m => m.lookup (b.repositoryByIDKey I)
        = some (cacheItem (b.repositoryByIDKey I) bytes))
      hstep n _ h0
    refine ⟨cachedRepositoryByID_mismatch js b I R bytes _ hs hn hu hne, ?_, ?_⟩
    · rw [hrun _ hn]
      exact afterWrite_adapterCalls_of_get _ _ _ _ _ rfl
    · rw [hrun _ hn]
      rfl

end Metabase

namespace Metabase

/-- C29 in the scenario of the conflicting repository: the adapter answers
`GetRepositoryBySlug(common-go)` with the repository `conflict-repo`; after the
write of `ServiceWithLatest` and two calls of `ServiceWithCache`, the third
call makes one adapter call again.  Likewise for `GetRepositoryByID` of the id
`300`, answered with the repository of id `200`. -/
theorem C29_mismatched_answer_never_hits_witness :
    (((ServiceWithCache.ofBase (testBase (testRepositoryService
          (some testConflictRepository, none)
          ("", some (Error.other "test: unexpected error"))))).GetRepositoryBySlug testFullJSON
        (some testSlug)).run
        (storageAfter ((ServiceWithCache.ofBase (testBase (testRepositoryService
            (some testConflictRepository, none)
            ("", some (Error.other "test: unexpected error"))))).GetRepositoryBySlug
            testFullJSON (some testSlug)) 2
          ((ServiceWithLatest.GetRepositoryBySlug testFullJSON
            { base := testBase (testRepositoryService (some testConflictRepository, none)
                ("", some (Error.other "test: unexpected error"))) }
            (some testSlug)).run []).world.storage)).adapterCalls
        = [Event.GetRepositoryBySlug (some testSlug)]
    ∧ (((ServiceWithCache.ofBase (testBase (testListService
          (Slice.nil, some (Error.other "test: unexpected error"))
          (some testRepository, none)))).GetRepositoryByID testFullJSON
        (some testStaleID)).run
        (storageAfter ((ServiceWithCache.ofBase (testBase (testListService
            (Slice.nil, some (Error.other "test: unexpected error"))
            (some testRepository, none)))).GetRepositoryByID testFullJSON
            (some testStaleID)) 2
          ((ServiceWithLatest.GetRepositoryByID testFullJSON
            { base := testBase (testListService
                (Slice.nil, some (Error.other "test: unexpected error"))
                (some testRepository, none)) }
            (some testStaleID)).run []).world.storage)).adapterCalls
        = [Event.GetRepositoryByID (some testStaleID)] :=
  ⟨(((C29_mismatched_answer_never_hits testFullJSON
      (testBase (testRepositoryService (some testConflictRepository, none)
        ("", some (Error.other "test: unexpected error"))))
      testConflictRepository (jsonRepository (some testConflictRepository)) [] rfl rfl
      (by rfl)).1 testSlug rfl (by decide)).2.2 2).2.1,
   (((C29_mismatched_answer_never_hits testFullJSON
      (testBase (testListService (Slice.nil, some (Error.other "test: unexpected error"))
        (some testRepository, none)))
      testRepository (jsonRepository (some testRepository)) [] rfl rfl
      (by rfl)).2 testStaleID rfl (by decide)).2.2 2).2.1⟩

end Metabase

namespace Metabase

/-- C30: on a working store, when the adapter answers `ListRepositories` with a
list `L` and no error, and `L` marshals to `bytes`, which unmarshal to `L`,
`ServiceWithLatest.ListRepositories` returns `(L, nil)` and leaves `bytes`
under the key of the operation.  On that store, when `L` is a non-nil list
(the empty list included), `ServiceWithCache.ListRepositories` returns
`(L, nil)` with no adapter call; when `L` is the nil list,
`repositoriesFromCacheItem` returns nil for the entry, on every store content
that holds this entry `ServiceWithCache.ListRepositories` calls the adapter
exactly once, returns `(nil, nil)` and leaves the same entry, so, however many
calls of `ServiceWithCache.ListRepositories` were made, the next one calls the
adapter again. -/
theorem C30_list_repositories_round_trip (js : JSON) (b : serviceWithCacheBase)
    (L : Slice (Option Repository)) (bytes : String) (mem : Storage)
    (hs : b.cacheStore = Store.working) (hraw : b.raw.ListRepositories = (L, none))
    (hm : js.MarshalRepositories L = some bytes)
    (hu : js.UnmarshalRepositories bytes = some L) :
    ((ServiceWithLatest.ListRepositories js { base := b }).run mem).value? = some (L, none)
      ∧ ((ServiceWithLatest.ListRepositories js { base := b }).run
          mem).world.storage.lookup (b.cacheKey ++ "/ListRepositories")
          = some (cacheItem (b.cacheKey ++ "/ListRepositories") bytes)
      ∧ (∀ xs, L = Slice.mk xs →
          (((ServiceWithCache.ofBase b).ListRepositories js).run
              ((ServiceWithLatest.ListRepositories js { base := b }).run
                mem).world.storage).value? = some (Slice.mk xs, none)
            ∧ (((ServiceWithCache.ofBase b).ListRepositories js).run
                ((ServiceWithLatest.ListRepositories js { base := b }).run
                  mem).world.storage).adapterCalls = [])
      ∧ (L = Slice.nil →
          repositoriesFromCacheItem js
              (some (cacheItem (b.cacheKey ++ "/ListRepositories") bytes)) = Slice.nil
            ∧ (∀ m : Storage,
                m.lookup (b.cacheKey ++ "/ListRepositories")
                  = some (cacheItem (b.cacheKey ++ "/ListRepositories") bytes) →
                (((ServiceWithCache.ofBase b).ListRepositories js).run m).adapterCalls
                    = [Event.ListRepositories]
                  ∧ (((ServiceWithCache.ofBase b).ListRepositories js).run m).value?
                      = some (Slice.nil, none)
                  ∧ (((ServiceWithCache.ofBase b).ListRepositories js).run
                      m).world.storage.lookup (b.cacheKey ++ "/ListRepositories")
                      = some (cacheItem (b.cacheKey ++ "/ListRepositories") bytes))
            ∧ ∀ n : Nat,
              (((ServiceWithCache.ofBase b).ListRepositories js).run
                  (storageAfter ((ServiceWithCache.ofBase b).ListRepositories js) n
                    ((ServiceWithLatest.ListRepositories js { base := b }).run
                      mem).world.storage)).adapterCalls = [Event.ListRepositories]
                ∧ (((ServiceWithCache.ofBase b).ListRepositories js).run
                    (storageAfter ((ServiceWithCache.ofBase b).ListRepositories js) n
                      ((ServiceWithLatest.ListRepositories js { base := b }).run
                        mem).world.storage)).value? = some (Slice.nil, none)) := by
  have hlatest : ∀ w : World, ServiceWithLatest.ListRepositories js { base := b } w
      = Res.ok (L, none)
          (afterWrite Store.working (afterCall w Event.ListRepositories)
            (some bytes) (b.cacheKey ++ "/ListRepositories")) :=
    fun w => Latest_ListRepositories_writes js b L bytes w hs hraw hm
  have h0 : ((ServiceWithLatest.ListRepositories js { base := b }).run
      mem).world.storage.lookup (b.cacheKey ++ "/ListRepositories")
      = some (cacheItem (b.cacheKey ++ "/ListRepositories") bytes) := by
    simp only [Op.run, hlatest, Res.world]
    exact afterWrite_lookup _ _ _
  have hdec : repositoriesFromCacheItem js
      (some (cacheItem (b.cacheKey ++ "/ListRepositories") bytes)) = L := by
    simp [repositoriesFromCacheItem, cacheItem, hu]
  have hview_mk : ∀ (m : Storage) (xs : List (Option Repository)), L = Slice.mk xs →
      m.lookup (b.cacheKey ++ "/ListRepositories")
        = some (cacheItem (b.cacheKey ++ "/ListRepositories") bytes) →
      b.cachedRepositories js m = some xs := by
    intro m xs hL hl
    simp only [serviceWithCacheBase.cachedRepositories, hs, Store.Get, Store.working, hl, hdec,
      hL]
  have hview_nil : ∀ m : Storage, L = Slice.nil →
      m.lookup (b.cacheKey ++ "/ListRepositories")
        = some (cacheItem (b.cacheKey ++ "/ListRepositories") bytes) →
      b.cachedRepositories js m = none := by
    intro m hL hl
    simp only [serviceWithCacheBase.cachedRepositories, hs, Store.Get, Store.working, hl, hdec,
      hL]
  refine ⟨by simp only [Op.run, hlatest]; rfl, h0, ?_, ?_⟩
  · intro xs hL
    generalize ((ServiceWithLatest.ListRepositories js { base := b }).run
      mem).world.storage = m1 at h0 ⊢
    have hc := hview_mk m1 xs hL h0
    simp only [Op.run, Cache_ListRepositories_eq, hc]
    exact ⟨rfl, rfl⟩
  · intro hL
    refine ⟨hdec.trans hL, ?_⟩
    have hrun : ∀ m : Storage,
        m.lookup (b.cacheKey ++ "/ListRepositories")
          = some (cacheItem (b.cacheKey ++ "/ListRepositories") bytes) →
        ((ServiceWithCache.ofBase b).ListRepositories js).run m
          = Res.ok (L, none)
              (afterWrite Store.working
                (afterCall (afterCall { storage := m, trace := [] }
                  (Event.storeGet (b.cacheKey ++ "/ListRepositories")))
                  Event.ListRepositories)
                (some bytes) (b.cacheKey ++ "/ListRepositories")) := by
      intro m hl
      have hc := hview_nil m hL hl
      simp only [Op.run, Cache_ListRepositories_eq, hc]
      exact hlatest _
    have hstep : ∀ m : Storage,
        m.lookup (b.cacheKey ++ "/ListRepositories")
          = some (cacheItem (b.cacheKey ++ "/ListRepositories") bytes) →
        (((ServiceWithCache.ofBase b).ListRepositories js).run
          m).world.storage.lookup (b.cacheKey ++ "/ListRepositories")
          = some (cacheItem (b.cacheKey ++ "/ListRepositories") bytes) := by
      intro m hl
      simp only [hrun m hl, Res.world]
      exact afterWrite_lookup _ _ _
    refine ⟨fun m hl => ⟨by rw [hrun m hl]; exact afterWrite_adapterCalls_of_get _ _ _ _ _ rfl,
      by rw [hrun m hl, hL]; rfl, hstep m hl⟩, fun n => ?_⟩
    have hn := storageAfter_invariant ((ServiceWithCache.ofBase b).ListRepositories js)
      (fun m => m.lookup (b.cacheKey ++ "/ListRepositories")
        = some (cacheItem (b.cacheKey ++ "/ListRepositories") bytes))
      hstep n _ h0
    constructor
    · rw [hrun _ hn]
      exact afterWrite_adapterCalls_of_get _ _ _ _ _ rfl
    · rw [hrun _ hn, hL]
      rfl

/-- C30 in the scenario of the tests: after `ServiceWithLatest.ListRepositories`
stored the list `[common-go]`, `ServiceWithCache.ListRepositories` returns it
with no adapter call; after it stored the nil list (the text `null`), and
three calls of `ServiceWithCache.ListRepositories`, the fourth one calls the
adapter again. -/
theorem C30_list_repositories_round_trip_witness :
    (((ServiceWithCache.ofBase (testBase (testListService
          (Slice.mk [some testRepository], none)
          (none, some (Error.other "test: unexpected error"))))).ListRepositories
        testListJSON).run
        ((ServiceWithLatest.ListRepositories testListJSON
          { base := testBase (testListService (Slice.mk [some testRepository], none)
              (none, some (Error.other "test: unexpected error"))) }).run
          []).world.storage).value? = some (Slice.mk [some testRepository], none)
    ∧ (((ServiceWithCache.ofBase (testBase (testListService
          (Slice.mk [some testRepository], none)
          (none, some (Error.other "test: unexpected error"))))).ListRepositories
        testListJSON).run
        ((ServiceWithLatest.ListRepositories testListJSON
          { base := testBase (testListService (Slice.mk [some testRepository], none)
              (none, some (Error.other "test: unexpected error"))) }).run
          []).world.storage).adapterCalls = []
    ∧ (((ServiceWithCache.ofBase (testBase (testListService (Slice.nil, none)
          (none, some (Error.other "test: unexpected error"))))).ListRepositories
        testListJSON).run
        (storageAfter ((ServiceWithCache.ofBase (testBase (testListService (Slice.nil, none)
            (none, some (Error.other "test: unexpected error"))))).ListRepositories
            testListJSON) 3
          ((ServiceWithLatest.ListRepositories testListJSON
            { base := testBase (testListService (Slice.nil, none)
                (none, some (Error.other "test: unexpected error"))) }).run
            []).world.storage)).adapterCalls = [Event.ListRepositories] :=
  ⟨((C30_list_repositories_round_trip testListJSON
      (testBase (testListService (Slice.mk [some testRepository], none)
        (none, some (Error.other "test: unexpected error"))))
      (Slice.mk [some testRepository]) (jsonRepositories (Slice.mk [some testRepository])) []
      rfl rfl rfl (by rfl)).2.2.1 [some testRepository] rfl).1,
   ((C30_list_repositories_round_trip testListJSON
      (testBase (testListService (Slice.mk [some testRepository], none)
        (none, some (Error.other "test: unexpected error"))))
      (Slice.mk [some testRepository]) (jsonRepositories (Slice.mk [some testRepository])) []
      rfl rfl rfl (by rfl)).2.2.1 [some testRepository] rfl).2,
   (((C30_list_repositories_round_trip testListJSON
      (testBase (testListService (Slice.nil, none)
        (none, some (Error.other "test: unexpected error"))))
      Slice.nil (jsonRepositories Slice.nil) [] rfl rfl rfl (by rfl)).2.2.2 rfl).2.2 3).1⟩

end Metabase

/-! ## Identities that are not valid UTF-8 -/

namespace Metabase

/-- C10 does not hold for a slug that is not valid UTF-8: for the slug
`github.com/tractrix/repo\xff` and the adapter answering `ListBranches` with
`(nil, ErrNotFound)`, `ServiceWithLatest.ListBranches` returns
`(nil, ErrNotFound)` and writes the envelope of the slug, in whose JSON text the
invalid byte is written `\ufffd`; the text reads back with another slug, so the
subsequent `retrieveBranchesCache` of the slug fails with `ErrCacheMiss`. -/
theorem C10_counterexample :
    ((ServiceWithLatest.ListBranches testCoercingJSON
        { base := testBase (testService testFailure (Slice.nil, some Error.ErrNotFound)
            testFailure) } (some testInvalidSlug)).run []).value?
        = some (Slice.nil, some Error.ErrNotFound)
      ∧ ((ServiceWithLatest.ListBranches testCoercingJSON
          { base := testBase (testService testFailure (Slice.nil, some Error.ErrNotFound)
              testFailure) } (some testInvalidSlug)).run []).world.storage
          = [referencesItem
              ((testBase (testService testFailure (Slice.nil, some Error.ErrNotFound)
                testFailure)).branchesCacheKey testInvalidSlug)
              (jsonReferences { Slug := testInvalidSlug, Refs := Slice.nil })]
      ∧ (((testBase (testService testFailure (Slice.nil, some Error.ErrNotFound)
            testFailure)).retrieveBranchesCache testCoercingJSON (some testInvalidSlug)).run
          ((ServiceWithLatest.ListBranches testCoercingJSON
            { base := testBase (testService testFailure (Slice.nil, some Error.ErrNotFound)
                testFailure) } (some testInvalidSlug)).run []).world.storage).value?
          = some (Slice.nil, some Error.ErrCacheMiss) := by
  refine ⟨by rfl, by rfl, by rfl⟩

/-- C13 does not hold for a slug that is not valid UTF-8: the store holds,
under the key of the slug `S = github.com/tractrix/repo\xff`, the JSON
serialization of a repository `R` with `R.Slug = S`; the text reads back with
another slug, so `ServiceWithCache.GetRepositoryBySlug(S)` calls the adapter
and, the adapter failing, returns its error instead of `(R, nil)`. -/
theorem C13_counterexample :
    testInvalidRepository.Slug = testInvalidSlug
      ∧ testCoercingJSON.MarshalRepository (some testInvalidRepository)
          = some (jsonRepository (some testInvalidRepository))
      ∧ (((ServiceWithCache.ofBase (testBase (testRepositoryService
            (none, some (Error.other "test: unexpected error"))
            ("", none)))).GetRepositoryBySlug testCoercingJSON (some testInvalidSlug)).run
          [cacheItem ((testBase (testRepositoryService
              (none, some (Error.other "test: unexpected error"))
              ("", none))).repositoryBySlugKey testInvalidSlug)
            (jsonRepository (some testInvalidRepository))]).adapterCalls
          = [Event.GetRepositoryBySlug (some testInvalidSlug)]
      ∧ (((ServiceWithCache.ofBase (testBase (testRepositoryService
            (none, some (Error.other "test: unexpected error"))
            ("", none)))).GetRepositoryBySlug testCoercingJSON (some testInvalidSlug)).run
          [cacheItem ((testBase (testRepositoryService
              (none, some (Error.other "test: unexpected error"))
              ("", none))).repositoryBySlugKey testInvalidSlug)
            (jsonRepository (some testInvalidRepository))]).value?
          = some (none, some (Error.other "test: unexpected error")) := by
  refine ⟨rfl, rfl, by rfl, by rfl⟩

/-- C29 does not hold when the answered repository is not valid UTF-8: the
adapter answers `GetRepositoryBySlug(S)`, for `S` named `repo` followed by
U+FFFD, with the repository `R` named `repo\xff`, whose slug differs from `S`;
the entry that `ServiceWithLatest` writes under the key of `S` reads back with
the slug `S`, so the next `ServiceWithCache.GetRepositoryBySlug(S)` is a hit:
it calls no adapter operation. -/
theorem C29_counterexample :
    testInvalidRepository.Slug ≠ testCoercedSlug
      ∧ ((ServiceWithLatest.GetRepositoryBySlug testCoercingJSON
          { base := testBase (testRepositoryService (some testInvalidRepository, none)
              ("", none)) } (some testCoercedSlug)).run []).value?
          = some (some testInvalidRepository, none)
      ∧ (((ServiceWithCache.ofBase (testBase (testRepositoryService
            (some testInvalidRepository, none)
            ("", none)))).GetRepositoryBySlug testCoercingJSON (some testCoercedSlug)).run
          ((ServiceWithLatest.GetRepositoryBySlug testCoercingJSON
            { base := testBase (testRepositoryService (some testInvalidRepository, none)
                ("", none)) } (some testCoercedSlug)).run []).world.storage).adapterCalls
          = []
      ∧ (((ServiceWithCache.ofBase (testBase (testRepositoryService
            (some testInvalidRepository, none)
            ("", none)))).GetRepositoryBySlug testCoercingJSON (some testCoercedSlug)).run
          ((ServiceWithLatest.GetRepositoryBySlug testCoercingJSON
            { base := testBase (testRepositoryService (some testInvalidRepository, none)
                ("", none)) } (some testCoercedSlug)).run []).world.storage).value?
          = some (some testCoercedRepository, none) := by
  refine ⟨by decide, by rfl, by rfl, by rfl⟩

/-- C30 does not hold for a list that is not valid UTF-8: after
`ServiceWithLatest.ListRepositories` succeeded with the non-nil list `L` of the
one repository named `repo\xff` and stored its serialization,
`ServiceWithCache.ListRepositories` returns, with no adapter call, the list of
the repository named `repo` followed by U+FFFD, which is not equal to `L`. -/
theorem C30_counterexample :
    ((ServiceWithLatest.ListRepositories testCoercingJSON
        { base := testBase (testListService (Slice.mk [some testInvalidRepository], none)
            (none, some (Error.other "test: unexpected error"))) }).run []).value?
        = some (Slice.mk [some testInvalidRepository], none)
      ∧ (((ServiceWithCache.ofBase (testBase (testListService
            (Slice.mk [some testInvalidRepository], none)
            (none, some (Error.other "test: unexpected error"))))).ListRepositories
          testCoercingJSON).run
          ((ServiceWithLatest.ListRepositories testCoercingJSON
            { base := testBase (testListService (Slice.mk [some testInvalidRepository], none)
                (none, some (Error.other "test: unexpected error"))) }).run
            []).world.storage).value?
          = some (Slice.mk [some testCoercedRepository], none)
      ∧ (((ServiceWithCache.ofBase (testBase (testListService
            (Slice.mk [some testInvalidRepository], none)
            (none, some (Error.other "test: unexpected error"))))).ListRepositories
          testCoercingJSON).run
          ((ServiceWithLatest.ListRepositories testCoercingJSON
            { base := testBase (testListService (Slice.mk [some testInvalidRepository], none)
                (none, some (Error.other "test: unexpected error"))) }).run
            []).world.storage).adapterCalls = []
      ∧ (Slice.mk [some testCoercedRepository] : Slice (Option Repository))
          ≠ Slice.mk [some testInvalidRepository] := by
  refine ⟨by rfl, by rfl, by rfl, by decide⟩

end Metabase
